import Mathlib

/-!
Verification of the streaming slide parser and batch-generation protocol of the
`preso` repository (`services/streamParser.ts`, `services/gemini.ts`).

The JavaScript/TypeScript code is shallowly embedded: strings are modelled as
`List Char` (with `String` at the API boundary), `JSON.parse` as a fueled
recursive-descent parser over the JSON grammar, the character-scanning loops of
`parseLiveStream` as structural recursions that consume one or two characters
exactly as the source loops do, and the regex operations as explicit
leftmost-match scanners with the same semantics as the concrete regexes in the
source.
-/

namespace Preso

/-! ## Generic list/string utilities (JS string operation semantics) -/

/-- Boolean prefix test on char lists. -/
def isPref : List Char → List Char → Bool
  | [], _ => true
  | _ :: _, [] => false
  | p :: ps, c :: cs => p = c && isPref ps cs

/-- Boolean substring (infix) test: JS `String.prototype.includes`. -/
def hasInfix (pat : List Char) : List Char → Bool
  | [] => isPref pat []
  | c :: cs => isPref pat (c :: cs) || hasInfix pat cs

/-- Fueled global literal replacement, leftmost and non-overlapping: the
semantics of JS `String.prototype.replace` with a global literal regex.
After a match, scanning resumes after the matched text. -/
def replAllF (pat rep : List Char) : Nat → List Char → List Char
  | 0, l => l
  | _ + 1, [] => []
  | fuel + 1, c :: cs =>
    if isPref pat (c :: cs) && pat ≠ [] then
      rep ++ replAllF pat rep fuel ((c :: cs).drop pat.length)
    else
      c :: replAllF pat rep fuel cs

/-- Global literal replacement (JS `s.replace(/pat/g, rep)` for a literal
pattern). -/
def replAll (pat rep l : List Char) : List Char :=
  replAllF pat rep (l.length + 1) l

/-- The whitespace class used by JS `trim` / regex `\s`: the ECMAScript
WhiteSpace and LineTerminator sets (tab, line feed, vertical tab, form feed,
carriage return, space, no-break space, Ogham space mark, the en/em spaces
U+2000 to U+200A, line separator, paragraph separator, narrow no-break space,
medium mathematical space, ideographic space, and the zero-width no-break
space U+FEFF). -/
def jsWs (c : Char) : Bool :=
  c = ' ' || c = '\t' || c = '\n' || c = '\r' || c = '\x0b' || c = '\x0c'
    || c = '\u00a0' || c = '\u1680' || ('\u2000' ≤ c && c ≤ '\u200a')
    || c = '\u2028' || c = '\u2029' || c = '\u202f' || c = '\u205f'
    || c = '\u3000' || c = '\ufeff'

/-- JS `String.prototype.trim`. -/
def listTrim (l : List Char) : List Char :=
  ((l.dropWhile (jsWs ·)).reverse.dropWhile (jsWs ·)).reverse

/-! ## The JSON value model and JS value semantics -/

/-- JSON values as produced by `JSON.parse`.  Numbers keep their literal
token (no claim in scope compares numeric values beyond zero-ness and
literal-value equality). -/
inductive Json where
  | null : Json
  | bool : Bool → Json
  | num : String → Json
  | str : String → Json
  | arr : List Json → Json
  | obj : List (String × Json) → Json
deriving BEq

/-- JS property read `o[k]`: `none` models `undefined`.  `JSON.parse` lets a
later duplicate key overwrite an earlier one, so the last binding wins.
(Reading a property of `null` would throw in JS; no claim in scope reads a
property of a parsed `null`, and this model returns `undefined` there.) -/
def Json.getField : Json → String → Option Json
  | .obj fields, k => (fields.reverse.find? (fun p => p.1 == k)).map (·.2)
  | _, _ => none

/-- Decompose a JSON number literal into (signed mantissa, decimal exponent),
so `value = m * 10 ^ e`. -/
def numParts (raw : String) : Int × Int :=
  let cs := raw.data
  let (neg, cs) : Bool × List Char := match cs with
    | '-' :: rest => (true, rest)
    | _ => (false, cs)
  let intPart := cs.takeWhile (fun c => c.isDigit)
  let rest := cs.dropWhile (fun c => c.isDigit)
  let (fracPart, rest) : List Char × List Char := match rest with
    | '.' :: r => (r.takeWhile (fun c => c.isDigit), r.dropWhile (fun c => c.isDigit))
    | _ => ([], rest)
  let digitsVal : List Char → Nat := fun ds =>
    Nat.ofDigits 10 ((ds.takeWhile (fun c => c.isDigit)).map (fun c => c.toNat - 48)).reverse
  let expPart : Int := match rest with
    | 'e' :: '-' :: r => -(Int.ofNat (digitsVal r))
    | 'E' :: '-' :: r => -(Int.ofNat (digitsVal r))
    | 'e' :: '+' :: r => Int.ofNat (digitsVal r)
    | 'E' :: '+' :: r => Int.ofNat (digitsVal r)
    | 'e' :: r => Int.ofNat (digitsVal r)
    | 'E' :: r => Int.ofNat (digitsVal r)
    | _ => 0
  let mant : Nat := Nat.ofDigits 10 ((intPart ++ fracPart).map (fun c => c.toNat - 48)).reverse
  let m : Int := if neg then -(Int.ofNat mant) else Int.ofNat mant
  (m, expPart - Int.ofNat fracPart.length)

/-- Literal-value equality of two JSON number tokens. -/
def numEq (a b : String) : Bool :=
  let (m1, e1) := numParts a
  let (m2, e2) := numParts b
  let e := min e1 e2
  m1 * (10 : Int) ^ (e1 - e).toNat == m2 * (10 : Int) ^ (e2 - e).toNat

/-- A JSON number literal denotes zero. -/
def numIsZero (raw : String) : Bool := (numParts raw).1 == 0

/-- JS truthiness of a possibly-`undefined` parsed value
(`undefined`, `null`, `false`, `0`, `""` are falsy). -/
def truthy : Option Json → Bool
  | none => false
  | some .null => false
  | some (.bool b) => b
  | some (.num raw) => !numIsZero raw
  | some (.str s) => s ≠ ""
  | some (.arr _) => true
  | some (.obj _) => true

/-- JS strict equality `===` on possibly-`undefined` parsed values.  Two
objects or arrays obtained from distinct `JSON.parse` calls are distinct
references, hence never strictly equal. -/
def jsStrictEq : Option Json → Option Json → Bool
  | none, none => true
  | some .null, some .null => true
  | some (.bool x), some (.bool y) => x == y
  | some (.str x), some (.str y) => x == y
  | some (.num x), some (.num y) => numEq x y
  | _, _ => false

/-! ## `JSON.parse` (strict, per the ECMA JSON grammar) -/

/-- JSON insignificant whitespace. -/
def jsonWs (c : Char) : Bool :=
  c = ' ' || c = '\t' || c = '\n' || c = '\r'

def skipWs (l : List Char) : List Char := l.dropWhile (jsonWs ·)

/-- Hex digit value. -/
def hexVal? (c : Char) : Option Nat :=
  if '0' ≤ c ∧ c ≤ '9' then some (c.toNat - 48)
  else if 'a' ≤ c ∧ c ≤ 'f' then some (c.toNat - 87)
  else if 'A' ≤ c ∧ c ≤ 'F' then some (c.toNat - 55)
  else none

/-- Decode the body of a JSON string literal (after the opening quote),
returning the decoded characters and the input after the closing quote.
Raw control characters are rejected, escapes are decoded, and `\uXXXX`
surrogate pairs are combined (an unpaired surrogate becomes U+FFFD, the
closest total model of a JS lone surrogate code unit).  The fuel argument
only forces termination; every call supplies at least the input length, which
is always sufficient since each step consumes at least one character. -/
def parseStringF : Nat → List Char → Option (List Char × List Char)
  | 0, _ => none
  | _ + 1, [] => none
  | fuel + 1, c :: rest =>
    if c = '"' then some ([], rest)
    else if c = '\\' then
      match rest with
      | [] => none
      | e :: rest =>
        if e = '"' then (parseStringF fuel rest).map (fun p => ('"' :: p.1, p.2))
        else if e = '\\' then (parseStringF fuel rest).map (fun p => ('\\' :: p.1, p.2))
        else if e = '/' then (parseStringF fuel rest).map (fun p => ('/' :: p.1, p.2))
        else if e = 'b' then (parseStringF fuel rest).map (fun p => ('\x08' :: p.1, p.2))
        else if e = 'f' then (parseStringF fuel rest).map (fun p => ('\x0c' :: p.1, p.2))
        else if e = 'n' then (parseStringF fuel rest).map (fun p => ('\n' :: p.1, p.2))
        else if e = 'r' then (parseStringF fuel rest).map (fun p => ('\r' :: p.1, p.2))
        else if e = 't' then (parseStringF fuel rest).map (fun p => ('\t' :: p.1, p.2))
        else if e = 'u' then
          match rest with
          | h1 :: h2 :: h3 :: h4 :: rest' =>
            match hexVal? h1, hexVal? h2, hexVal? h3, hexVal? h4 with
            | some a, some b, some c, some d =>
              let n := ((a * 16 + b) * 16 + c) * 16 + d
              if 0xD800 ≤ n ∧ n ≤ 0xDBFF then
                match rest' with
                | '\\' :: 'u' :: g1 :: g2 :: g3 :: g4 :: rest'' =>
                  match hexVal? g1, hexVal? g2, hexVal? g3, hexVal? g4 with
                  | some a', some b', some c', some d' =>
                    let m := ((a' * 16 + b') * 16 + c') * 16 + d'
                    if 0xDC00 ≤ m ∧ m ≤ 0xDFFF then
                      (parseStringF fuel rest'').map
                        (fun p => (Char.ofNat (0x10000 + (n - 0xD800) * 0x400 + (m - 0xDC00)) :: p.1, p.2))
                    else
                      (parseStringF fuel rest').map (fun p => ('�' :: p.1, p.2))
                  | _, _, _, _ =>
                    (parseStringF fuel rest').map (fun p => ('�' :: p.1, p.2))
                | _ => (parseStringF fuel rest').map (fun p => ('�' :: p.1, p.2))
              else if 0xDC00 ≤ n ∧ n ≤ 0xDFFF then
                (parseStringF fuel rest').map (fun p => ('�' :: p.1, p.2))
              else
                (parseStringF fuel rest').map (fun p => (Char.ofNat n :: p.1, p.2))
            | _, _, _, _ => none
          | _ => none
        else none
    else if c.toNat < 0x20 then none
    else (parseStringF fuel rest).map (fun p => (c :: p.1, p.2))

/-- Decode a JSON string body with sufficient fuel. -/
def parseStringChars (l : List Char) : Option (List Char × List Char) :=
  parseStringF (l.length + 1) l

/-- Lex a JSON number token (already known to start with `-` or a digit),
returning the token characters and the rest. -/
def parseNumberToken (l : List Char) : Option (List Char × List Char) :=
  let (sign, l1) := match l with
    | '-' :: r => (['-'], r)
    | _ => (([] : List Char), l)
  match l1 with
  | c :: _ =>
    if ¬ c.isDigit then none
    else
      let intPart := l1.takeWhile (fun c => c.isDigit)
      let r1 := l1.dropWhile (fun c => c.isDigit)
      if intPart.length > 1 ∧ intPart.headI = '0' then none
      else
        let (fracPart, r2) : List Char × List Char := match r1 with
          | '.' :: r => (('.' :: r.takeWhile (fun c => c.isDigit)), r.dropWhile (fun c => c.isDigit))
          | _ => (([] : List Char), r1)
        if fracPart = ['.'] then none
        else
          let (expPart, r3) : List Char × List Char := match r2 with
            | e :: rest =>
              if e = 'e' ∨ e = 'E' then
                match rest with
                | s :: rest' =>
                  if s = '+' ∨ s = '-' then
                    if (rest'.takeWhile (fun c => c.isDigit)) = [] then ([], r2)
                    else (e :: s :: rest'.takeWhile (fun c => c.isDigit), rest'.dropWhile (fun c => c.isDigit))
                  else if (rest.takeWhile (fun c => c.isDigit)) = [] then ([], r2)
                  else (e :: rest.takeWhile (fun c => c.isDigit), rest.dropWhile (fun c => c.isDigit))
                | [] => ([], r2)
              else ([], r2)
            | [] => ([], r2)
          some (sign ++ intPart ++ fracPart ++ expPart, r3)
  | [] => none

/-- What the recursive-descent JSON parser is currently parsing: a value, the
members of a non-empty object body, or the elements of a non-empty array body
(with the members/elements parsed so far). -/
inductive PMode where
  | value : PMode
  | members : List (String × Json) → PMode
  | elems : List Json → PMode

/-- The recursive descent over the JSON grammar, as one fuel-structural
function (`fuel` only forces termination; `jsonParse` supplies enough for any
input).  In `value` mode the input starts at a value's first character,
whitespace already skipped; `members`/`elems` mode is entered after `{` / `[`
when the body is not immediately closed. -/
def parseF : Nat → PMode → List Char → Option (Json × List Char)
  | 0, _, _ => none
  | fuel + 1, .value, l =>
    match l with
    | '{' :: rest =>
      match skipWs rest with
      | '}' :: r2 => some (Json.obj [], r2)
      | r => parseF fuel (.members []) r
    | '[' :: rest =>
      match skipWs rest with
      | ']' :: r2 => some (Json.arr [], r2)
      | r => parseF fuel (.elems []) r
    | '"' :: rest => (parseStringChars rest).map (fun p => (Json.str (String.mk p.1), p.2))
    | 't' :: 'r' :: 'u' :: 'e' :: rest => some (Json.bool true, rest)
    | 'f' :: 'a' :: 'l' :: 's' :: 'e' :: rest => some (Json.bool false, rest)
    | 'n' :: 'u' :: 'l' :: 'l' :: rest => some (Json.null, rest)
    | c :: _ =>
      if c = '-' ∨ c.isDigit then
        (parseNumberToken l).map (fun p => (Json.num (String.mk p.1), p.2))
      else none
    | [] => none
  | fuel + 1, .members acc, l =>
    match l with
    | '"' :: rest =>
      match parseStringChars rest with
      | none => none
      | some (k, r1) =>
        match skipWs r1 with
        | ':' :: r2 =>
          match parseF fuel .value (skipWs r2) with
          | none => none
          | some (v, r3) =>
            match skipWs r3 with
            | ',' :: r4 => parseF fuel (.members (acc ++ [(String.mk k, v)])) (skipWs r4)
            | '}' :: r4 => some (Json.obj (acc ++ [(String.mk k, v)]), r4)
            | _ => none
        | _ => none
    | _ => none
  | fuel + 1, .elems acc, l =>
    match parseF fuel .value l with
    | none => none
    | some (v, r1) =>
      match skipWs r1 with
      | ',' :: r2 => parseF fuel (.elems (acc ++ [v])) (skipWs r2)
      | ']' :: r2 => some (Json.arr (acc ++ [v]), r2)
      | _ => none

/-- `JSON.parse`: strict parse of a whole text (allowing surrounding
whitespace, rejecting trailing garbage); `none` models a thrown
`SyntaxError`. -/
def jsonParse (l : List Char) : Option Json :=
  match parseF (2 * l.length + 2) .value (skipWs l) with
  | some (v, rest) => if skipWs rest = [] then some v else none
  | none => none

/-! ## `parseLiveStream` (services/streamParser.ts)

The character loops of the source are embedded as recursions that consume one
character per step, or two when the escape look-ahead `char === "\\"` fires,
exactly as the loops advance `i`/`j`.  Substring positions
(`currentObjectStartIndex`, `lastValidBatchEndIndex`, `slideStartIndex`,
`lastParsedSlideEnd`) are represented by accumulating, in reverse, the
characters of the substring each position delimits. -/

/-- State of the Phase 1 scan: `brace`/`inStr` are `braceCount`/`inString`;
`cur = some rcs` holds the reversed characters from `currentObjectStartIndex`
(with `cur = none` for `-1`); `pending` holds the reversed characters from
`lastValidBatchEndIndex`; `slides` is the `completeSlides` accumulator. -/
structure Scan1 where
  brace : Int
  inStr : Bool
  cur : Option (List Char)
  pending : List Char
  slides : List Json

/-- Append a processed character to the substring accumulators. -/
def push1 (st : Scan1) (c : Char) : Scan1 :=
  { st with cur := st.cur.map (c :: ·), pending := c :: st.pending }

/-- The body of the Phase 1 loop for one (non-skipped) character. -/
def scan1Step (st : Scan1) (c : Char) : Scan1 :=
  -- if (char === '"') { inString = !inString; }
  let st := { st with inStr := if c = '"' then !st.inStr else st.inStr }
  if st.inStr then push1 st c
  else if c = '{' then
    -- if (braceCount === 0) currentObjectStartIndex = i; braceCount++;
    let st := if st.brace = 0 then { st with cur := some [] } else st
    push1 { st with brace := st.brace + 1 } c
  else if c = '}' then
    let st := push1 { st with brace := st.brace - 1 } c
    match st.cur with
    | some rcs =>
      if st.brace = 0 then
        -- root-level closure: try JSON.parse on the candidate batch
        match jsonParse rcs.reverse with
        | some batch =>
          let slides := match batch.getField "slides" with
            | some (Json.arr xs) => st.slides ++ xs
            | _ => st.slides
          -- lastValidBatchEndIndex = i + 1 (also on parse success without slides)
          { st with cur := none, pending := [], slides := slides }
        | none =>
          -- parse failure: silently skip, cursor not advanced
          { st with cur := none }
      else st
    | none => st
  else push1 st c

/-- Phase 1 loop: extract fully completed top-level batch objects.
Mirrors the first `for` loop of `parseLiveStream`. -/
def scan1 : List Char → Scan1 → Scan1
  | [], st => st
  | '\\' :: c2 :: rest, st =>
    -- if (char === "\\" && i + 1 < cleanStream.length) { i++; continue; }
    scan1 rest (push1 (push1 st '\\') c2)
  | c :: rest, st => scan1 rest (scan1Step st c)

/-- State of the Phase 2 scan inside the open batch: `active` holds the
reversed characters from `lastParsedSlideEnd`; `slides` continues the shared
`completeSlides` accumulator. -/
structure Scan2 where
  brace : Int
  inStr : Bool
  cur : Option (List Char)
  active : List Char
  slides : List Json

/-- Append a processed character to the Phase 2 substring accumulators. -/
def push2 (st : Scan2) (c : Char) : Scan2 :=
  { st with cur := st.cur.map (c :: ·), active := c :: st.active }

/-- The body of the Phase 2 loop for one (non-skipped) character. -/
def scan2Step (st : Scan2) (c : Char) : Scan2 :=
  let st := { st with inStr := if c = '"' then !st.inStr else st.inStr }
  if st.inStr then push2 st c
  else if c = '{' then
    let st := if st.brace = 0 then { st with cur := some [] } else st
    push2 { st with brace := st.brace + 1 } c
  else if c = '}' then
    let st := push2 { st with brace := st.brace - 1 } c
    match st.cur with
    | some rcs =>
      if st.brace = 0 then
        match jsonParse rcs.reverse with
        | some slide =>
          if truthy (slide.getField "title") && truthy (slide.getField "content") then
            -- deduplication check against everything accumulated so far
            let dup := st.slides.any
              (fun s => jsStrictEq (s.getField "title") (slide.getField "title"))
            let slides := if dup then st.slides else st.slides ++ [slide]
            -- lastParsedSlideEnd = j + 1 (in both dedup branches)
            { st with cur := none, active := [], slides := slides }
          else { st with cur := none }
        | none => { st with cur := none }
      else st
    | none => st
  else push2 st c

/-- Phase 2 loop: find fully-closed slide objects inside the open batch's
slides array.  Mirrors the second `for` loop of `parseLiveStream`. -/
def scan2 : List Char → Scan2 → Scan2
  | [], st => st
  | '\\' :: c2 :: rest, st =>
    -- if (char === "\\") { j++; continue; }
    scan2 rest (push2 (push2 st '\\') c2)
  | c :: rest, st => scan2 rest (scan2Step st c)

/-- First match of the regex `"slides"\s*:\s*\[` at the head of the input:
on success, return the input after the match. -/
def slidesPatAt : List Char → Option (List Char)
  | '"' :: 's' :: 'l' :: 'i' :: 'd' :: 'e' :: 's' :: '"' :: rest =>
    match (rest.dropWhile (jsWs ·)) with
    | ':' :: rest' =>
      match (rest'.dropWhile (jsWs ·)) with
      | '[' :: rest'' => some rest''
      | _ => none
    | _ => none
  | _ => none

/-- Leftmost match of `"slides"\s*:\s*\[` anywhere in the input (JS
`String.prototype.match`): returns the input after the matched text. -/
def findSlidesArr : List Char → Option (List Char)
  | [] => none
  | c :: cs =>
    match slidesPatAt (c :: cs) with
    | some rest => some rest
    | none => findSlidesArr cs

/-- First match of the regex `"content"\s*:\s*"` at the head of the input:
on success, return the input after the match. -/
def contentPatAt : List Char → Option (List Char)
  | '"' :: 'c' :: 'o' :: 'n' :: 't' :: 'e' :: 'n' :: 't' :: '"' :: rest =>
    match (rest.dropWhile (jsWs ·)) with
    | ':' :: rest' =>
      match (rest'.dropWhile (jsWs ·)) with
      | '"' :: rest'' => some rest''
      | _ => none
    | _ => none
  | _ => none

/-- Leftmost match of `"content"\s*:\s*"` anywhere in the input: returns the
input after the matched text. -/
def findContentPat : List Char → Option (List Char)
  | [] => none
  | c :: cs =>
    match contentPatAt (c :: cs) with
    | some rest => some rest
    | none => findContentPat cs

/-- The partial-HTML unescaping of Phase 3:
`.replace(/\\"/g, '"').replace(/\\n/g, "\n").replace(/\\\\/g, "\\")`. -/
def unescapePartial (l : List Char) : List Char :=
  replAll ['\\', '\\'] ['\\'] (replAll ['\\', 'n'] ['\n'] (replAll ['\\', '"'] ['"'] l))

/-- Phase 3: extract the in-progress HTML from the active (still open) slide
region.  Returns the `inProgressHtml` value. -/
def phase3 (activeSlidePart : List Char) : List Char :=
  match findContentPat activeSlidePart with
  | none => []
  | some raw =>
    let partialHtml := unescapePartial raw
    if hasInfix ['>'] partialHtml then
      if hasInfix ['<', '/', 'd', 'i', 'v', '>'] partialHtml then partialHtml
      else partialHtml ++ ['<', '/', 'd', 'i', 'v', '>']
    else []

/-- The sanitizer: remove every occurrence of the fenced-code markers and trim,
mirroring `stream.replace(/```json/g, "").replace(/```/g, "").trim()`. -/
def sanitize (l : List Char) : List Char :=
  listTrim (replAll ['\x60', '\x60', '\x60'] []
    (replAll ['\x60', '\x60', '\x60', 'j', 's', 'o', 'n'] [] l))

/-- The result record of `parseLiveStream`. -/
structure ParseResult where
  completeSlides : List Json
  inProgressHtml : String
deriving BEq

/-- `parseLiveStream` over character lists. -/
def parseLiveStreamL (stream : List Char) (isStreamComplete : Bool) : ParseResult :=
  let cleanStream := sanitize stream
  -- Phase 1: extract fully completed batches
  let st1 := scan1 cleanStream
    { brace := 0, inStr := false, cur := none, pending := [], slides := [] }
  let remainingStream := st1.pending.reverse
  match findSlidesArr remainingStream with
  | none => { completeSlides := st1.slides, inProgressHtml := "" }
  | some slidesString =>
    -- Phase 2: peek inside the open batch
    let st2 := scan2 slidesString
      { brace := 0, inStr := false, cur := none, active := [], slides := st1.slides }
    -- Phase 3: only when the stream is not yet complete
    let html := if isStreamComplete then [] else phase3 st2.active.reverse
    { completeSlides := st2.slides, inProgressHtml := String.mk html }

/-- `parseLiveStream` at the string API boundary. -/
def parseLiveStream (stream : String) (isStreamComplete : Bool := false) : ParseResult :=
  parseLiveStreamL stream.data isStreamComplete

/-! ## `encodeURIComponent` / `decodeURIComponent` -/

/-- The characters `encodeURIComponent` leaves unescaped:
`A-Z a-z 0-9 - _ . ! ~ * ' ( )`. -/
def uriUnescapedSet (c : Char) : Bool :=
  c.isAlpha || c.isDigit ||
    c = '-' || c = '_' || c = '.' || c = '!' || c = '~' || c = '*' ||
    c = '\'' || c = '(' || c = ')'

/-- UTF-8 encoding of one character. -/
def utf8Bytes (c : Char) : List Nat :=
  let n := c.toNat
  if n < 0x80 then [n]
  else if n < 0x800 then [0xC0 + n / 64, 0x80 + n % 64]
  else if n < 0x10000 then [0xE0 + n / 4096, 0x80 + (n / 64) % 64, 0x80 + n % 64]
  else [0xF0 + n / 262144, 0x80 + (n / 4096) % 64, 0x80 + (n / 64) % 64, 0x80 + n % 64]

/-- Uppercase hex digit. -/
def hexDigitUpper (n : Nat) : Char :=
  if n < 10 then Char.ofNat (48 + n) else Char.ofNat (55 + n)

/-- `encodeURIComponent` over character lists. -/
def encodeURIComponent (l : List Char) : List Char :=
  l.flatMap (fun c =>
    if uriUnescapedSet c then [c]
    else (utf8Bytes c).flatMap (fun b => ['%', hexDigitUpper (b / 16), hexDigitUpper (b % 16)]))

/-- Read a `%XX` escape: returns the byte and the rest after the two hex
digits (the input starts after the `%`). -/
def hexByte? : List Char → Option (Nat × List Char)
  | h1 :: h2 :: rest =>
    match hexVal? h1, hexVal? h2 with
    | some a, some b => some (a * 16 + b, rest)
    | _, _ => none
  | _ => none

/-- Read one continuation `%XX` escape whose byte is `0x80..0xBF`. -/
def contByte? : List Char → Option (Nat × List Char)
  | '%' :: rest =>
    match hexByte? rest with
    | some (b, rest') => if 0x80 ≤ b ∧ b ≤ 0xBF then some (b % 64, rest') else none
    | none => none
  | _ => none

/-- `decodeURIComponent` over character lists: `%`-escapes are decoded as
strictly validated UTF-8 (no overlong forms, no surrogates, max U+10FFFF);
`none` models a thrown `URIError`. -/
def decodeURIGo : Nat → List Char → Option (List Char)
  | 0, _ => none
  | _ + 1, [] => some []
  | fuel + 1, '%' :: rest =>
    match hexByte? rest with
    | none => none
    | some (b, r1) =>
      if b < 0x80 then (decodeURIGo fuel r1).map (Char.ofNat b :: ·)
      else if 0xC2 ≤ b ∧ b ≤ 0xDF then
        match contByte? r1 with
        | some (b2, r2) => (decodeURIGo fuel r2).map (Char.ofNat ((b - 0xC0) * 64 + b2) :: ·)
        | none => none
      else if 0xE0 ≤ b ∧ b ≤ 0xEF then
        match contByte? r1 with
        | some (b2, r2) =>
          match contByte? r2 with
          | some (b3, r3) =>
            let n := (b - 0xE0) * 4096 + b2 * 64 + b3
            if 0x800 ≤ n ∧ ¬ (0xD800 ≤ n ∧ n ≤ 0xDFFF) then
              (decodeURIGo fuel r3).map (Char.ofNat n :: ·)
            else none
          | none => none
        | none => none
      else if 0xF0 ≤ b ∧ b ≤ 0xF4 then
        match contByte? r1 with
        | some (b2, r2) =>
          match contByte? r2 with
          | some (b3, r3) =>
            match contByte? r3 with
            | some (b4, r4) =>
              let n := (b - 0xF0) * 262144 + b2 * 4096 + b3 * 64 + b4
              if 0x10000 ≤ n ∧ n ≤ 0x10FFFF then
                (decodeURIGo fuel r4).map (Char.ofNat n :: ·)
              else none
            | none => none
          | none => none
        | none => none
      else none
  | fuel + 1, c :: cs => (decodeURIGo fuel cs).map (c :: ·)

/-- `decodeURIComponent`; `none` models a thrown `URIError`. -/
def decodeURIComponent (l : List Char) : Option (List Char) :=
  decodeURIGo (l.length + 1) l

/-! ## `transformPollinationsURLs` (services/streamParser.ts) -/

/-- Case-insensitive prefix test (the regex has the `i` flag). -/
def ciPref : List Char → List Char → Bool
  | [], _ => true
  | _ :: _, [] => false
  | p :: ps, c :: cs => p.toLower = c.toLower && ciPref ps cs

/-- The character class `[^\\"\s>]` of the pollinations URL regex. -/
def pollAllowed (c : Char) : Bool :=
  ¬ (c = '\\' || c = '"' || jsWs c || c = '>')

/-- The fixed part of the pollinations URL pattern after `https?`. -/
def pollTail : List Char := "://gen.pollinations.ai/image/".data

/-- Match `https?:\/\/gen\.pollinations\.ai\/image\/([^\\"\s>]+)` (with the
`i` flag) at the head of the input: returns the capture and the rest. -/
def matchPoll (l : List Char) : Option (List Char × List Char) :=
  if ciPref "http".data l then
    let l4 := l.drop 4
    let afterPath : Option (List Char) :=
      match l4 with
      | c :: rest =>
        if (c = 's' ∨ c = 'S') && ciPref pollTail rest then
          some (rest.drop pollTail.length)
        else if ciPref pollTail l4 then some (l4.drop pollTail.length)
        else none
      | [] => none
    match afterPath with
    | some after =>
      let raw := after.takeWhile (pollAllowed ·)
      if raw = [] then none else some (raw, after.drop raw.length)
    | none => none
  else none

/-- The global leftmost-to-rightmost replacement loop of
`transformPollinationsURLs`; `none` models a `URIError` escaping from the
replacement callback. -/
def transformPollGo (key : List Char) : Nat → List Char → Option (List Char)
  | 0, _ => none
  | _ + 1, [] => some []
  | fuel + 1, c :: cs =>
    match matchPoll (c :: cs) with
    | some (raw, rest) => do
      let desc1 := replAll ['_'] [' '] raw
      let desc ← decodeURIComponent desc1
      let encoded := encodeURIComponent desc
      let tl ← transformPollGo key fuel rest
      pure ("https://gen.pollinations.ai/image/".data ++ encoded
        ++ "?model=flux&key=".data ++ key ++ tl)
    | none => (transformPollGo key fuel cs).map (c :: ·)

/-- `transformPollinationsURLs(input, apiKey)`; `none` models a thrown
`URIError` from `decodeURIComponent` on a malformed escape. -/
def transformPollinationsURLs (input : String) (apiKey : String) : Option String :=
  (transformPollGo apiKey.data (input.data.length + 1) input.data).map String.mk

/-! ## `convertQuickChartTags` (services/streamParser.ts) -/

/-- The regex word class `[\w-]`. -/
def wordDash (c : Char) : Bool :=
  c.isAlpha || c.isDigit || c = '_' || c = '-'

/-- JS object property assignment: a later duplicate key keeps the original
insertion position but takes the new value. -/
def assignAttr : List (String × String) → String → String → List (String × String)
  | [], k, v => [(k, v)]
  | (k', v') :: rest, k, v =>
    if k' = k then (k', v) :: rest else (k', v') :: assignAttr rest k v

/-- One attempt of the regex `([\w-]+)\s*=\s*(["'])([\s\S]*?)\2` at the head
of the input: returns name, value and the rest after the closing quote. -/
def attrAt (l : List Char) : Option (String × String × List Char) :=
  let name := l.takeWhile (wordDash ·)
  if name = [] then none
  else
    match (l.drop name.length).dropWhile (jsWs ·) with
    | '=' :: r2 =>
      match r2.dropWhile (jsWs ·) with
      | q :: r4 =>
        if q = '"' ∨ q = '\'' then
          let v := r4.takeWhile (fun c => c ≠ q)
          match r4.dropWhile (fun c => c ≠ q) with
          | _ :: r5 => some (String.mk name, String.mk v, r5)
          | [] => none
        else none
      | [] => none
    | _ => none

/-- The `attributeRegex.exec` loop: collect every attribute match, later
duplicate names overwriting earlier values. -/
def attrScan : Nat → List Char → List (String × String) → List (String × String)
  | 0, _, acc => acc
  | _ + 1, [], acc => acc
  | fuel + 1, c :: cs, acc =>
    match attrAt (c :: cs) with
    | some (k, v, rest) => attrScan fuel rest (assignAttr acc k v)
    | none => attrScan fuel cs acc

/-- The literal `<quickchart` the tag regex starts with. -/
def qcTag : List Char := "<quickchart".data

/-- Split the text after `<quickchart` by the lazy `([\s\S]+?)>`: at least one
character, then everything up to the first `>` strictly after it. -/
def qcAttrSplit : List Char → Option (List Char × List Char)
  | [] => none
  | a :: more =>
    match more.dropWhile (fun c => c ≠ '>') with
    | _ :: rest => some (a :: more.takeWhile (fun c => c ≠ '>'), rest)
    | [] => none

/-- Build the replacement for one matched `<quickchart ...>` tag. -/
def qcReplace (attrChars : List Char) : List Char :=
  let cleaned := replAll ['\\', '\''] ['\''] (replAll ['\\', '"'] ['"'] attrChars)
  let attrs := attrScan (cleaned.length + 1) cleaned []
  match (attrs.find? (fun p => p.1 == "config")).map (·.2) with
  | none => qcTag ++ attrChars ++ ['>']
  | some config =>
    let encodedConfig := encodeURIComponent (replAll ['\''] ['"'] config.data)
    let start := "<img src=\"https://quickchart.io/chart?c=".data ++ encodedConfig ++ ['"']
    let withAttrs := attrs.foldl
      (fun acc p =>
        if p.1 = "config" then acc
        else acc ++ [' '] ++ p.1.data ++ ['=', '"']
          ++ replAll ['"'] "&quot;".data p.2.data ++ ['"'])
      start
    withAttrs ++ ['>']

/-- The global replacement loop over `/<quickchart([\s\S]+?)>/g`. -/
def qcScan : Nat → List Char → List Char
  | 0, l => l
  | _ + 1, [] => []
  | fuel + 1, c :: cs =>
    if isPref qcTag (c :: cs) then
      match qcAttrSplit ((c :: cs).drop 11) with
      | some (attrChars, rest) => qcReplace attrChars ++ qcScan fuel rest
      | none => c :: qcScan fuel cs
    else c :: qcScan fuel cs

/-- `convertQuickChartTags(htmlString)`. -/
def convertQuickChartTags (htmlString : String) : String :=
  String.mk (qcScan (htmlString.data.length + 1) htmlString.data)

/-! ## `_withRetry` (services/gemini.ts) -/

/-- A thrown JS error as far as `_withRetry` inspects it: a message string
(`""` standing for an absent message) and an optional numeric `code`. -/
structure JsError where
  message : String
  code : Option Int
deriving BEq, DecidableEq

/-- The rate-limit test of `_withRetry`:
`(error.message && error.message.includes("429")) || error.code == 429`. -/
def is429 (e : JsError) : Bool :=
  (e.message ≠ "" && hasInfix ['4', '2', '9'] e.message.data) || e.code == some 429

/-- Outcome of `_withRetry`: a value, or a thrown error. -/
inductive RetryResult (T : Type) where
  | ok : T → RetryResult T
  | thrown : JsError → RetryResult T
deriving BEq, DecidableEq

/-- The exhaustion error message
`` `AI service failed after ${maxRetries} attempts. Last error: ${lastError?.message}` ``. -/
def exhaustMsg (maxRetries : Nat) (lastErr : Option JsError) : String :=
  s!"AI service failed after {maxRetries} attempts. Last error: "
    ++ (match lastErr with | some e => e.message | none => "undefined")

/-- The retry loop of `_withRetry`.  `attempt i` is the outcome of the `i`-th
call of the wrapped function; `rem` counts the remaining loop iterations
(`maxRetries - i`); the returned list holds the backoff delays awaited, in
milliseconds (`1000 * (i + 1)` after the `i`-th failed non-429 attempt). -/
def withRetryGo (attempt : Nat → Except JsError T) (maxRetries : Nat) :
    Nat → Nat → Option JsError → List Nat → RetryResult T × List Nat
  | 0, _, lastErr, delays =>
    (.thrown { message := exhaustMsg maxRetries lastErr, code := none }, delays)
  | rem + 1, i, _, delays =>
    match attempt i with
    | .ok t => (.ok t, delays)
    | .error e =>
      if is429 e then (.thrown e, delays)
      else withRetryGo attempt maxRetries rem (i + 1) (some e) (delays ++ [1000 * (i + 1)])

/-- `_withRetry(fn, maxRetries = 3)` under a fixed outcome sequence for the
wrapped call: returns the result (value or thrown error) together with the
list of backoff delays awaited. -/
def withRetry (attempt : Nat → Except JsError T) (maxRetries : Nat := 3) :
    RetryResult T × List Nat :=
  withRetryGo attempt maxRetries maxRetries 0 none []

/-! ## `generatePresentationStream` (services/gemini.ts)

The orchestration loop `for (let i = 0; i < outline.length; i += BATCH_SIZE)`
with `BATCH_SIZE = 4`.  The backend is modelled by an environment `env`
giving the text chunks streamed by `chat.sendMessageStream` on each turn
(turn = batch index); `if (chunk.text)` skips empty chunk texts; every yielded
chunk carries `isComplete = isLastBatch` where
`isLastBatch = (Math.min(i + 4, n) >= n)`. -/

/-- The batch loop; `fuel` only forces termination (`n` iterations always
suffice since `i` advances by 4). -/
def genLoop (env : Nat → List String) (n : Nat) : Nat → Nat → Nat → List (String × Bool)
  | 0, _, _ => []
  | fuel + 1, i, b =>
    if i < n then
      ((env b).filter (fun t => t ≠ "")).map (fun t => (t, decide (min (i + 4) n ≥ n)))
        ++ genLoop env n fuel (i + 4) (b + 1)
    else []

/-- The sequence of GenerationChunks `(text, isComplete)` yielded by
`generatePresentationStream` over an outline of length `n`, when every turn
succeeds and turn `b` streams the chunk texts `env b`. -/
def generatePresentationStream (env : Nat → List String) (n : Nat) : List (String × Bool) :=
  genLoop env n n 0 0

/-! ## Canonical serialization of well-formed batch streams

The claims quantify over buffers made of valid batch JSON objects; these are
represented by the canonical serialization of slide records, with the standard
JSON string escapes. -/

/-- A slide record. -/
structure Slide where
  title : String
  content : String

/-- Canonical JSON escape of one character. -/
def escChar (c : Char) : List Char :=
  if c = '"' then ['\\', '"']
  else if c = '\\' then ['\\', '\\']
  else if c = '\n' then ['\\', 'n']
  else if c = '\r' then ['\\', 'r']
  else if c = '\t' then ['\\', 't']
  else [c]

/-- Canonical JSON escape of a string body. -/
def escStr (s : List Char) : List Char := s.flatMap escChar

/-- A canonical JSON string literal. -/
def quotedStr (s : List Char) : List Char := '"' :: (escStr s ++ ['"'])

/-- Serialization of one slide record. -/
def slideChars (sl : Slide) : List Char :=
  '{' :: ("\"title\":".data ++ quotedStr sl.title.data
    ++ ",\"content\":".data ++ quotedStr sl.content.data ++ ['\x7d'])

/-- Comma-separated concatenation (the canonical array-element separator). -/
def sepComma : List (List Char) → List Char
  | [] => []
  | [x] => x
  | x :: y :: rest => x ++ (',' :: sepComma (y :: rest))

/-- Serialization of one batch object. -/
def batchChars (sls : List Slide) : List Char :=
  "\x7b\"slides\":[".data ++ sepComma (sls.map slideChars) ++ "]\x7d".data

/-- Serialization of a stream of batches, concatenated with no separators. -/
def streamChars (batches : List (List Slide)) : List Char :=
  (batches.map batchChars).flatten

/-- The parsed JSON value of a slide record. -/
def slideToJson (sl : Slide) : Json :=
  Json.obj [("title", Json.str sl.title), ("content", Json.str sl.content)]

/-- Characters allowed in titles/contents for the canonical serialization:
no control characters other than `\n`, `\r`, `\t` (those are escaped), and no
backquote (a fenced-code marker inside a field would be eaten by the
sanitizer). -/
def cleanCharB (c : Char) : Bool :=
  (0x20 ≤ c.toNat || c = '\n' || c = '\r' || c = '\t') && c ≠ '\x60'

/-- Characters additionally safe for the Phase 3 partial-HTML unescape:
no backslash, `\r` or `\t` (whose escapes the heuristic unescape of Phase 3
does not reverse). -/
def strictCharB (c : Char) : Bool :=
  cleanCharB c && c ≠ '\\' && c ≠ '\r' && c ≠ '\t'

/-- A clean slide record. -/
def Slide.clean (sl : Slide) : Bool :=
  sl.title.data.all cleanCharB && sl.content.data.all cleanCharB

/-- A clean batch list. -/
def batchesClean (bs : List (List Slide)) : Bool :=
  bs.all (fun b => b.all Slide.clean)

/-- The miscellaneous top-level JSON object `{"k":"v"}` used to probe the
structural-response-failure path (it parses but has no `slides` array). -/
def miscObjChars (k v : String) : List Char :=
  '\x7b' :: (quotedStr k.data ++ (':' :: quotedStr v.data) ++ ['\x7d'])

/-! ## Helper lemmas -/

instance : Inhabited Json := ⟨Json.null⟩

/-- Rebuilding a string from its character data is the identity. -/
theorem stringMk_data : ∀ s : String, String.mk s.data = s
  | ⟨_⟩ => rfl

/-- A string whose one application of `convertQuickChartTags` left no
`<quickchart` occurrence is a fixed point of the scan. -/
theorem qcScan_of_no_occurrence (l : List Char) :
    ∀ fuel, hasInfix qcTag l = false → qcScan fuel l = l := by
  induction l with
  | nil => intro fuel _; cases fuel <;> rfl
  | cons c cs ih =>
    intro fuel h
    cases fuel with
    | zero => rfl
    | succ f =>
      have h' : (isPref qcTag (c :: cs) || hasInfix qcTag cs) = false := h
      have h1 : isPref qcTag (c :: cs) = false := by
        cases hp : isPref qcTag (c :: cs) <;> simp [hp] at h' ⊢
      have h2 : hasInfix qcTag cs = false := by
        cases hp : hasInfix qcTag cs <;> simp [hp] at h' ⊢
      simp only [qcScan, h1, Bool.false_eq_true, if_false]
      rw [ih f h2]

/-- Unfold `convertQuickChartTags` to the scan. -/
theorem convertQuickChartTags_eq (s : String) :
    convertQuickChartTags s = String.mk (qcScan (s.data.length + 1) s.data) := rfl

/-! ## Claim theorems: concrete counterexamples and code-level facts -/

set_option maxRecDepth 100000 in
/-- **C1, counterexample.**  The buffer consisting of one valid, complete
batch JSON object whose single slide has content `x‍```y` is parsed with the
fenced-code marker stripped out of the content: `parseLiveStream(buffer,
true)` does not return the input slide, so the claim fails as stated. -/
theorem c1_counterexample :
    (parseLiveStream (String.mk (streamChars [[⟨"A", "x\x60\x60\x60y"⟩]])) true).completeSlides
      ≠ [slideToJson ⟨"A", "x\x60\x60\x60y"⟩] := by
  intro h
  have h1 : (parseLiveStream (String.mk (streamChars [[⟨"A", "x\x60\x60\x60y"⟩]])) true).completeSlides
      = [Json.obj [("title", Json.str "A"), ("content", Json.str "xy")]] := by rfl
  rw [h1] at h
  have h2 := congrArg (fun l => (l.headI).getField "content") h
  simp only [List.headI, Json.getField, slideToJson] at h2
  have h3 : ("xy" : String) = "x\x60\x60\x60y" := by
    simpa using h2
  exact absurd h3 (by decide)

set_option maxRecDepth 100000 in
/-- **C2, counterexample.**  A top-level object that parses successfully but
has no `slides` array (here `{"x":"y"}`) is silently skipped and scanning
continues: the batch after it is still extracted, so the parse pass does not
treat the structural failure as terminal for the turn. -/
theorem c2_counterexample :
    parseLiveStream
        (String.mk (miscObjChars "x" "y" ++ streamChars [[⟨"A", "<div>x</div>"⟩]])) true
      = { completeSlides := [slideToJson ⟨"A", "<div>x</div>"⟩], inProgressHtml := "" } := by
  rfl

set_option maxRecDepth 100000 in
/-- **C3, code-level fact.**  `transformPollinationsURLs` is not idempotent:
its output still matches the URL regex, so a second application folds the
appended query string into the re-encoded description. -/
theorem c3_not_idempotent :
    transformPollinationsURLs "https://gen.pollinations.ai/image/cat" "K"
        = some "https://gen.pollinations.ai/image/cat?model=flux&key=K" ∧
    transformPollinationsURLs "https://gen.pollinations.ai/image/cat?model=flux&key=K" "K"
        = some "https://gen.pollinations.ai/image/cat%3Fmodel%3Dflux%26key%3DK?model=flux&key=K" ∧
    ("https://gen.pollinations.ai/image/cat%3Fmodel%3Dflux%26key%3DK?model=flux&key=K" : String)
        ≠ "https://gen.pollinations.ai/image/cat?model=flux&key=K" := by
  refine ⟨by rfl, by rfl, by decide⟩

set_option maxRecDepth 100000 in
/-- **C4, counterexample.**  Inserting the fenced-code marker ```` ``` ````
immediately before content text beginning with the letters `json` makes the
sanitizer's `/```json/g` pass eat those letters: the parsed slide content
changes from `json x` to ` x`. -/
theorem c4_counterexample :
    (parseLiveStream ("\x7b\"slides\":[\x7b\"title\":\"A\",\"content\":\""
        ++ "\x60\x60\x60" ++ "json x\"\x7d]\x7d") true).completeSlides.map
        (fun j => j.getField "content") = [some (Json.str " x")] ∧
    (parseLiveStream ("\x7b\"slides\":[\x7b\"title\":\"A\",\"content\":\""
        ++ "json x\"\x7d]\x7d") true).completeSlides.map
        (fun j => j.getField "content") = [some (Json.str "json x")] ∧
    (parseLiveStream ("\x7b\"slides\":[\x7b\"title\":\"A\",\"content\":\""
        ++ "\x60\x60\x60" ++ "json x\"\x7d]\x7d") true).completeSlides
      ≠ (parseLiveStream ("\x7b\"slides\":[\x7b\"title\":\"A\",\"content\":\""
        ++ "json x\"\x7d]\x7d") true).completeSlides := by
  refine ⟨by rfl, by rfl, ?_⟩
  intro h
  have h3 := congrArg (List.map (fun j => j.getField "content")) h
  have e1 : (parseLiveStream ("\x7b\"slides\":[\x7b\"title\":\"A\",\"content\":\""
      ++ "\x60\x60\x60" ++ "json x\"\x7d]\x7d") true).completeSlides.map
      (fun j => j.getField "content") = [some (Json.str " x")] := by rfl
  have e2 : (parseLiveStream ("\x7b\"slides\":[\x7b\"title\":\"A\",\"content\":\""
      ++ "json x\"\x7d]\x7d") true).completeSlides.map
      (fun j => j.getField "content") = [some (Json.str "json x")] := by rfl
  rw [e1, e2] at h3
  have h4 : (" x" : String) = "json x" := by simpa using h3
  exact absurd h4 (by decide)

set_option maxRecDepth 400000 in
/-- **C5, counterexample.**  Truncating a valid two-slide buffer in the middle
of the second slide object — before its `content` field has opened — yields
all slides from fully-closed objects but an *empty* `inProgressHtml`, so the
claim's unconditional "non-empty `inProgressHtml`" fails as stated. -/
theorem c5_counterexample :
    parseLiveStream
        (String.mk ((streamChars [[⟨"A", "<div>x</div>"⟩, ⟨"B", "<div>y</div>"⟩]]).take 65))
        false
      = { completeSlides := [slideToJson ⟨"A", "<div>x</div>"⟩], inProgressHtml := "" } := by
  rfl

set_option maxRecDepth 100000 in
/-- **C6, counterexample.**  `convertQuickChartTags` is not idempotent on
every input: when one quickchart tag's attribute value contains another
quickchart fragment with its own `config`, the first pass copies the fragment
into the produced `<img>` tag and the second pass transforms it again. -/
theorem c6_counterexample :
    convertQuickChartTags
        "<quickchart config=\x27a\x27 alt=\"<quickchart config=\x27b\x27\">"
      = "<img src=\"https://quickchart.io/chart?c=a\" alt=\"<quickchart config=\x27b\x27\">" ∧
    convertQuickChartTags
        "<img src=\"https://quickchart.io/chart?c=a\" alt=\"<quickchart config=\x27b\x27\">"
      = "<img src=\"https://quickchart.io/chart?c=a\" alt=\"<img src=\"https://quickchart.io/chart?c=b\">" ∧
    ("<img src=\"https://quickchart.io/chart?c=a\" alt=\"<img src=\"https://quickchart.io/chart?c=b\">" : String)
      ≠ "<img src=\"https://quickchart.io/chart?c=a\" alt=\"<quickchart config=\x27b\x27\">" := by
  refine ⟨by rfl, by rfl, by decide⟩

/-- **C6, amended.**  The example chart tag transforms to an `<img>` tag whose
`src` query parameter `c` percent-decodes back to the original config, and the
transform is idempotent on every input whose first application leaves no
`<quickchart` occurrence — in particular on the example. -/
theorem c6_amended :
    convertQuickChartTags "<quickchart config=\x27\x7b\"type\":\"bar\"\x7d\x27>"
      = "<img src=\"https://quickchart.io/chart?c=%7B%22type%22%3A%22bar%22%7D\">" ∧
    decodeURIComponent "%7B%22type%22%3A%22bar%22%7D".data
      = some "\x7b\"type\":\"bar\"\x7d".data ∧
    (∀ s : String, hasInfix qcTag (convertQuickChartTags s).data = false →
      convertQuickChartTags (convertQuickChartTags s) = convertQuickChartTags s) := by
  refine ⟨by rfl, by rfl, fun s h => ?_⟩
  rw [convertQuickChartTags_eq (convertQuickChartTags s),
    qcScan_of_no_occurrence _ _ h, stringMk_data]

set_option maxRecDepth 100000 in
/-- **C6, amended, witness.**  The amended idempotence applies to the example
tag: its image output contains no `<quickchart` occurrence, so a second
application is the identity on it. -/
theorem c6_amended_witness :
    hasInfix qcTag
        (convertQuickChartTags "<quickchart config=\x27\x7b\"type\":\"bar\"\x7d\x27>").data
      = false ∧
    convertQuickChartTags
        (convertQuickChartTags "<quickchart config=\x27\x7b\"type\":\"bar\"\x7d\x27>")
      = convertQuickChartTags "<quickchart config=\x27\x7b\"type\":\"bar\"\x7d\x27>" :=
  ⟨by decide, c6_amended.2.2 "<quickchart config=\x27\x7b\"type\":\"bar\"\x7d\x27>" (by decide)⟩

/-- The number of batches the orchestration loop issues for an outline of
length `n` with `BATCH_SIZE = 4`. -/
def numBatches (n : Nat) : Nat := (n + 3) / 4

/-- Closed form of the batch loop: starting at `i = 4 * b`, with enough fuel,
it yields each remaining batch's nonempty chunk texts flagged with
`isComplete = (the batch is the final one)`. -/
theorem genLoop_eq (env : Nat → List String) (n : Nat) :
    ∀ fuel b, n ≤ 4 * b + 4 * fuel →
      genLoop env n fuel (4 * b) b =
        (List.range' b (numBatches n - b)).flatMap (fun b' =>
          ((env b').filter (fun t => t ≠ "")).map
            (fun t => (t, decide (b' = numBatches n - 1)))) := by
  intro fuel
  induction fuel with
  | zero =>
    intro b hb
    have : numBatches n - b = 0 := by simp [numBatches]; omega
    simp [genLoop, this]
  | succ f ih =>
    intro b hb
    by_cases hin : 4 * b < n
    · have hcnt : numBatches n - b = (numBatches n - (b + 1)) + 1 := by
        simp only [numBatches]; omega
      have hflag : (decide (min (4 * b + 4) n ≥ n)) = decide (b = numBatches n - 1) := by
        apply decide_eq_decide.mpr
        simp only [numBatches]
        omega
      have ih' := ih (b + 1) (by omega)
      have harg : 4 * (b + 1) = 4 * b + 4 := by omega
      rw [harg] at ih'
      simp only [genLoop, hin, if_true, hcnt, List.range'_succ, List.flatMap_cons, ih', hflag]
    · have : numBatches n - b = 0 := by simp only [numBatches]; omega
      simp [genLoop, hin, this]

/-- **C8, amended.**  In the chunk sequence yielded by
`generatePresentationStream`, `isComplete` is true exactly on the chunks of
the final batch (every chunk of the final batch carries it, not only the
concluding one). -/
theorem c8_amended (env : Nat → List String) (n : Nat) :
    generatePresentationStream env n =
      (List.range (numBatches n)).flatMap (fun b =>
        ((env b).filter (fun t => t ≠ "")).map
          (fun t => (t, decide (b = numBatches n - 1)))) := by
  have h := genLoop_eq env n n 0 (by omega)
  simpa [generatePresentationStream, List.range_eq_range'] using h

/-- **C8, counterexample.**  With a one-item outline (a single, hence final,
batch) whose turn streams two chunks, both chunks are yielded with
`isComplete = true`: the flag is not confined to the chunk that concludes the
final batch. -/
theorem c8_counterexample :
    generatePresentationStream (fun b => if b = 0 then ["a", "b"] else []) 1
      = [("a", true), ("b", true)] ∧
    ¬ (∀ p ∈ generatePresentationStream (fun b => if b = 0 then ["a", "b"] else []) 1,
        p.2 = true → p = ("b", true)) := by
  constructor
  · rfl
  · intro h
    have ha : (("a", true) : String × Bool)
        ∈ generatePresentationStream (fun b => if b = 0 then ["a", "b"] else []) 1 := by
      rw [show generatePresentationStream (fun b => if b = 0 then ["a", "b"] else []) 1
          = [("a", true), ("b", true)] from rfl]
      simp
    have := h ("a", true) ha rfl
    simp at this

/-- **C10.**  `_withRetry` with the default cap of 3: a first-attempt success
returns immediately; a failing non-rate-limited call is retried with linear
backoff (1s, 2s, 3s) up to 3 attempts in total, exhaustion surfacing as a
terminal thrown error; and an error carrying the 429 rate-limit signal is
never retried — it propagates immediately with no further delay, at whichever
attempt it occurs. -/
theorem c10_withRetry_spec (T : Type) (f : Nat → Except JsError T) :
    (∀ t, f 0 = .ok t → withRetry f = (.ok t, [])) ∧
    (∀ e0 t, f 0 = .error e0 → is429 e0 = false → f 1 = .ok t →
      withRetry f = (.ok t, [1000])) ∧
    (∀ e0 e1 t, f 0 = .error e0 → is429 e0 = false → f 1 = .error e1 → is429 e1 = false →
      f 2 = .ok t → withRetry f = (.ok t, [1000, 2000])) ∧
    (∀ e0 e1 e2, f 0 = .error e0 → is429 e0 = false → f 1 = .error e1 → is429 e1 = false →
      f 2 = .error e2 → is429 e2 = false →
      withRetry f = (.thrown ⟨exhaustMsg 3 (some e2), none⟩, [1000, 2000, 3000])) ∧
    (∀ e0, f 0 = .error e0 → is429 e0 = true → withRetry f = (.thrown e0, [])) ∧
    (∀ e0 e1, f 0 = .error e0 → is429 e0 = false → f 1 = .error e1 → is429 e1 = true →
      withRetry f = (.thrown e1, [1000])) ∧
    (∀ e0 e1 e2, f 0 = .error e0 → is429 e0 = false → f 1 = .error e1 → is429 e1 = false →
      f 2 = .error e2 → is429 e2 = true →
      withRetry f = (.thrown e2, [1000, 2000])) := by
  refine ⟨?_, ?_, ?_, ?_, ?_, ?_, ?_⟩
  · intro t h0
    simp [withRetry, withRetryGo, h0]
  · intro e0 t h0 n0 h1
    simp [withRetry, withRetryGo, h0, n0, h1]
  · intro e0 e1 t h0 n0 h1 n1 h2
    simp [withRetry, withRetryGo, h0, n0, h1, n1, h2]
  · intro e0 e1 e2 h0 n0 h1 n1 h2 n2
    simp [withRetry, withRetryGo, h0, n0, h1, n1, h2, n2]
  · intro e0 h0 y0
    simp [withRetry, withRetryGo, h0, y0]
  · intro e0 e1 h0 n0 h1 y1
    simp [withRetry, withRetryGo, h0, n0, h1, y1]
  · intro e0 e1 e2 h0 n0 h1 n1 h2 y2
    simp [withRetry, withRetryGo, h0, n0, h1, n1, h2, y2]

/-- **C10, witness.**  The exhaustion branch at a concrete always-failing,
non-429 outcome sequence: three attempts, backoff delays 1s, 2s, 3s, terminal
thrown error. -/
theorem c10_withRetry_spec_witness :
    withRetry (T := Nat) (fun _ => .error ⟨"boom", none⟩)
      = (.thrown ⟨exhaustMsg 3 (some ⟨"boom", none⟩), none⟩, [1000, 2000, 3000]) :=
  (c10_withRetry_spec Nat (fun _ => .error ⟨"boom", none⟩)).2.2.2.1
    ⟨"boom", none⟩ ⟨"boom", none⟩ ⟨"boom", none⟩ rfl (by decide) rfl (by decide) rfl (by decide)

/-! ## Scan machinery

Both scanning loops of `parseLiveStream` are instances of one generic
character-step machine: an `afterBS` flag replaces the source's one-character
look-ahead (`i++` on a backslash), which is equivalent because a backslash
only suppresses the processing of the following character.  The generic
accumulator `acc` holds the (reversed) substring tracked since the last
consumed position together with the shared slides list; `close` is invoked on
a candidate object when the brace depth returns to zero outside a string. -/

/-- Generic scan state: `cur` accumulates (reversed) the characters of the
current candidate object (corresponding to `currentObjectStartIndex ≠ -1`). -/
structure GSt (α : Type) where
  brace : Int
  inStr : Bool
  afterBS : Bool
  cur : Option (List Char)
  acc : α

/-- Record a character in the substring accumulators. -/
def gpush (pushA : α → Char → α) (st : GSt α) (c : Char) : GSt α :=
  { st with cur := st.cur.map (c :: ·), acc := pushA st.acc c }

/-- One character step of the generic scan. -/
def gstep (pushA : α → Char → α) (close : List Char → α → α) (st : GSt α) (c : Char) : GSt α :=
  if st.afterBS then gpush pushA { st with afterBS := false } c
  else if c = '\\' then gpush pushA { st with afterBS := true } c
  else
    let st1 := { st with inStr := if c = '"' then !st.inStr else st.inStr }
    if st1.inStr then gpush pushA st1 c
    else if c = '{' then
      let st2 := if st1.brace = 0 then { st1 with cur := some [] } else st1
      gpush pushA { st2 with brace := st2.brace + 1 } c
    else if c = '}' then
      let st2 := gpush pushA { st1 with brace := st1.brace - 1 } c
      match st2.cur with
      | some rcs =>
        if st2.brace = 0 then { st2 with cur := none, acc := close rcs.reverse st2.acc }
        else st2
      | none => st2
    else gpush pushA st1 c

/-- Run the generic scan over a character list. -/
def gscan (pushA : α → Char → α) (close : List Char → α → α)
    (cs : List Char) (st : GSt α) : GSt α :=
  cs.foldl (gstep pushA close) st

/-- The shared accumulator of both phases: the reversed substring since the
last consumed position, and the slides list. -/
def pushAcc (acc : List Char × List Json) (c : Char) : List Char × List Json :=
  (c :: acc.1, acc.2)

/-- Phase 1 close action on a root-level candidate batch object. -/
def close1 (obj : List Char) (acc : List Char × List Json) : List Char × List Json :=
  match jsonParse obj with
  | some batch =>
    ([], acc.2 ++ (match batch.getField "slides" with
      | some (Json.arr xs) => xs
      | _ => []))
  | none => acc

/-- Phase 2 close action on a candidate slide object. -/
def close2 (obj : List Char) (acc : List Char × List Json) : List Char × List Json :=
  match jsonParse obj with
  | some slide =>
    if truthy (slide.getField "title") && truthy (slide.getField "content") then
      ([],
        if acc.2.any (fun s => jsStrictEq (s.getField "title") (slide.getField "title"))
        then acc.2 else acc.2 ++ [slide])
    else acc
  | none => acc

/-- View a generic state as a Phase 1 state. -/
def toScan1 (st : GSt (List Char × List Json)) : Scan1 :=
  { brace := st.brace, inStr := st.inStr, cur := st.cur,
    pending := st.acc.1, slides := st.acc.2 }

/-- View a generic state as a Phase 2 state. -/
def toScan2 (st : GSt (List Char × List Json)) : Scan2 :=
  { brace := st.brace, inStr := st.inStr, cur := st.cur,
    active := st.acc.1, slides := st.acc.2 }

/-- `scan1` on a non-backslash head character runs the loop body. -/
theorem scan1_cons_ne (c : Char) (rest : List Char) (st : Scan1) (hne : c ≠ '\\') :
    scan1 (c :: rest) st = scan1 rest (scan1Step st c) := by
  rw [scan1.eq_def]
  split
  next heq => exact absurd heq (by simp)
  next c2 r2 heq => injection heq with h1 h2; exact absurd h1 hne
  next c' rest' himp heq => injection heq with h1 h2; subst h1; subst h2; rfl

/-- `scan1` on a final character runs the loop body (a final backslash has no
following character to skip). -/
theorem scan1_single (c : Char) (st : Scan1) :
    scan1 [c] st = scan1Step st c := by
  by_cases hne : c = '\\'
  · subst hne; rfl
  · rw [scan1_cons_ne c [] st hne]; rfl

/-- `scan2` on a non-backslash head character runs the loop body. -/
theorem scan2_cons_ne (c : Char) (rest : List Char) (st : Scan2) (hne : c ≠ '\\') :
    scan2 (c :: rest) st = scan2 rest (scan2Step st c) := by
  rw [scan2.eq_def]
  split
  next heq => exact absurd heq (by simp)
  next c2 r2 heq => injection heq with h1 h2; exact absurd h1 hne
  next c' rest' himp heq => injection heq with h1 h2; subst h1; subst h2; rfl

/-- `scan2` on a final character runs the loop body. -/
theorem scan2_single (c : Char) (st : Scan2) :
    scan2 [c] st = scan2Step st c := by
  by_cases hne : c = '\\'
  · subst hne; rfl
  · rw [scan2_cons_ne c [] st hne]; rfl

/-- A processed character leaves the generic escape flag clear unless it is a
backslash. -/
theorem gstep_afterBS (pushA : α → Char → α) (close : List Char → α → α)
    (st : GSt α) (c : Char) (hbs : st.afterBS = false) (hne : c ≠ '\\') :
    (gstep pushA close st c).afterBS = false := by
  simp only [gstep, hbs, Bool.false_eq_true, if_false, hne]
  by_cases hq : c = '"' <;> by_cases hi : st.inStr <;>
    by_cases hob : c = '{' <;> by_cases hcb : c = '}' <;>
    by_cases hz0 : st.brace = 0 <;> by_cases hz1 : st.brace - 1 = 0 <;>
    rcases hcur : st.cur with _ | rcs <;>
    simp [hq, hi, hob, hcb, hz0, hz1, hcur, gpush]

/-- The generic step with the Phase 1 actions computes the Phase 1 loop
body. -/
theorem gstep_toScan1 (st : GSt (List Char × List Json)) (c : Char)
    (hbs : st.afterBS = false) :
    toScan1 (gstep pushAcc close1 st c) = scan1Step (toScan1 st) c := by
  by_cases hne : c = '\\'
  · subst hne
    simp only [gstep, hbs, Bool.false_eq_true, if_false, if_true, scan1Step]
    by_cases hi : st.inStr <;>
      simp [toScan1, gpush, push1, pushAcc, hi]
  · simp only [gstep, hbs, Bool.false_eq_true, if_false, hne, scan1Step]
    by_cases hq : c = '"'
    · subst hq
      by_cases hi : st.inStr <;>
        simp [toScan1, gpush, push1, pushAcc, hi]
    · by_cases hi : st.inStr <;>
        simp only [hq, hi, if_true, if_false, toScan1]
      · simp [gpush, push1, pushAcc, toScan1]
      · by_cases hob : c = '{'
        · subst hob
          by_cases hz : st.brace = 0 <;>
            simp [gpush, push1, pushAcc, toScan1, hz]
        · by_cases hcb : c = '}'
          · subst hcb
            simp only [hob, if_false, if_true]
            rcases hcur : st.cur with _ | rcs
            · simp [gpush, push1, pushAcc, toScan1, hcur]
            · by_cases hz : st.brace - 1 = 0
              · simp only [gpush, push1, pushAcc, toScan1, hcur, Option.map_some, hz,
                  if_true, if_false]
                cases hj : jsonParse (rcs.reverse ++ ['\x7d']) with
                | none => simp [close1, hj]
                | some batch =>
                  cases hf : batch.getField "slides" with
                  | none => simp [close1, hj, hf]
                  | some v =>
                    cases v <;> simp [close1, hj, hf]
              · simp [gpush, push1, pushAcc, toScan1, hcur, hz]
          · simp [hob, hcb, gpush, push1, pushAcc, toScan1]

/-- The generic step with the Phase 2 actions computes the Phase 2 loop
body. -/
theorem gstep_toScan2 (st : GSt (List Char × List Json)) (c : Char)
    (hbs : st.afterBS = false) :
    toScan2 (gstep pushAcc close2 st c) = scan2Step (toScan2 st) c := by
  by_cases hne : c = '\\'
  · subst hne
    simp only [gstep, hbs, Bool.false_eq_true, if_false, if_true, scan2Step]
    by_cases hi : st.inStr <;>
      simp [toScan2, gpush, push2, pushAcc, hi]
  · simp only [gstep, hbs, Bool.false_eq_true, if_false, hne, scan2Step]
    by_cases hq : c = '"'
    · subst hq
      by_cases hi : st.inStr <;>
        simp [toScan2, gpush, push2, pushAcc, hi]
    · by_cases hi : st.inStr <;>
        simp only [hq, hi, if_true, if_false, toScan2]
      · simp [gpush, push2, pushAcc, toScan2]
      · by_cases hob : c = '{'
        · subst hob
          by_cases hz : st.brace = 0 <;>
            simp [gpush, push2, pushAcc, toScan2, hz]
        · by_cases hcb : c = '}'
          · subst hcb
            simp only [hob, if_false, if_true]
            rcases hcur : st.cur with _ | rcs
            · simp [gpush, push2, pushAcc, toScan2, hcur]
            · by_cases hz : st.brace - 1 = 0
              · simp only [gpush, push2, pushAcc, toScan2, hcur, Option.map_some, hz,
                  if_true, if_false]
                cases hj : jsonParse (rcs.reverse ++ ['\x7d']) with
                | none => simp [close2, hj]
                | some slide =>
                  by_cases ht : (truthy (slide.getField "title")
                      && truthy (slide.getField "content")) = true
                  · by_cases hd : ((st.acc.2).any
                        fun s => jsStrictEq (s.getField "title") (slide.getField "title")) = true
                    · simp [close2, hj, ht, hd]
                    · simp [close2, hj, ht, hd]
                  · simp [close2, hj, ht]
              · simp [gpush, push2, pushAcc, toScan2, hcur, hz]
          · simp [hob, hcb, gpush, push2, pushAcc, toScan2]

/-- `scan1` agrees with the generic scan instantiated with the Phase 1
actions, starting from a state with the escape flag clear. -/
theorem scan1_eq_gscan : ∀ (fuel : Nat) (cs : List Char), cs.length ≤ fuel →
    ∀ st : GSt (List Char × List Json), st.afterBS = false →
    scan1 cs (toScan1 st) = toScan1 (gscan pushAcc close1 cs st) := by
  intro fuel
  induction fuel with
  | zero =>
    intro cs hcs st _
    have : cs = [] := List.eq_nil_of_length_eq_zero (Nat.le_zero.mp hcs)
    subst this; rfl
  | succ f ih =>
    intro cs hcs st hbs
    rcases cs with _ | ⟨c, rest⟩
    · rfl
    · by_cases hne : c = '\\'
      · subst hne
        rcases rest with _ | ⟨c2, rest'⟩
        · rw [scan1_single, show gscan pushAcc close1 ['\\'] st
              = gstep pushAcc close1 st '\\' from rfl, gstep_toScan1 st '\\' hbs]
        · have h1 : scan1 ('\\' :: c2 :: rest') (toScan1 st)
              = scan1 rest' (push1 (push1 (toScan1 st) '\\') c2) := rfl
          have hst : toScan1 (gstep pushAcc close1 (gstep pushAcc close1 st '\\') c2)
                = push1 (push1 (toScan1 st) '\\') c2 ∧
              (gstep pushAcc close1 (gstep pushAcc close1 st '\\') c2).afterBS = false := by
            constructor <;> simp [gstep, gpush, hbs, toScan1, push1, pushAcc]
          rw [h1, show gscan pushAcc close1 ('\\' :: c2 :: rest') st
              = gscan pushAcc close1 rest'
                  (gstep pushAcc close1 (gstep pushAcc close1 st '\\') c2) from rfl,
            ← hst.1]
          exact ih rest' (by simp at hcs ⊢; omega) _ hst.2
      · rw [scan1_cons_ne c rest _ hne, ← gstep_toScan1 st c hbs,
          show gscan pushAcc close1 (c :: rest) st
            = gscan pushAcc close1 rest (gstep pushAcc close1 st c) from rfl]
        exact ih rest (by simp at hcs ⊢; omega) _ (gstep_afterBS _ _ st c hbs hne)

/-- `scan2` agrees with the generic scan instantiated with the Phase 2
actions, starting from a state with the escape flag clear. -/
theorem scan2_eq_gscan : ∀ (fuel : Nat) (cs : List Char), cs.length ≤ fuel →
    ∀ st : GSt (List Char × List Json), st.afterBS = false →
    scan2 cs (toScan2 st) = toScan2 (gscan pushAcc close2 cs st) := by
  intro fuel
  induction fuel with
  | zero =>
    intro cs hcs st _
    have : cs = [] := List.eq_nil_of_length_eq_zero (Nat.le_zero.mp hcs)
    subst this; rfl
  | succ f ih =>
    intro cs hcs st hbs
    rcases cs with _ | ⟨c, rest⟩
    · rfl
    · by_cases hne : c = '\\'
      · subst hne
        rcases rest with _ | ⟨c2, rest'⟩
        · rw [scan2_single, show gscan pushAcc close2 ['\\'] st
              = gstep pushAcc close2 st '\\' from rfl, gstep_toScan2 st '\\' hbs]
        · have h1 : scan2 ('\\' :: c2 :: rest') (toScan2 st)
              = scan2 rest' (push2 (push2 (toScan2 st) '\\') c2) := rfl
          have hst : toScan2 (gstep pushAcc close2 (gstep pushAcc close2 st '\\') c2)
                = push2 (push2 (toScan2 st) '\\') c2 ∧
              (gstep pushAcc close2 (gstep pushAcc close2 st '\\') c2).afterBS = false := by
            constructor <;> simp [gstep, gpush, hbs, toScan2, push2, pushAcc]
          rw [h1, show gscan pushAcc close2 ('\\' :: c2 :: rest') st
              = gscan pushAcc close2 rest'
                  (gstep pushAcc close2 (gstep pushAcc close2 st '\\') c2) from rfl,
            ← hst.1]
          exact ih rest' (by simp at hcs ⊢; omega) _ hst.2
      · rw [scan2_cons_ne c rest _ hne, ← gstep_toScan2 st c hbs,
          show gscan pushAcc close2 (c :: rest) st
            = gscan pushAcc close2 rest (gstep pushAcc close2 st c) from rfl]
        exact ih rest (by simp at hcs ⊢; omega) _ (gstep_afterBS _ _ st c hbs hne)

/-! ## Region lemmas: the generic scan over canonically serialized pieces -/

/-- The state after a region that only records characters: the substring
accumulators extend by the region, every other field is untouched. -/
def gpushed (pushA : α → Char → α) (st : GSt α) (cs : List Char) : GSt α :=
  { st with cur := st.cur.map (cs.reverse ++ ·), acc := cs.foldl pushA st.acc }

theorem gpushed_nil (pushA : α → Char → α) (st : GSt α) :
    gpushed pushA st [] = st := by
  simp [gpushed]

theorem gpushed_append (pushA : α → Char → α) (st : GSt α) (xs ys : List Char) :
    gpushed pushA st (xs ++ ys) = gpushed pushA (gpushed pushA st xs) ys := by
  simp [gpushed, List.foldl_append, Option.map_map] <;> rfl

theorem gpush_eq_gpushed (pushA : α → Char → α) (st : GSt α) (c : Char) :
    gpush pushA st c = gpushed pushA st [c] := by
  simp [gpush, gpushed]

theorem gscan_append (pushA : α → Char → α) (close : List Char → α → α)
    (st : GSt α) (xs ys : List Char) :
    gscan pushA close (xs ++ ys) st = gscan pushA close ys (gscan pushA close xs st) :=
  List.foldl_append ..

/-- Scanning one serialized-escape unit inside a string records it and leaves
the state otherwise unchanged. -/
theorem gscan_escChar (pushA : α → Char → α) (close : List Char → α → α)
    (st : GSt α) (c : Char) (hi : st.inStr = true) (hbs : st.afterBS = false) :
    gscan pushA close (escChar c) st = gpushed pushA st (escChar c) := by
  have hpair : ∀ e : Char, gscan pushA close ['\\', e] st = gpushed pushA st ['\\', e] := by
    intro e
    show gstep pushA close (gstep pushA close st '\\') e = _
    simp [gstep, hbs, gpush, gpushed] <;> rfl
  unfold escChar
  split_ifs with h1 h2 h3 h4 h5
  · subst h1; exact hpair '"'
  · subst h2; exact hpair '\\'
  · exact hpair 'n'
  · exact hpair 'r'
  · exact hpair 't'
  · simp [gscan, gstep, hi, hbs, h1, h2, gpush, gpushed]

/-- Scanning a serialized string body inside a string records it and leaves
the state otherwise unchanged. -/
theorem gscan_escStr (pushA : α → Char → α) (close : List Char → α → α)
    (s : List Char) : ∀ st : GSt α, st.inStr = true → st.afterBS = false →
    gscan pushA close (escStr s) st = gpushed pushA st (escStr s) := by
  induction s with
  | nil => intro st _ _; simp [escStr, gscan, gpushed_nil]
  | cons c s' ih =>
    intro st hi hbs
    have hdec : escStr (c :: s') = escChar c ++ escStr s' := rfl
    rw [hdec, gscan_append, gscan_escChar pushA close st c hi hbs, gpushed_append]
    exact ih (gpushed pushA st (escChar c)) hi hbs

/-- Scanning a canonical quoted string literal from outside a string records
it and returns the state to its original fields. -/
theorem gscan_quoted (pushA : α → Char → α) (close : List Char → α → α)
    (s : List Char) (st : GSt α) (hi : st.inStr = false) (hbs : st.afterBS = false) :
    gscan pushA close (quotedStr s) st = gpushed pushA st (quotedStr s) := by
  have hdec : quotedStr s = ['"'] ++ (escStr s ++ ['"']) := rfl
  rw [hdec, gscan_append, gscan_append]
  have h1 : gscan pushA close ['"'] st = gpush pushA { st with inStr := true } '"' := by
    simp [gscan, gstep, hi, hbs]
  rw [h1]
  have h2 : gscan pushA close (escStr s) (gpush pushA { st with inStr := true } '"')
      = gpushed pushA (gpush pushA { st with inStr := true } '"') (escStr s) :=
    gscan_escStr pushA close s _ rfl (by simp [gpush, hbs])
  rw [h2]
  have h3 : gscan pushA close ['"']
        (gpushed pushA (gpush pushA { st with inStr := true } '"') (escStr s))
      = gpush pushA { gpushed pushA (gpush pushA { st with inStr := true } '"') (escStr s)
          with inStr := false } '"' := by
    simp [gscan, gstep, gpushed, gpush, hbs]
  rw [h3]
  simp [gpush, gpushed, hi, Option.map_map, List.foldl_append]
  rfl

/-- Scanning a structural character (not a quote, backslash or brace) from
outside a string records it and leaves the state otherwise unchanged. -/
theorem gscan_neutral (pushA : α → Char → α) (close : List Char → α → α)
    (st : GSt α) (c : Char) (hi : st.inStr = false) (hbs : st.afterBS = false)
    (hq : c ≠ '"') (hb : c ≠ '\\') (hob : c ≠ '{') (hcb : c ≠ '}') :
    gscan pushA close [c] st = gpushed pushA st [c] := by
  simp [gscan, gstep, hi, hbs, hq, hb, hob, hcb, gpush, gpushed]

/-! ## Roundtrip: the embedded `JSON.parse` on canonical serializations -/

/-- The parsed JSON value of a batch object. -/
def batchToJson (sls : List Slide) : Json :=
  Json.obj [("slides", Json.arr (sls.map slideToJson))]

theorem escStr_length_ge (s : List Char) : s.length ≤ (escStr s).length := by
  induction s with
  | nil => simp [escStr]
  | cons c s' ih =>
    have : escStr (c :: s') = escChar c ++ escStr s' := rfl
    rw [this, List.length_append]
    have hc : 1 ≤ (escChar c).length := by
      unfold escChar; split_ifs <;> simp
    simp only [List.length_cons]
    omega

/-- Unfolding `parseStringF` on an ordinary (non-quote, non-backslash)
character. -/
theorem parseStringF_cons_other (f : Nat) (c : Char) (rest : List Char)
    (h1 : c ≠ '"') (h2 : c ≠ '\\') :
    parseStringF (f + 1) (c :: rest)
      = if c.toNat < 0x20 then none
        else (parseStringF f rest).map (fun p => (c :: p.1, p.2)) := by
  simp [parseStringF, h1, h2]

/-- Decoding the canonical escape of a clean string body recovers it. -/
theorem parseStringF_esc (s : List Char) (hcl : s.all cleanCharB = true) :
    ∀ (fuel : Nat) (r : List Char), s.length + 1 ≤ fuel →
    parseStringF fuel (escStr s ++ ('"' :: r)) = some (s, r) := by
  induction s with
  | nil =>
    intro fuel r hf
    obtain ⟨f', rfl⟩ : ∃ f', fuel = f' + 1 := ⟨fuel - 1, by omega⟩
    rfl
  | cons c s' ih =>
    intro fuel r hf
    obtain ⟨f', rfl⟩ : ∃ f', fuel = f' + 1 := ⟨fuel - 1, by omega⟩
    have hcc : cleanCharB c = true := by
      simp [List.all_cons] at hcl; exact hcl.1
    have hcl' : s'.all cleanCharB = true := by
      simp [List.all_cons] at hcl; exact List.all_eq_true.mpr (by
        intro x hx; exact hcl.2 x hx)
    have hf' : s'.length + 1 ≤ f' := by simp at hf ⊢; omega
    have hrec := ih hcl' f' r hf'
    have hdec : escStr (c :: s') = escChar c ++ escStr s' := rfl
    rw [hdec]
    unfold escChar
    split_ifs with h1 h2 h3 h4 h5
    · subst h1; simp [parseStringF, hrec]
    · subst h2; simp [parseStringF, hrec]
    · subst h3; simp [parseStringF, hrec]
    · subst h4; simp [parseStringF, hrec]
    · subst h5; simp [parseStringF, hrec]
    · have hge : ¬ c.toNat < 0x20 := by
        unfold cleanCharB at hcc
        rw [Bool.and_eq_true, Bool.or_eq_true, Bool.or_eq_true, Bool.or_eq_true] at hcc
        rcases hcc.1 with ((h | h) | h) | h
        · have := of_decide_eq_true h; omega
        · exact absurd (of_decide_eq_true h) h3
        · exact absurd (of_decide_eq_true h) h4
        · exact absurd (of_decide_eq_true h) h5
      simp only [List.singleton_append, List.cons_append, List.nil_append]
      rw [parseStringF_cons_other f' c _ h1 h2, if_neg hge, hrec]
      rfl

/-- Decoding a canonical quoted clean string via the wrapper. -/
theorem parseStringChars_esc (s : List Char) (hcl : s.all cleanCharB = true)
    (r : List Char) :
    parseStringChars (escStr s ++ ('"' :: r)) = some (s, r) := by
  unfold parseStringChars
  apply parseStringF_esc s hcl
  have h1 := escStr_length_ge s
  simp
  omega

/-- A canonical quoted clean string parses as a JSON string value. -/
theorem parseF_value_str (s : List Char) (hcl : s.all cleanCharB = true)
    (f : Nat) (r : List Char) :
    parseF (f + 1) .value ('"' :: (escStr s ++ ('"' :: r)))
      = some (Json.str (String.mk s), r) := by
  show (parseStringChars (escStr s ++ ('"' :: r))).map
      (fun p => (Json.str (String.mk p.1), p.2)) = _
  rw [parseStringChars_esc s hcl r]
  rfl

/-- One member step of the object-member parser on a canonical key. -/
theorem parseF_members_step (g : Nat) (acc : List (String × Json)) (k : List Char)
    (hk : k.all cleanCharB = true) (body : List Char) (hsk : skipWs body = body) :
    parseF (g + 1) (.members acc) ('"' :: (escStr k ++ ('"' :: (':' :: body))))
      = match parseF g .value body with
        | none => none
        | some (v, r3) =>
          match skipWs r3 with
          | ',' :: r4 => parseF g (.members (acc ++ [(String.mk k, v)])) (skipWs r4)
          | '\x7d' :: r4 => some (Json.obj (acc ++ [(String.mk k, v)]), r4)
          | _ => none := by
  show (match parseStringChars (escStr k ++ ('"' :: (':' :: body))) with
        | none => none
        | some (kk, r1) =>
          match skipWs r1 with
          | ':' :: r2 =>
            match parseF g .value (skipWs r2) with
            | none => none
            | some (v, r3) =>
              match skipWs r3 with
              | ',' :: r4 => parseF g (.members (acc ++ [(String.mk kk, v)])) (skipWs r4)
              | '\x7d' :: r4 => some (Json.obj (acc ++ [(String.mk kk, v)]), r4)
              | _ => none
          | _ => none) = _
  rw [parseStringChars_esc k hk]
  show (match parseF g .value (skipWs body) with
        | none => none
        | some (v, r3) =>
          match skipWs r3 with
          | ',' :: r4 => parseF g (.members (acc ++ [(String.mk k, v)])) (skipWs r4)
          | '\x7d' :: r4 => some (Json.obj (acc ++ [(String.mk k, v)]), r4)
          | _ => none) = _
  rw [hsk]

/-- The element parser's one-step unfolding. -/
theorem parseF_elems_step (g : Nat) (acc : List Json) (l : List Char) :
    parseF (g + 1) (.elems acc) l
      = match parseF g .value l with
        | none => none
        | some (v, r1) =>
          match skipWs r1 with
          | ',' :: r2 => parseF g (.elems (acc ++ [v])) (skipWs r2)
          | ']' :: r2 => some (Json.arr (acc ++ [v]), r2)
          | _ => none := rfl

/-- A canonically serialized clean slide parses as its JSON object. -/
theorem parseF_slide (sl : Slide) (hct : sl.title.data.all cleanCharB = true)
    (hcc : sl.content.data.all cleanCharB = true) (f : Nat) (r : List Char) :
    parseF (f + 4) .value (slideChars sl ++ r) = some (slideToJson sl, r) := by
  have e1 : slideChars sl ++ r
      = '\x7b' :: ('"' :: (escStr "title".data ++ ('"' :: (':' :: '"' :: (escStr sl.title.data ++ ('"' :: (',' :: '"' :: (escStr "content".data ++ ('"' :: (':' :: '"' :: (escStr sl.content.data ++ ('"' :: ('\x7d' :: r))))))))))))) := by
    simp [slideChars, quotedStr, List.append_assoc]
    rfl
  rw [e1]
  show parseF (f + 3) (.members [])
      ('"' :: (escStr "title".data ++ ('"' :: (':' :: '"' :: (escStr sl.title.data ++ ('"' :: (',' :: '"' :: (escStr "content".data ++ ('"' :: (':' :: '"' :: (escStr sl.content.data ++ ('"' :: ('\x7d' :: r)))))))))))))
      = some (slideToJson sl, r)
  rw [(show f + 3 = (f + 2) + 1 from rfl),
    parseF_members_step (f + 2) [] "title".data (by decide) _ rfl]
  rw [(show f + 2 = (f + 1) + 1 from rfl),
    parseF_value_str sl.title.data hct (f + 1)]
  show parseF (f + 2) (.members [("title", Json.str (String.mk sl.title.data))])
      ('"' :: (escStr "content".data ++ ('"' :: (':' :: '"' :: (escStr sl.content.data ++ ('"' :: ('\x7d' :: r)))))))
      = some (slideToJson sl, r)
  rw [(show f + 2 = (f + 1) + 1 from rfl),
    parseF_members_step (f + 1) _ "content".data (by decide) _ rfl,
    parseF_value_str sl.content.data hcc f]
  show some (Json.obj [("title", Json.str (String.mk sl.title.data)),
      ("content", Json.str (String.mk sl.content.data))], r) = some (slideToJson sl, r)
  rw [stringMk_data, stringMk_data]
  rfl

/-- The serialized pieces of a nonempty slide list start with a brace. -/
theorem sepComma_slides_head (s : Slide) (rest : List Slide) (x : List Char) :
    sepComma ((s :: rest).map slideChars) ++ x
      = '\x7b' :: ((sepComma ((s :: rest).map slideChars) ++ x).tail) := by
  cases rest <;> simp [sepComma, slideChars]

/-- Each serialized piece is nonempty, so the separated join is at least as
long as the list. -/
theorem sepComma_length_ge (ls : List (List Char)) (h : ∀ x ∈ ls, 1 ≤ x.length) :
    ls.length ≤ (sepComma ls).length := by
  induction ls with
  | nil => simp [sepComma]
  | cons a rest ih =>
    cases rest with
    | nil => simpa [sepComma] using h a (by simp)
    | cons b rest2 =>
      have ha := h a (by simp)
      have hr := ih (fun x hx => h x (List.mem_cons_of_mem a hx))
      simp only [sepComma, List.length_append, List.length_cons] at *
      omega

/-- A canonical nonempty slide-list body parses as the array of slide
objects. -/
theorem parseF_elems_slides (sls : List Slide) (hcl : sls.all Slide.clean = true) :
    sls ≠ [] → ∀ (f : Nat) (acc : List Json) (r : List Char),
    parseF (f + 2 * sls.length + 4) (.elems acc)
        (sepComma (sls.map slideChars) ++ (']' :: r))
      = some (Json.arr (acc ++ sls.map slideToJson), r) := by
  induction sls with
  | nil => intro hne; exact absurd rfl hne
  | cons s rest ih =>
    intro _ f acc r
    have hs : Slide.clean s = true := by
      rw [List.all_cons, Bool.and_eq_true] at hcl; exact hcl.1
    have hrest : rest.all Slide.clean = true := by
      rw [List.all_cons, Bool.and_eq_true] at hcl; exact hcl.2
    obtain ⟨hct, hcc⟩ : s.title.data.all cleanCharB = true ∧
        s.content.data.all cleanCharB = true := by
      unfold Slide.clean at hs; rw [Bool.and_eq_true] at hs; exact hs
    cases rest with
    | nil =>
      have e : sepComma ([s].map slideChars) ++ (']' :: r)
          = slideChars s ++ (']' :: r) := rfl
      rw [e, (show f + 2 * ([s] : List Slide).length + 4 = ((f + 1) + 4) + 1 from by
        simp [List.length_cons] <;> omega), parseF_elems_step,
        parseF_slide s hct hcc (f + 1) (']' :: r)]
      rfl
    | cons s2 rest2 =>
      have e : sepComma ((s :: s2 :: rest2).map slideChars) ++ (']' :: r)
          = slideChars s
            ++ (',' :: (sepComma ((s2 :: rest2).map slideChars) ++ (']' :: r))) := by
        simp [sepComma, List.append_assoc]
      rw [e, (show f + 2 * (s :: s2 :: rest2 : List Slide).length + 4
          = ((f + 2 * (s2 :: rest2 : List Slide).length + 1) + 4) + 1 from by
        simp [List.length_cons] <;> omega), parseF_elems_step,
        parseF_slide s hct hcc (f + 2 * (s2 :: rest2 : List Slide).length + 1)]
      show parseF ((f + 2 * (s2 :: rest2 : List Slide).length + 1) + 4)
          (.elems (acc ++ [slideToJson s]))
          (skipWs (sepComma ((s2 :: rest2).map slideChars) ++ (']' :: r)))
        = some (Json.arr (acc ++ (s :: s2 :: rest2).map slideToJson), r)
      rw [sepComma_slides_head s2 rest2]
      have hskip : skipWs ('\x7b' :: ((sepComma ((s2 :: rest2).map slideChars)
            ++ (']' :: r)).tail))
          = '\x7b' :: ((sepComma ((s2 :: rest2).map slideChars) ++ (']' :: r)).tail) := rfl
      rw [hskip, ← sepComma_slides_head s2 rest2,
        (show (f + 2 * (s2 :: rest2 : List Slide).length + 1) + 4
          = (f + 1) + 2 * (s2 :: rest2 : List Slide).length + 4 from by omega),
        ih hrest (by simp) (f + 1) (acc ++ [slideToJson s]) r]
      simp

/-- A canonically serialized clean batch parses as its JSON object. -/
theorem parseF_batch (sls : List Slide) (hcl : sls.all Slide.clean = true)
    (f : Nat) (r : List Char) :
    parseF (f + 2 * sls.length + 8) .value (batchChars sls ++ r)
      = some (batchToJson sls, r) := by
  have e1 : batchChars sls ++ r
      = '\x7b' :: ('"' :: (escStr "slides".data ++ ('"' :: (':' :: ('[' ::
          (sepComma (sls.map slideChars) ++ (']' :: ('\x7d' :: r)))))))) := by
    simp [batchChars, List.append_assoc]
    rfl
  rw [e1,
    (show f + 2 * sls.length + 8 = ((f + 2 * sls.length + 6) + 1) + 1 from by omega)]
  show parseF ((f + 2 * sls.length + 6) + 1) (.members [])
      ('"' :: (escStr "slides".data ++ ('"' :: (':' :: ('[' ::
        (sepComma (sls.map slideChars) ++ (']' :: ('\x7d' :: r))))))))
    = some (batchToJson sls, r)
  rw [parseF_members_step (f + 2 * sls.length + 6) [] "slides".data (by decide) _ rfl]
  cases sls with
  | nil =>
    rfl
  | cons s rest =>
    have e2 : sepComma ((s :: rest).map slideChars) ++ (']' :: ('\x7d' :: r))
        = '\x7b' :: ((sepComma ((s :: rest).map slideChars)
            ++ (']' :: ('\x7d' :: r))).tail) := sepComma_slides_head s rest _
    show (match parseF (f + 2 * (s :: rest : List Slide).length + 6) .value
          ('[' :: (sepComma ((s :: rest).map slideChars) ++ (']' :: ('\x7d' :: r)))) with
        | none => none
        | some (v, r3) =>
          match skipWs r3 with
          | ',' :: r4 => parseF (f + 2 * (s :: rest : List Slide).length + 6)
              (.members ([] ++ [("slides", v)])) (skipWs r4)
          | '\x7d' :: r4 => some (Json.obj ([] ++ [("slides", v)]), r4)
          | _ => none)
      = some (batchToJson (s :: rest), r)
    have hval : parseF (f + 2 * (s :: rest : List Slide).length + 6) .value
          ('[' :: (sepComma ((s :: rest).map slideChars) ++ (']' :: ('\x7d' :: r))))
        = some (Json.arr ((s :: rest).map slideToJson), '\x7d' :: r) := by
      rw [e2]
      show parseF (f + 2 * (s :: rest : List Slide).length + 5) (.elems [])
          ('\x7b' :: ((sepComma ((s :: rest).map slideChars)
            ++ (']' :: ('\x7d' :: r))).tail))
        = some (Json.arr ((s :: rest).map slideToJson), '\x7d' :: r)
      rw [← e2,
        (show f + 2 * (s :: rest : List Slide).length + 5
          = (f + 1) + 2 * (s :: rest : List Slide).length + 4 from by omega),
        parseF_elems_slides (s :: rest) hcl (by simp) (f + 1) [] ('\x7d' :: r)]
      simp
    rw [hval]
    rfl

/-- `jsonParse` on a canonical clean batch serialization. -/
theorem jsonParse_batch (sls : List Slide) (hcl : sls.all Slide.clean = true) :
    jsonParse (batchChars sls) = some (batchToJson sls) := by
  have hone : ∀ x ∈ sls.map slideChars, 1 ≤ x.length := by
    intro x hx
    obtain ⟨sl, _, rfl⟩ := List.mem_map.1 hx
    simp [slideChars]
  have hsep : sls.length ≤ (sepComma (sls.map slideChars)).length := by
    have := sepComma_length_ge (sls.map slideChars) hone
    simpa using this
  have hlen : 2 * sls.length + 8 ≤ 2 * (batchChars sls).length + 2 := by
    have : sls.length + 13 ≤ (batchChars sls).length := by
      simp [batchChars, List.length_append]
      omega
    omega
  have hp : parseF ((2 * (batchChars sls).length + 2 - (2 * sls.length + 8))
        + 2 * sls.length + 8) .value (batchChars sls)
      = some (batchToJson sls, []) := by
    have := parseF_batch sls hcl
      (2 * (batchChars sls).length + 2 - (2 * sls.length + 8)) []
    rwa [List.append_nil] at this
  have hskip : skipWs (batchChars sls) = batchChars sls := rfl
  unfold jsonParse
  rw [hskip, (show 2 * (batchChars sls).length + 2
      = (2 * (batchChars sls).length + 2 - (2 * sls.length + 8))
        + 2 * sls.length + 8 from by omega), hp]
  rfl

/-- Property read of the slides array off a parsed canonical batch. -/
theorem getField_batch (sls : List Slide) :
    (batchToJson sls).getField "slides" = some (Json.arr (sls.map slideToJson)) := rfl

/-- The second accumulator component is untouched by pushes. -/
theorem pushAcc_foldl_snd : ∀ (cs : List Char) (a : List Char × List Json),
    (List.foldl pushAcc a cs).2 = a.2
  | [], _ => rfl
  | _ :: cs, a => pushAcc_foldl_snd cs _

/-- The Phase 1 close action on a serialized clean batch: parse succeeds,
the pending region resets and the batch slides are appended. -/
theorem close1_batch (sls : List Slide) (hcl : sls.all Slide.clean = true)
    (a : List Char × List Json) :
    close1 (batchChars sls) a = ([], a.2 ++ sls.map slideToJson) := by
  unfold close1
  rw [jsonParse_batch sls hcl]
  rfl

/-- `gstep` on `\x7b` from the ready state: a new root candidate opens. -/
theorem gstep_lbrace0 (pushA : α → Char → α) (close : List Char → α → α)
    (st : GSt α) (hi : st.inStr = false) (hbs : st.afterBS = false)
    (hb : st.brace = 0) :
    gstep pushA close st '\x7b'
      = { st with brace := 1, cur := some ['\x7b'], acc := pushA st.acc '\x7b' } := by
  simp [gstep, hi, hbs, hb, gpush]

/-- `gstep` on `\x7b` at positive depth: the depth increases, the candidate
(and its absence) is untouched. -/
theorem gstep_lbrace_ne (pushA : α → Char → α) (close : List Char → α → α)
    (st : GSt α) (hi : st.inStr = false) (hbs : st.afterBS = false)
    (hb : ¬ st.brace = 0) :
    gstep pushA close st '\x7b'
      = gpush pushA { st with brace := st.brace + 1 } '\x7b' := by
  simp [gstep, hi, hbs, hb]

/-- `gstep` on `\x7d` when the depth does not return to `0`: no close. -/
theorem gstep_rbrace_ne (pushA : α → Char → α) (close : List Char → α → α)
    (st : GSt α) (hi : st.inStr = false) (hbs : st.afterBS = false)
    (hb : ¬ st.brace - 1 = 0) :
    gstep pushA close st '\x7d'
      = gpush pushA { st with brace := st.brace - 1 } '\x7d' := by
  cases hc : st.cur <;> simp [gstep, hi, hbs, hc, hb, gpush]

/-- `gstep` on `\x7d` at depth `1` with an open candidate: the close action
fires on the candidate text. -/
theorem gstep_rbrace_close (pushA : α → Char → α) (close : List Char → α → α)
    (st : GSt α) (rcs : List Char) (hi : st.inStr = false) (hbs : st.afterBS = false)
    (hb : st.brace = 1) (hc : st.cur = some rcs) :
    gstep pushA close st '\x7d'
      = { st with
          brace := 0, cur := none,
          acc := close (rcs.reverse ++ ['\x7d']) (pushA st.acc '\x7d') } := by
  simp [gstep, hi, hbs, hb, hc, gpush]

/-- Scanning a quoted literal extends a recorded region. -/
theorem gpushed_step_quoted (pushA : α → Char → α) (close : List Char → α → α)
    (s xs : List Char) (st : GSt α) (hi : st.inStr = false) (hbs : st.afterBS = false) :
    gscan pushA close (quotedStr s) (gpushed pushA st xs)
      = gpushed pushA st (xs ++ quotedStr s) := by
  rw [gpushed_append]
  exact gscan_quoted pushA close s _ (by simp [gpushed, hi]) (by simp [gpushed, hbs])

/-- Scanning a structural character extends a recorded region. -/
theorem gpushed_step_neutral (pushA : α → Char → α) (close : List Char → α → α)
    (c : Char) (xs : List Char) (st : GSt α)
    (hi : st.inStr = false) (hbs : st.afterBS = false)
    (hq : c ≠ '"') (hb : c ≠ '\\') (hob : c ≠ '\x7b') (hcb : c ≠ '\x7d') :
    gscan pushA close [c] (gpushed pushA st xs)
      = gpushed pushA st (xs ++ [c]) := by
  rw [gpushed_append]
  exact gscan_neutral pushA close _ c (by simp [gpushed, hi]) (by simp [gpushed, hbs])
    hq hb hob hcb

/-- The closing `\x7d` of a nested (depth `> 1`) object: the region extends,
the depth returns one level up, no close fires. -/
theorem gpushed_step_rbrace (pushA : α → Char → α) (close : List Char → α → α)
    (xs : List Char) (st : GSt α) (hi : st.inStr = false) (hbs : st.afterBS = false)
    (hb : ¬ st.brace = 0) :
    gscan pushA close ['\x7d'] (gpushed pushA { st with brace := st.brace + 1 } xs)
      = gpushed pushA st (xs ++ ['\x7d']) := by
  rw [show gscan pushA close ['\x7d'] (gpushed pushA { st with brace := st.brace + 1 } xs)
      = gstep pushA close (gpushed pushA { st with brace := st.brace + 1 } xs) '\x7d'
      from rfl,
    gstep_rbrace_ne pushA close (gpushed pushA { st with brace := st.brace + 1 } xs)
      (by simp [gpushed, hi]) (by simp [gpushed, hbs]) (by simp [gpushed]; omega)]
  simp [gpushed, gpush, Option.map_map, List.foldl_append, List.reverse_append]
  cases st.cur <;> simp

/-- Scanning a serialized slide object at positive depth records it; the
internal braces return to the entry depth without firing the close. -/
theorem gscan_slideChars (pushA : α → Char → α) (close : List Char → α → α)
    (sl : Slide) (st : GSt α) (hi : st.inStr = false) (hbs : st.afterBS = false)
    (hb : ¬ st.brace = 0) :
    gscan pushA close (slideChars sl) st = gpushed pushA st (slideChars sl) := by
  have hdec : slideChars sl
      = ['\x7b'] ++ (quotedStr "title".data ++ ([':']
        ++ (quotedStr sl.title.data ++ ([',']
        ++ (quotedStr "content".data ++ ([':']
        ++ (quotedStr sl.content.data ++ ['\x7d']))))))) := by
    simp [slideChars, quotedStr, List.append_assoc]
    rfl
  have h1 : gscan pushA close ['\x7b'] st
      = gpushed pushA { st with brace := st.brace + 1 } ['\x7b'] := by
    rw [show gscan pushA close ['\x7b'] st = gstep pushA close st '\x7b' from rfl,
      gstep_lbrace_ne pushA close st hi hbs hb, gpush_eq_gpushed]
  have hBi : ({ st with brace := st.brace + 1 } : GSt α).inStr = false := hi
  have hBbs : ({ st with brace := st.brace + 1 } : GSt α).afterBS = false := hbs
  rw [hdec, gscan_append, h1, gscan_append,
    gpushed_step_quoted pushA close _ _ { st with brace := st.brace + 1 } hBi hBbs,
    gscan_append,
    gpushed_step_neutral pushA close ':' _ { st with brace := st.brace + 1 } hBi hBbs
      (by decide) (by decide) (by decide) (by decide), gscan_append,
    gpushed_step_quoted pushA close _ _ { st with brace := st.brace + 1 } hBi hBbs,
    gscan_append,
    gpushed_step_neutral pushA close ',' _ { st with brace := st.brace + 1 } hBi hBbs
      (by decide) (by decide) (by decide) (by decide), gscan_append,
    gpushed_step_quoted pushA close _ _ { st with brace := st.brace + 1 } hBi hBbs,
    gscan_append,
    gpushed_step_neutral pushA close ':' _ { st with brace := st.brace + 1 } hBi hBbs
      (by decide) (by decide) (by decide) (by decide), gscan_append,
    gpushed_step_quoted pushA close _ _ { st with brace := st.brace + 1 } hBi hBbs,
    gpushed_step_rbrace pushA close _ st hi hbs hb]
  simp [List.append_assoc]

/-- Scanning the comma-separated serialized slides at positive depth records
them without firing the close. -/
theorem gscan_sepComma_slides (pushA : α → Char → α) (close : List Char → α → α) :
    ∀ (sls : List Slide) (st : GSt α), st.inStr = false → st.afterBS = false →
    ¬ st.brace = 0 →
    gscan pushA close (sepComma (sls.map slideChars)) st
      = gpushed pushA st (sepComma (sls.map slideChars)) := by
  intro sls
  induction sls with
  | nil => intro st _ _ _; simp [sepComma, gscan, gpushed_nil]
  | cons s rest ih =>
    intro st hi hbs hb
    cases rest with
    | nil => simpa [sepComma] using gscan_slideChars pushA close s st hi hbs hb
    | cons s2 rest2 =>
      have e : sepComma ((s :: s2 :: rest2).map slideChars)
          = slideChars s ++ ([','] ++ sepComma ((s2 :: rest2).map slideChars)) := by
        simp [sepComma]
      rw [e, gscan_append, gscan_slideChars pushA close s st hi hbs hb, gscan_append,
        gpushed_step_neutral pushA close ',' _ st hi hbs
          (by decide) (by decide) (by decide) (by decide),
        ih (gpushed pushA st (slideChars s ++ [','])) hi hbs hb,
        ← gpushed_append]
      simp [List.append_assoc]

/-- The root-closing `\x7d` at depth `1`: the close action fires on the full
recorded candidate. -/
theorem gpushed_root_close (pushA : α → Char → α) (close : List Char → α → α)
    (xs : List Char) (st : GSt α) (hi : st.inStr = false) (hbs : st.afterBS = false)
    (hb : st.brace = 1) (hc : st.cur = some []) :
    gscan pushA close ['\x7d'] (gpushed pushA st xs)
      = { st with
          brace := 0, cur := none,
          acc := close (xs ++ ['\x7d']) (pushA (xs.foldl pushA st.acc) '\x7d') } := by
  rw [show gscan pushA close ['\x7d'] (gpushed pushA st xs)
      = gstep pushA close (gpushed pushA st xs) '\x7d' from rfl,
    gstep_rbrace_close pushA close (gpushed pushA st xs) xs.reverse
      (by simp [gpushed, hi]) (by simp [gpushed, hbs]) (by simp [gpushed, hb])
      (by simp [gpushed, hc])]
  simp [gpushed]

/-- Scanning one canonical clean batch from the ready state: the candidate
closes, the batch parses, its slides are appended and the pending region
resets. -/
theorem gscan_batch (sls : List Slide) (hcl : sls.all Slide.clean = true)
    (a : List Char × List Json) :
    gscan pushAcc close1 (batchChars sls)
        (⟨0, false, false, none, a⟩ : GSt (List Char × List Json))
      = ⟨0, false, false, none, ([], a.2 ++ sls.map slideToJson)⟩ := by
  have hdec : batchChars sls
      = ['\x7b'] ++ (quotedStr "slides".data ++ ([':']
        ++ (['['] ++ (sepComma (sls.map slideChars) ++ ([']'] ++ ['\x7d']))))) := by
    simp [batchChars, quotedStr, List.append_assoc]
    rfl
  have h1 : gscan pushAcc close1 ['\x7b']
        (⟨0, false, false, none, a⟩ : GSt (List Char × List Json))
      = gpushed pushAcc ⟨1, false, false, some [], a⟩ ['\x7b'] := by
    rw [show gscan pushAcc close1 ['\x7b']
          (⟨0, false, false, none, a⟩ : GSt (List Char × List Json))
        = gstep pushAcc close1 ⟨0, false, false, none, a⟩ '\x7b' from rfl,
      gstep_lbrace0 pushAcc close1 _ rfl rfl rfl]
    simp [gpushed, gpush]
  rw [hdec, gscan_append, h1, gscan_append,
    gpushed_step_quoted pushAcc close1 _ _ ⟨1, false, false, some [], a⟩ rfl rfl,
    gscan_append,
    gpushed_step_neutral pushAcc close1 ':' _ ⟨1, false, false, some [], a⟩ rfl rfl
      (by decide) (by decide) (by decide) (by decide), gscan_append,
    gpushed_step_neutral pushAcc close1 '[' _ ⟨1, false, false, some [], a⟩ rfl rfl
      (by decide) (by decide) (by decide) (by decide), gscan_append,
    gscan_sepComma_slides pushAcc close1 sls
      (gpushed pushAcc ⟨1, false, false, some [], a⟩
        (((['\x7b'] ++ quotedStr "slides".data) ++ [':']) ++ ['[']))
      rfl rfl (by simp [gpushed]), ← gpushed_append,
    gscan_append,
    gpushed_step_neutral pushAcc close1 ']' _ ⟨1, false, false, some [], a⟩ rfl rfl
      (by decide) (by decide) (by decide) (by decide),
    gpushed_root_close pushAcc close1 _ ⟨1, false, false, some [], a⟩ rfl rfl rfl rfl]
  rw [show (((((['\x7b'] ++ quotedStr "slides".data) ++ [':']) ++ ['['])
        ++ sepComma (sls.map slideChars)) ++ [']']) ++ ['\x7d'] = batchChars sls from by
      rw [hdec]; simp [List.append_assoc],
    close1_batch sls hcl]
  simp [pushAcc, pushAcc_foldl_snd]

/-- Scanning a whole canonical clean stream from the ready state: every batch
closes in turn; all slides accumulate, the pending region ends empty. -/
theorem gscan_stream : ∀ (bs : List (List Slide)), batchesClean bs = true →
    ∀ sl : List Json,
    gscan pushAcc close1 (streamChars bs)
        (⟨0, false, false, none, ([], sl)⟩ : GSt (List Char × List Json))
      = ⟨0, false, false, none,
          ([], sl ++ (bs.map (fun b => b.map slideToJson)).flatten)⟩ := by
  intro bs
  induction bs with
  | nil => intro _ sl; simp [streamChars, gscan]
  | cons b rest ih =>
    intro hcl sl
    have hb : b.all Slide.clean = true ∧ batchesClean rest = true := by
      unfold batchesClean at hcl
      rw [List.all_cons, Bool.and_eq_true] at hcl
      exact hcl
    rw [show streamChars (b :: rest) = batchChars b ++ streamChars rest from by
        simp [streamChars],
      gscan_append, gscan_batch b hb.1 ([], sl), ih hb.2 (sl ++ b.map slideToJson)]
    simp

/-- The canonical escape of a clean character contains no backquote. -/
theorem escChar_no_tick (c : Char) (hc : cleanCharB c = true) : '\x60' ∉ escChar c := by
  have hne : ¬ c = '\x60' := by
    unfold cleanCharB at hc
    rw [Bool.and_eq_true] at hc
    exact of_decide_eq_true hc.2
  unfold escChar
  split_ifs <;> simp [hne] <;> intro h <;> exact hne h.symm

/-- The canonical escape of a clean string contains no backquote. -/
theorem escStr_no_tick (s : List Char) (hs : s.all cleanCharB = true) :
    '\x60' ∉ escStr s := by
  intro hmem
  obtain ⟨c, hc, hin⟩ := List.mem_flatMap.1 hmem
  exact escChar_no_tick c (by rw [List.all_eq_true] at hs; exact hs c hc) hin

/-- A canonical quoted clean string contains no backquote. -/
theorem quotedStr_no_tick (s : List Char) (hs : s.all cleanCharB = true) :
    '\x60' ∉ quotedStr s := by
  intro hmem
  simp [quotedStr] at hmem
  exact escStr_no_tick s hs hmem

/-- Membership in a comma-separated join. -/
theorem sepComma_mem : ∀ (ls : List (List Char)) (c : Char), c ∈ sepComma ls →
    c = ',' ∨ ∃ l ∈ ls, c ∈ l := by
  intro ls
  induction ls with
  | nil => intro c h; simp [sepComma] at h
  | cons a rest ih =>
    intro c h
    cases rest with
    | nil => exact Or.inr ⟨a, by simp, by simpa [sepComma] using h⟩
    | cons b rest2 =>
      rw [show sepComma (a :: b :: rest2) = a ++ (',' :: sepComma (b :: rest2))
          from rfl] at h
      rcases List.mem_append.1 h with h | h
      · exact Or.inr ⟨a, by simp, h⟩
      · rcases List.mem_cons.1 h with h | h
        · exact Or.inl h
        · rcases ih c h with h | ⟨l, hl, hcl⟩
          · exact Or.inl h
          · exact Or.inr ⟨l, by simp [hl], hcl⟩

/-- A serialized clean slide contains no backquote. -/
theorem slideChars_no_tick (sl : Slide) (h : Slide.clean sl = true) :
    '\x60' ∉ slideChars sl := by
  obtain ⟨ht, hc⟩ : sl.title.data.all cleanCharB = true
      ∧ sl.content.data.all cleanCharB = true := by
    unfold Slide.clean at h
    rw [Bool.and_eq_true] at h
    exact h
  intro hmem
  rw [show slideChars sl
      = ['\x7b'] ++ "\"title\":".data ++ quotedStr sl.title.data
        ++ ",\"content\":".data ++ quotedStr sl.content.data ++ ['\x7d'] from by
    simp [slideChars, List.append_assoc]] at hmem
  simp only [List.mem_append] at hmem
  rcases hmem with ((((h1 | h2) | h3) | h4) | h5) | h6
  · simp at h1
  · simp at h2
  · exact quotedStr_no_tick _ ht h3
  · simp at h4
  · exact quotedStr_no_tick _ hc h5
  · simp at h6

/-- A serialized clean batch contains no backquote. -/
theorem batchChars_no_tick (sls : List Slide) (h : sls.all Slide.clean = true) :
    '\x60' ∉ batchChars sls := by
  intro hmem
  rw [show batchChars sls
      = "\x7b\"slides\":[".data ++ sepComma (sls.map slideChars) ++ "]\x7d".data
      from by simp [batchChars]] at hmem
  simp only [List.mem_append] at hmem
  rcases hmem with (h1 | h2) | h3
  · simp at h1
  · rcases sepComma_mem _ _ h2 with hc | ⟨l, hl, hcl⟩
    · exact absurd hc (by decide)
    · obtain ⟨sl, hsl, rfl⟩ := List.mem_map.1 hl
      exact slideChars_no_tick sl (by rw [List.all_eq_true] at h; exact h sl hsl) hcl
  · simp at h3

/-- A serialized clean stream contains no backquote. -/
theorem streamChars_no_tick (bs : List (List Slide)) (h : batchesClean bs = true) :
    '\x60' ∉ streamChars bs := by
  intro hmem
  unfold streamChars at hmem
  obtain ⟨l, hl, hcl⟩ := List.mem_flatten.1 hmem
  obtain ⟨b, hb, rfl⟩ := List.mem_map.1 hl
  have : b.all Slide.clean = true := by
    unfold batchesClean at h
    rw [List.all_eq_true] at h
    exact h b hb
  exact batchChars_no_tick b this hcl

/-- Global replacement of a pattern whose first character never occurs is the
identity. -/
theorem replAllF_not_mem (p0 : Char) (ps rep : List Char) :
    ∀ (g : Nat) (l : List Char), p0 ∉ l → replAllF (p0 :: ps) rep g l = l := by
  intro g
  induction g with
  | zero => intro l _; rfl
  | succ g ih =>
    intro l hl
    cases l with
    | nil => rfl
    | cons c cs =>
      have hne : ¬ (p0 = c) := fun h => hl (h ▸ List.mem_cons_self c cs)
      rw [show replAllF (p0 :: ps) rep (g + 1) (c :: cs)
          = if isPref (p0 :: ps) (c :: cs) && (p0 :: ps) ≠ [] then
              rep ++ replAllF (p0 :: ps) rep g ((c :: cs).drop (p0 :: ps).length)
            else c :: replAllF (p0 :: ps) rep g cs from rfl,
        if_neg (by simp [isPref, hne]),
        ih cs (fun h => hl (List.mem_cons_of_mem c h))]

/-- `replAll` identity under absence of the pattern head. -/
theorem replAll_not_mem (p0 : Char) (ps rep l : List Char) (hl : p0 ∉ l) :
    replAll (p0 :: ps) rep l = l :=
  replAllF_not_mem p0 ps rep (l.length + 1) l hl

/-- `trim` is the identity when neither end is whitespace. -/
theorem listTrim_id (l : List Char)
    (hh : ∀ c, l.head? = some c → jsWs c = false)
    (hl : ∀ c, l.getLast? = some c → jsWs c = false) :
    listTrim l = l := by
  have h1 : l.dropWhile (jsWs ·) = l := by
    cases l with
    | nil => rfl
    | cons c cs => rw [List.dropWhile_cons, if_neg (by simp [hh c rfl])]
  unfold listTrim
  rw [h1]
  have h2 : l.reverse.dropWhile (jsWs ·) = l.reverse := by
    cases e : l.reverse with
    | nil => rfl
    | cons d ds =>
      have hd : l.getLast? = some d := by rw [← List.head?_reverse, e]; rfl
      rw [List.dropWhile_cons, if_neg (by simp [hl d hd])]
  rw [h2, List.reverse_reverse]

/-- The sanitizer on a backquote-free buffer only trims. -/
theorem sanitize_no_tick (l : List Char) (hl : '\x60' ∉ l) :
    sanitize l = listTrim l := by
  unfold sanitize
  rw [replAll_not_mem _ _ _ _ hl, replAll_not_mem _ _ _ _ hl]

/-- A nonempty canonical stream ends with the closing brace. -/
theorem streamChars_last : ∀ (b : List Slide) (rest : List (List Slide)),
    (streamChars (b :: rest)).getLast? = some '\x7d' := by
  intro b rest
  induction rest generalizing b with
  | nil =>
    rw [show streamChars [b] = batchChars b from by simp [streamChars],
      show batchChars b
        = ("\x7b\"slides\":[".data ++ sepComma (b.map slideChars)) ++ [']', '\x7d']
        from by simp [batchChars],
      List.getLast?_append]
    rfl
  | cons b2 rest2 ih =>
    rw [show streamChars (b :: b2 :: rest2) = batchChars b ++ streamChars (b2 :: rest2)
        from by simp [streamChars],
      List.getLast?_append, ih b2]
    rfl

/-- The sanitizer is the identity on a canonical clean stream. -/
theorem sanitize_streamChars (bs : List (List Slide)) (hcl : batchesClean bs = true) :
    sanitize (streamChars bs) = streamChars bs := by
  rw [sanitize_no_tick _ (streamChars_no_tick bs hcl)]
  cases bs with
  | nil => rfl
  | cons b rest =>
    apply listTrim_id
    · intro c h
      rw [show (streamChars (b :: rest)).head? = some '\x7b' from rfl] at h
      injection h with h
      subst h
      decide
    · intro c h
      rw [streamChars_last b rest] at h
      injection h with h
      subst h
      decide

/-- `parseLiveStream` on a complete canonical clean stream returns exactly the
serialized slides, in order, with empty in-progress HTML. -/
theorem parseLiveStreamL_canonical (bs : List (List Slide))
    (hcl : batchesClean bs = true) :
    parseLiveStreamL (streamChars bs) true
      = { completeSlides := (bs.map (fun b => b.map slideToJson)).flatten,
          inProgressHtml := "" } := by
  simp only [parseLiveStreamL]
  rw [sanitize_streamChars bs hcl,
    show ({ brace := 0, inStr := false, cur := none, pending := [], slides := [] } : Scan1)
      = toScan1 ⟨0, false, false, none, ([], [])⟩ from rfl,
    scan1_eq_gscan (streamChars bs).length (streamChars bs) le_rfl _ rfl,
    gscan_stream bs hcl []]
  rfl

/-- **C1, amended.**  For every buffer formed by concatenating canonically
serialized clean batches (slide titles and contents free of backquotes and of
control characters other than newline, carriage return, tab),
`parseLiveStream(buffer, true)` returns completeSlides equal to exactly the
serialized slides in input order, and an empty `inProgressHtml`.  (The
backquote restriction is necessary: the sanitizer strips fenced-code marker
sequences out of slide contents, see the C1 counterexample.) -/
theorem c1_amended (bs : List (List Slide)) (hcl : batchesClean bs = true) :
    parseLiveStream (String.mk (streamChars bs)) true
      = { completeSlides := (bs.map (fun b => b.map slideToJson)).flatten,
          inProgressHtml := "" } := by
  unfold parseLiveStream
  rw [show (String.mk (streamChars bs)).data = streamChars bs from rfl]
  exact parseLiveStreamL_canonical bs hcl

set_option maxRecDepth 100000 in
/-- **C1, amended, witness.**  The spec example: two single-slide batches
concatenated with no separator parse to the two slides in order. -/
theorem c1_amended_witness :
    batchesClean [[⟨"A", "<div>x</div>"⟩], [⟨"B", "<div>y</div>"⟩]] = true
    ∧ parseLiveStream
        (String.mk (streamChars [[⟨"A", "<div>x</div>"⟩], [⟨"B", "<div>y</div>"⟩]]))
        true
      = { completeSlides := [slideToJson ⟨"A", "<div>x</div>"⟩,
            slideToJson ⟨"B", "<div>y</div>"⟩],
          inProgressHtml := "" } :=
  ⟨by decide, by
    rw [c1_amended [[⟨"A", "<div>x</div>"⟩], [⟨"B", "<div>y</div>"⟩]] (by decide)]
    rfl⟩

/-- **C7.**  For every canonical clean buffer containing a slide whose content
field has a quote character in its HTML (serialized as an escaped quote
`\"`), `parseLiveStream` parses that content as a single field rather than
splitting it at the escaped quote: the returned slide objects carry the full
content strings.  (Mechanism: in the scan a backslash consumes the following
character, so the escaped quote never toggles the in-string flag.) -/
theorem c7_escaped_quote (bs : List (List Slide)) (hcl : batchesClean bs = true)
    (hq : bs.any (fun b => b.any (fun sl => sl.content.data.contains '"')) = true) :
    (parseLiveStream (String.mk (streamChars bs)) true).completeSlides
      = (bs.map (fun b => b.map slideToJson)).flatten := by
  unfold parseLiveStream
  rw [show (String.mk (streamChars bs)).data = streamChars bs from rfl,
    parseLiveStreamL_canonical bs hcl]

set_option maxRecDepth 100000 in
/-- **C7, witness.**  A slide whose content holds `<div class="x">t</div>`
(an escaped quote inside the serialized JSON) comes back as one slide whose
content is the whole string. -/
theorem c7_escaped_quote_witness :
    batchesClean [[⟨"A", "<div class=\"x\">t</div>"⟩]] = true
    ∧ ([[(⟨"A", "<div class=\"x\">t</div>"⟩ : Slide)]].any
        (fun b => b.any (fun sl => sl.content.data.contains '"'))) = true
    ∧ (parseLiveStream
        (String.mk (streamChars [[⟨"A", "<div class=\"x\">t</div>"⟩]])) true).completeSlides
      = [slideToJson ⟨"A", "<div class=\"x\">t</div>"⟩] :=
  ⟨by decide, by decide, by
    rw [c7_escaped_quote [[⟨"A", "<div class=\"x\">t</div>"⟩]] (by decide) (by decide)]
    rfl⟩

/-- A canonical one-member string object parses as its JSON object. -/
theorem parseF_misc (k v : String) (hk : k.data.all cleanCharB = true)
    (hv : v.data.all cleanCharB = true) (f : Nat) (r : List Char) :
    parseF (f + 3) .value (miscObjChars k v ++ r)
      = some (Json.obj [(k, Json.str v)], r) := by
  have e1 : miscObjChars k v ++ r
      = '\x7b' :: ('"' :: (escStr k.data ++ ('"' :: (':' :: ('"' :: (escStr v.data
          ++ ('"' :: ('\x7d' :: r)))))))) := by
    simp [miscObjChars, quotedStr, List.append_assoc]
  rw [e1]
  show parseF (f + 2) (.members [])
      ('"' :: (escStr k.data ++ ('"' :: (':' :: ('"' :: (escStr v.data
        ++ ('"' :: ('\x7d' :: r))))))))
    = some (Json.obj [(k, Json.str v)], r)
  rw [(show f + 2 = (f + 1) + 1 from rfl),
    parseF_members_step (f + 1) [] k.data hk _ rfl,
    parseF_value_str v.data hv f]
  show some (Json.obj [(String.mk k.data, Json.str (String.mk v.data))], r)
      = some (Json.obj [(k, Json.str v)], r)
  rw [stringMk_data, stringMk_data]

/-- `jsonParse` on a canonical one-member string object. -/
theorem jsonParse_misc (k v : String) (hk : k.data.all cleanCharB = true)
    (hv : v.data.all cleanCharB = true) :
    jsonParse (miscObjChars k v) = some (Json.obj [(k, Json.str v)]) := by
  have hlen : 3 ≤ 2 * (miscObjChars k v).length + 2 := by
    simp [miscObjChars]
    omega
  have hp : parseF ((2 * (miscObjChars k v).length + 2 - 3) + 3) .value
        (miscObjChars k v)
      = some (Json.obj [(k, Json.str v)], []) := by
    have := parseF_misc k v hk hv (2 * (miscObjChars k v).length + 2 - 3) []
    rwa [List.append_nil] at this
  unfold jsonParse
  rw [(show skipWs (miscObjChars k v) = miscObjChars k v from rfl),
    (show 2 * (miscObjChars k v).length + 2
      = (2 * (miscObjChars k v).length + 2 - 3) + 3 from by omega), hp]
  rfl

/-- The Phase 1 close action on an object without a slides array: the parse
succeeds, the cursor advances (pending resets), and no slides are added. -/
theorem close1_misc (k v : String) (hk : k.data.all cleanCharB = true)
    (hv : v.data.all cleanCharB = true) (hne : (k == "slides") = false)
    (a : List Char × List Json) :
    close1 (miscObjChars k v) a = ([], a.2) := by
  unfold close1
  rw [jsonParse_misc k v hk hv]
  simp [Json.getField, hne]

/-- A misc (slides-free) object contains no backquote when its key and value
are clean. -/
theorem miscObjChars_no_tick (k v : String) (hk : k.data.all cleanCharB = true)
    (hv : v.data.all cleanCharB = true) : '\x60' ∉ miscObjChars k v := by
  intro hmem
  rw [show miscObjChars k v
      = ['\x7b'] ++ quotedStr k.data ++ ([':'] ++ quotedStr v.data) ++ ['\x7d']
      from by simp [miscObjChars, List.append_assoc]] at hmem
  simp only [List.mem_append] at hmem
  rcases hmem with ((h1 | h2) | h3) | h4
  · simp at h1
  · exact quotedStr_no_tick _ hk h2
  · rcases h3 with h3 | h3
    · simp at h3
    · exact quotedStr_no_tick _ hv h3
  · simp at h4

/-- Scanning a misc object from the ready state: the candidate closes, the
parse succeeds, nothing is appended, the pending region resets. -/
theorem gscan_miscObj (k v : String) (hk : k.data.all cleanCharB = true)
    (hv : v.data.all cleanCharB = true) (hne : (k == "slides") = false)
    (a : List Char × List Json) :
    gscan pushAcc close1 (miscObjChars k v)
        (⟨0, false, false, none, a⟩ : GSt (List Char × List Json))
      = ⟨0, false, false, none, ([], a.2)⟩ := by
  have hdec : miscObjChars k v
      = ['\x7b'] ++ (quotedStr k.data ++ ([':'] ++ (quotedStr v.data ++ ['\x7d']))) := by
    simp [miscObjChars, List.append_assoc]
  have h1 : gscan pushAcc close1 ['\x7b']
        (⟨0, false, false, none, a⟩ : GSt (List Char × List Json))
      = gpushed pushAcc ⟨1, false, false, some [], a⟩ ['\x7b'] := by
    rw [show gscan pushAcc close1 ['\x7b']
          (⟨0, false, false, none, a⟩ : GSt (List Char × List Json))
        = gstep pushAcc close1 ⟨0, false, false, none, a⟩ '\x7b' from rfl,
      gstep_lbrace0 pushAcc close1 _ rfl rfl rfl]
    simp [gpushed, gpush]
  rw [hdec, gscan_append, h1, gscan_append,
    gpushed_step_quoted pushAcc close1 _ _ ⟨1, false, false, some [], a⟩ rfl rfl,
    gscan_append,
    gpushed_step_neutral pushAcc close1 ':' _ ⟨1, false, false, some [], a⟩ rfl rfl
      (by decide) (by decide) (by decide) (by decide), gscan_append,
    gpushed_step_quoted pushAcc close1 _ _ ⟨1, false, false, some [], a⟩ rfl rfl,
    gpushed_root_close pushAcc close1 _ ⟨1, false, false, some [], a⟩ rfl rfl rfl rfl,
    show (((['\x7b'] ++ quotedStr k.data) ++ [':']) ++ quotedStr v.data) ++ ['\x7d']
      = miscObjChars k v from by rw [hdec]; simp [List.append_assoc],
    close1_misc k v hk hv hne]
  simp [pushAcc, pushAcc_foldl_snd]

/-- A misc object ends with a closing brace. -/
theorem miscObjChars_last (k v : String) :
    (miscObjChars k v).getLast? = some '\x7d' := by
  rw [show miscObjChars k v
      = ('\x7b' :: (quotedStr k.data ++ (':' :: quotedStr v.data))) ++ ['\x7d']
      from by simp [miscObjChars, List.append_assoc], List.getLast?_append]
  rfl

/-- The sanitizer is the identity on a misc object followed by a canonical
stream. -/
theorem sanitize_misc_stream (k v : String) (hk : k.data.all cleanCharB = true)
    (hv : v.data.all cleanCharB = true) (bs : List (List Slide))
    (hcl : batchesClean bs = true) :
    sanitize (miscObjChars k v ++ streamChars bs)
      = miscObjChars k v ++ streamChars bs := by
  rw [sanitize_no_tick _ (by
    intro h
    rcases List.mem_append.1 h with h | h
    · exact miscObjChars_no_tick k v hk hv h
    · exact streamChars_no_tick bs hcl h)]
  apply listTrim_id
  · intro c h
    rw [show (miscObjChars k v ++ streamChars bs).head? = some '\x7b' from rfl] at h
    injection h with h
    subst h
    decide
  · intro c h
    rw [List.getLast?_append] at h
    cases bs with
    | nil =>
      rw [show streamChars [] = [] from rfl] at h
      rw [show (([] : List Char).getLast?.or (miscObjChars k v).getLast?)
          = (miscObjChars k v).getLast? from by simp, miscObjChars_last k v] at h
      injection h with h
      subst h
      decide
    | cons b rest =>
      rw [streamChars_last b rest] at h
      injection h with h
      subst h
      decide

/-- **C2, amended.**  When a top-level object in the buffer parses
successfully as JSON but has no slides array, the parse pass silently skips
that object (contributing no slides), advances the consumed-prefix cursor past
it (the pending region restarts after it), and continues scanning: the
subsequent batches are all still extracted.  It is not treated as a terminal
failure. -/
theorem c2_amended (k v : String) (hk : k.data.all cleanCharB = true)
    (hv : v.data.all cleanCharB = true) (hne : (k == "slides") = false)
    (bs : List (List Slide)) (hcl : batchesClean bs = true) :
    parseLiveStream (String.mk (miscObjChars k v ++ streamChars bs)) true
      = { completeSlides := (bs.map (fun b => b.map slideToJson)).flatten,
          inProgressHtml := "" } := by
  unfold parseLiveStream
  rw [show (String.mk (miscObjChars k v ++ streamChars bs)).data
      = miscObjChars k v ++ streamChars bs from rfl]
  simp only [parseLiveStreamL]
  rw [sanitize_misc_stream k v hk hv bs hcl,
    show ({ brace := 0, inStr := false, cur := none, pending := [], slides := [] } : Scan1)
      = toScan1 ⟨0, false, false, none, ([], [])⟩ from rfl,
    scan1_eq_gscan (miscObjChars k v ++ streamChars bs).length
      (miscObjChars k v ++ streamChars bs) le_rfl _ rfl,
    gscan_append, gscan_miscObj k v hk hv hne ([], []), gscan_stream bs hcl []]
  rfl

set_option maxRecDepth 100000 in
/-- **C2, amended, witness.**  The object `("note":"hi")` parses but has no
slides array: it is skipped and the following batch is still extracted. -/
theorem c2_amended_witness :
    ("note".data.all cleanCharB = true) ∧ (("note" == "slides") = false)
    ∧ parseLiveStream
        (String.mk (miscObjChars "note" "hi" ++ streamChars [[⟨"A", "<div>x</div>"⟩]]))
        true
      = { completeSlides := [slideToJson ⟨"A", "<div>x</div>"⟩],
          inProgressHtml := "" } :=
  ⟨by decide, by decide, by
    rw [c2_amended "note" "hi" (by decide) (by decide) (by decide)
      [[⟨"A", "<div>x</div>"⟩]] (by decide)]
    rfl⟩

/-- A pattern is a prefix of itself extended. -/
theorem isPref_append_self : ∀ (p x : List Char), isPref p (p ++ x) = true := by
  intro p
  induction p with
  | nil => intro x; rfl
  | cons c cs ih => intro x; simp [isPref, ih x]

/-- A pattern whose head does not occur is nowhere a prefix. -/
theorem isPref_head_not_mem (p0 : Char) (ps l : List Char) (h : p0 ∉ l) :
    isPref (p0 :: ps) l = false := by
  cases l with
  | nil => rfl
  | cons c cs =>
    have hne : ¬ (p0 = c) := fun he => h (he ▸ List.mem_cons_self c cs)
    simp [isPref, hne]

/-- Removing a single inserted occurrence of the pattern: replacement by the
empty string deletes exactly the inserted text when the pattern head occurs
nowhere else. -/
theorem replAllF_insert_once (p0 : Char) (ps s2 : List Char) (h2 : p0 ∉ s2) :
    ∀ (g : Nat) (s1 : List Char), p0 ∉ s1 → s1.length + 1 ≤ g →
    replAllF (p0 :: ps) [] g (s1 ++ ((p0 :: ps) ++ s2)) = s1 ++ s2 := by
  intro g
  induction g with
  | zero => intro s1 _ h; omega
  | succ g ih =>
    intro s1 h1 hlen
    cases s1 with
    | nil =>
      simp only [List.nil_append]
      rw [show (p0 :: ps) ++ s2 = p0 :: (ps ++ s2) from rfl,
        show replAllF (p0 :: ps) [] (g + 1) (p0 :: (ps ++ s2))
          = if isPref (p0 :: ps) (p0 :: (ps ++ s2)) && (p0 :: ps) ≠ [] then
              [] ++ replAllF (p0 :: ps) [] g ((p0 :: (ps ++ s2)).drop (p0 :: ps).length)
            else p0 :: replAllF (p0 :: ps) [] g (ps ++ s2) from rfl,
        if_pos (by simp [isPref, isPref_append_self]),
        show p0 :: (ps ++ s2) = (p0 :: ps) ++ s2 from rfl, List.drop_left,
        replAllF_not_mem p0 ps [] g s2 h2, List.nil_append]
    | cons c cs =>
      have hne : ¬ (p0 = c) := fun he => h1 (he ▸ List.mem_cons_self c cs)
      rw [show (c :: cs) ++ ((p0 :: ps) ++ s2) = c :: (cs ++ ((p0 :: ps) ++ s2))
          from rfl,
        show replAllF (p0 :: ps) [] (g + 1) (c :: (cs ++ ((p0 :: ps) ++ s2)))
          = if isPref (p0 :: ps) (c :: (cs ++ ((p0 :: ps) ++ s2))) && (p0 :: ps) ≠ []
            then [] ++ replAllF (p0 :: ps) [] g
              ((c :: (cs ++ ((p0 :: ps) ++ s2))).drop (p0 :: ps).length)
            else c :: replAllF (p0 :: ps) [] g (cs ++ ((p0 :: ps) ++ s2)) from rfl,
        if_neg (by simp [isPref, hne]),
        ih cs (fun h => h1 (List.mem_cons_of_mem c h))
          (by simp only [List.length_cons] at hlen; omega)]
      rfl

/-- `replAll` deletion of a single inserted pattern occurrence. -/
theorem replAll_insert_once (p0 : Char) (ps s1 s2 : List Char)
    (h1 : p0 ∉ s1) (h2 : p0 ∉ s2) :
    replAll (p0 :: ps) [] (s1 ++ ((p0 :: ps) ++ s2)) = s1 ++ s2 :=
  replAllF_insert_once p0 ps s2 h2 _ s1 h1
    (by simp [replAll, List.length_append] <;> omega)

/-- The seven-character marker pass does not touch an inserted bare
three-character marker when the following text does not begin with the four
letters of the longer marker. -/
theorem replAllF_ticks_no_json (s2 : List Char) (h2 : '\x60' ∉ s2)
    (hj : isPref ['j', 's', 'o', 'n'] s2 = false) :
    ∀ (s1 : List Char), '\x60' ∉ s1 → ∀ (g : Nat),
    replAllF ['\x60', '\x60', '\x60', 'j', 's', 'o', 'n'] [] g
        (s1 ++ ('\x60' :: '\x60' :: '\x60' :: s2))
      = s1 ++ ('\x60' :: '\x60' :: '\x60' :: s2) := by
  have L1 : ∀ g : Nat, replAllF ['\x60', '\x60', '\x60', 'j', 's', 'o', 'n'] [] g
      ('\x60' :: s2) = '\x60' :: s2 := by
    intro g
    cases g with
    | zero => rfl
    | succ g =>
      rw [show replAllF ['\x60', '\x60', '\x60', 'j', 's', 'o', 'n'] [] (g + 1)
            ('\x60' :: s2)
          = if isPref ['\x60', '\x60', '\x60', 'j', 's', 'o', 'n'] ('\x60' :: s2)
              && (['\x60', '\x60', '\x60', 'j', 's', 'o', 'n'] : List Char) ≠ [] then
              [] ++ replAllF ['\x60', '\x60', '\x60', 'j', 's', 'o', 'n'] [] g
                (('\x60' :: s2).drop 7)
            else '\x60' :: replAllF ['\x60', '\x60', '\x60', 'j', 's', 'o', 'n'] [] g s2
          from rfl,
        if_neg (by simp [isPref, isPref_head_not_mem '\x60' _ s2 h2]),
        replAllF_not_mem '\x60' _ [] g s2 h2]
  have L2 : ∀ g : Nat, replAllF ['\x60', '\x60', '\x60', 'j', 's', 'o', 'n'] [] g
      ('\x60' :: '\x60' :: s2) = '\x60' :: '\x60' :: s2 := by
    intro g
    cases g with
    | zero => rfl
    | succ g =>
      rw [show replAllF ['\x60', '\x60', '\x60', 'j', 's', 'o', 'n'] [] (g + 1)
            ('\x60' :: '\x60' :: s2)
          = if isPref ['\x60', '\x60', '\x60', 'j', 's', 'o', 'n'] ('\x60' :: '\x60' :: s2)
              && (['\x60', '\x60', '\x60', 'j', 's', 'o', 'n'] : List Char) ≠ [] then
              [] ++ replAllF ['\x60', '\x60', '\x60', 'j', 's', 'o', 'n'] [] g
                (('\x60' :: '\x60' :: s2).drop 7)
            else '\x60' :: replAllF ['\x60', '\x60', '\x60', 'j', 's', 'o', 'n'] [] g
              ('\x60' :: s2)
          from rfl,
        if_neg (by simp [isPref, isPref_head_not_mem '\x60' _ s2 h2]), L1 g]
  have L3 : ∀ g : Nat, replAllF ['\x60', '\x60', '\x60', 'j', 's', 'o', 'n'] [] g
      ('\x60' :: '\x60' :: '\x60' :: s2) = '\x60' :: '\x60' :: '\x60' :: s2 := by
    intro g
    cases g with
    | zero => rfl
    | succ g =>
      rw [show replAllF ['\x60', '\x60', '\x60', 'j', 's', 'o', 'n'] [] (g + 1)
            ('\x60' :: '\x60' :: '\x60' :: s2)
          = if isPref ['\x60', '\x60', '\x60', 'j', 's', 'o', 'n']
                ('\x60' :: '\x60' :: '\x60' :: s2)
              && (['\x60', '\x60', '\x60', 'j', 's', 'o', 'n'] : List Char) ≠ [] then
              [] ++ replAllF ['\x60', '\x60', '\x60', 'j', 's', 'o', 'n'] [] g
                (('\x60' :: '\x60' :: '\x60' :: s2).drop 7)
            else '\x60' :: replAllF ['\x60', '\x60', '\x60', 'j', 's', 'o', 'n'] [] g
              ('\x60' :: '\x60' :: s2)
          from rfl,
        if_neg (by simp [isPref, hj]), L2 g]
  intro s1
  induction s1 with
  | nil => intro _ g; simpa using L3 g
  | cons c cs ih =>
    intro h1 g
    have hne : ¬ ('\x60' = c) := fun he => h1 (he ▸ List.mem_cons_self c cs)
    cases g with
    | zero => rfl
    | succ g =>
      rw [show (c :: cs) ++ ('\x60' :: '\x60' :: '\x60' :: s2)
          = c :: (cs ++ ('\x60' :: '\x60' :: '\x60' :: s2)) from rfl,
        show replAllF ['\x60', '\x60', '\x60', 'j', 's', 'o', 'n'] [] (g + 1)
            (c :: (cs ++ ('\x60' :: '\x60' :: '\x60' :: s2)))
          = if isPref ['\x60', '\x60', '\x60', 'j', 's', 'o', 'n']
                (c :: (cs ++ ('\x60' :: '\x60' :: '\x60' :: s2)))
              && (['\x60', '\x60', '\x60', 'j', 's', 'o', 'n'] : List Char) ≠ [] then
              [] ++ replAllF ['\x60', '\x60', '\x60', 'j', 's', 'o', 'n'] [] g
                ((c :: (cs ++ ('\x60' :: '\x60' :: '\x60' :: s2))).drop 7)
            else c :: replAllF ['\x60', '\x60', '\x60', 'j', 's', 'o', 'n'] [] g
              (cs ++ ('\x60' :: '\x60' :: '\x60' :: s2))
          from rfl,
        if_neg (by simp [isPref, hne]),
        ih (fun h => h1 (List.mem_cons_of_mem c h)) g]

/-- `parseLiveStream` depends on its input only through the sanitizer. -/
theorem parseLiveStreamL_congr (x y : List Char) (b : Bool)
    (h : sanitize x = sanitize y) :
    parseLiveStreamL x b = parseLiveStreamL y b := by
  simp only [parseLiveStreamL, h]

/-- Inserting the seven-character marker into a backquote-free buffer
sanitizes to the same text. -/
theorem sanitize_insert_json (s1 s2 : List Char) (h1 : '\x60' ∉ s1)
    (h2 : '\x60' ∉ s2) :
    sanitize (s1 ++ ('\x60' :: '\x60' :: '\x60' :: 'j' :: 's' :: 'o' :: 'n' :: s2))
      = sanitize (s1 ++ s2) := by
  have h12 : '\x60' ∉ s1 ++ s2 := by
    intro h
    rcases List.mem_append.1 h with h | h
    · exact h1 h
    · exact h2 h
  unfold sanitize
  rw [show ('\x60' :: '\x60' :: '\x60' :: 'j' :: 's' :: 'o' :: 'n' :: s2)
      = ('\x60' :: ['\x60', '\x60', 'j', 's', 'o', 'n']) ++ s2 from rfl,
    replAll_insert_once '\x60' ['\x60', '\x60', 'j', 's', 'o', 'n'] s1 s2 h1 h2,
    replAll_not_mem '\x60' ['\x60', '\x60', 'j', 's', 'o', 'n'] [] (s1 ++ s2) h12,
    replAll_not_mem '\x60' ['\x60', '\x60'] [] (s1 ++ s2) h12]

/-- Inserting the bare three-character marker into a backquote-free buffer
sanitizes to the same text, provided the following text does not begin with
the four letters of the longer marker. -/
theorem sanitize_insert_ticks (s1 s2 : List Char) (h1 : '\x60' ∉ s1)
    (h2 : '\x60' ∉ s2) (hj : isPref ['j', 's', 'o', 'n'] s2 = false) :
    sanitize (s1 ++ ('\x60' :: '\x60' :: '\x60' :: s2)) = sanitize (s1 ++ s2) := by
  have h12 : '\x60' ∉ s1 ++ s2 := by
    intro h
    rcases List.mem_append.1 h with h | h
    · exact h1 h
    · exact h2 h
  unfold sanitize
  rw [show replAll ['\x60', '\x60', '\x60', 'j', 's', 'o', 'n'] []
        (s1 ++ ('\x60' :: '\x60' :: '\x60' :: s2))
      = s1 ++ ('\x60' :: '\x60' :: '\x60' :: s2)
      from replAllF_ticks_no_json s2 h2 hj s1 h1 _,
    show ('\x60' :: '\x60' :: '\x60' :: s2) = ('\x60' :: ['\x60', '\x60']) ++ s2
      from rfl,
    replAll_insert_once '\x60' ['\x60', '\x60'] s1 s2 h1 h2,
    replAll_not_mem '\x60' ['\x60', '\x60', 'j', 's', 'o', 'n'] [] (s1 ++ s2) h12,
    replAll_not_mem '\x60' ['\x60', '\x60'] [] (s1 ++ s2) h12]

/-- **C4, amended.**  For every backquote-free buffer split `s1 ++ s2` and
boolean mode: inserting the seven-character fenced marker with the json tag at
the split leaves `parseLiveStream` unchanged, and inserting the bare
three-character marker leaves it unchanged provided the text after the
insertion point does not begin with the letters `json` (otherwise the longer
marker pass also deletes those letters). -/
theorem c4_amended (s1 s2 : List Char) (h1 : '\x60' ∉ s1) (h2 : '\x60' ∉ s2)
    (b : Bool) :
    (parseLiveStream
        (String.mk (s1 ++ ('\x60' :: '\x60' :: '\x60' :: 'j' :: 's' :: 'o' :: 'n' :: s2)))
        b
      = parseLiveStream (String.mk (s1 ++ s2)) b)
    ∧ (isPref ['j', 's', 'o', 'n'] s2 = false →
      parseLiveStream (String.mk (s1 ++ ('\x60' :: '\x60' :: '\x60' :: s2))) b
        = parseLiveStream (String.mk (s1 ++ s2)) b) := by
  constructor
  · exact parseLiveStreamL_congr _ _ b (sanitize_insert_json s1 s2 h1 h2)
  · intro hj
    exact parseLiveStreamL_congr _ _ b (sanitize_insert_ticks s1 s2 h1 h2 hj)

/-- **C4, amended, witness.**  Inserting a marker into the middle of a small
backquote-free buffer leaves the parse unchanged. -/
theorem c4_amended_witness :
    ('\x60' ∉ "ab".data) ∧ ('\x60' ∉ "cd".data)
    ∧ (isPref ['j', 's', 'o', 'n'] "cd".data = false)
    ∧ (parseLiveStream
        (String.mk ("ab".data
          ++ ('\x60' :: '\x60' :: '\x60' :: 'j' :: 's' :: 'o' :: 'n' :: "cd".data)))
        false
      = parseLiveStream (String.mk ("ab".data ++ "cd".data)) false)
    ∧ (parseLiveStream
        (String.mk ("ab".data ++ ('\x60' :: '\x60' :: '\x60' :: "cd".data))) false
      = parseLiveStream (String.mk ("ab".data ++ "cd".data)) false) :=
  ⟨by decide, by decide, by decide,
    (c4_amended "ab".data "cd".data (by decide) (by decide) false).1,
    (c4_amended "ab".data "cd".data (by decide) (by decide) false).2 (by decide)⟩

/-- `jsonParse` on a canonical clean slide serialization. -/
theorem jsonParse_slide (sl : Slide) (hct : sl.title.data.all cleanCharB = true)
    (hcc : sl.content.data.all cleanCharB = true) :
    jsonParse (slideChars sl) = some (slideToJson sl) := by
  have hlen : 4 ≤ 2 * (slideChars sl).length + 2 := by
    simp [slideChars] <;> omega
  have hp : parseF ((2 * (slideChars sl).length + 2 - 4) + 4) .value (slideChars sl)
      = some (slideToJson sl, []) := by
    have := parseF_slide sl hct hcc (2 * (slideChars sl).length + 2 - 4) []
    rwa [List.append_nil] at this
  unfold jsonParse
  rw [(show skipWs (slideChars sl) = slideChars sl from rfl),
    (show 2 * (slideChars sl).length + 2
      = (2 * (slideChars sl).length + 2 - 4) + 4 from by omega), hp]
  rfl

/-- The Phase 2 accumulator over a list of closing slides: each one is
appended unless an already-accumulated slide carries the same title. -/
def accSlides (acc : List Json) : List Slide → List Json
  | [] => acc
  | sl :: rest =>
    accSlides
      (if acc.any (fun s => jsStrictEq (s.getField "title") (some (Json.str sl.title)))
       then acc else acc ++ [slideToJson sl]) rest

/-- The Phase 2 close action on a serialized clean slide with truthy fields:
the active region resets and the slide is appended unless its title is a
duplicate. -/
theorem close2_slide (sl : Slide) (hct : sl.title.data.all cleanCharB = true)
    (hcc : sl.content.data.all cleanCharB = true)
    (hT : (sl.title == "") = false) (hC : (sl.content == "") = false)
    (a : List Char × List Json) :
    close2 (slideChars sl) a
      = ([], if a.2.any
            (fun s => jsStrictEq (s.getField "title") (some (Json.str sl.title)))
          then a.2 else a.2 ++ [slideToJson sl]) := by
  unfold close2
  rw [jsonParse_slide sl hct hcc]
  have hT' : sl.title ≠ "" := by
    intro h
    rw [h] at hT
    simp at hT
  have hC' : sl.content ≠ "" := by
    intro h
    rw [h] at hC
    simp at hC
  show (if (truthy ((slideToJson sl).getField "title")
        && truthy ((slideToJson sl).getField "content")) = true then
      ([], if (a.2.any fun s => jsStrictEq (s.getField "title")
          ((slideToJson sl).getField "title")) = true then a.2
        else a.2 ++ [slideToJson sl])
    else a)
    = ([], if a.2.any
          (fun s => jsStrictEq (s.getField "title") (some (Json.str sl.title)))
        then a.2 else a.2 ++ [slideToJson sl])
  rw [show (slideToJson sl).getField "title" = some (Json.str sl.title) from rfl,
    show (slideToJson sl).getField "content" = some (Json.str sl.content) from rfl]
  simp [truthy, hT', hC']

/-- Scanning one canonical clean slide (truthy fields) from the ready state
with the Phase 2 close action. -/
theorem gscan_slide2 (sl : Slide) (hct : sl.title.data.all cleanCharB = true)
    (hcc : sl.content.data.all cleanCharB = true)
    (hT : (sl.title == "") = false) (hC : (sl.content == "") = false)
    (a : List Char × List Json) :
    gscan pushAcc close2 (slideChars sl)
        (⟨0, false, false, none, a⟩ : GSt (List Char × List Json))
      = ⟨0, false, false, none,
          ([], if a.2.any
              (fun s => jsStrictEq (s.getField "title") (some (Json.str sl.title)))
            then a.2 else a.2 ++ [slideToJson sl])⟩ := by
  have hdec : slideChars sl
      = ['\x7b'] ++ (quotedStr "title".data ++ ([':']
        ++ (quotedStr sl.title.data ++ ([',']
        ++ (quotedStr "content".data ++ ([':']
        ++ (quotedStr sl.content.data ++ ['\x7d']))))))) := by
    simp [slideChars, quotedStr, List.append_assoc]
    rfl
  have h1 : gscan pushAcc close2 ['\x7b']
        (⟨0, false, false, none, a⟩ : GSt (List Char × List Json))
      = gpushed pushAcc ⟨1, false, false, some [], a⟩ ['\x7b'] := by
    rw [show gscan pushAcc close2 ['\x7b']
          (⟨0, false, false, none, a⟩ : GSt (List Char × List Json))
        = gstep pushAcc close2 ⟨0, false, false, none, a⟩ '\x7b' from rfl,
      gstep_lbrace0 pushAcc close2 _ rfl rfl rfl]
    simp [gpushed, gpush]
  rw [hdec, gscan_append, h1, gscan_append,
    gpushed_step_quoted pushAcc close2 _ _ ⟨1, false, false, some [], a⟩ rfl rfl,
    gscan_append,
    gpushed_step_neutral pushAcc close2 ':' _ ⟨1, false, false, some [], a⟩ rfl rfl
      (by decide) (by decide) (by decide) (by decide), gscan_append,
    gpushed_step_quoted pushAcc close2 _ _ ⟨1, false, false, some [], a⟩ rfl rfl,
    gscan_append,
    gpushed_step_neutral pushAcc close2 ',' _ ⟨1, false, false, some [], a⟩ rfl rfl
      (by decide) (by decide) (by decide) (by decide), gscan_append,
    gpushed_step_quoted pushAcc close2 _ _ ⟨1, false, false, some [], a⟩ rfl rfl,
    gscan_append,
    gpushed_step_neutral pushAcc close2 ':' _ ⟨1, false, false, some [], a⟩ rfl rfl
      (by decide) (by decide) (by decide) (by decide), gscan_append,
    gpushed_step_quoted pushAcc close2 _ _ ⟨1, false, false, some [], a⟩ rfl rfl,
    gpushed_root_close pushAcc close2 _ ⟨1, false, false, some [], a⟩ rfl rfl rfl rfl,
    show (((((((['\x7b'] ++ quotedStr "title".data) ++ [':'])
        ++ quotedStr sl.title.data) ++ [','])
        ++ quotedStr "content".data) ++ [':'])
        ++ quotedStr sl.content.data) ++ ['\x7d'] = slideChars sl from by
      rw [hdec]; simp [List.append_assoc],
    close2_slide sl hct hcc hT hC]
  simp [pushAcc, pushAcc_foldl_snd]

/-- A neutral character from the ready state only extends the pending text. -/
theorem gscan_ready_neutral (close : List Char → (List Char × List Json)
      → (List Char × List Json)) (c : Char) (a : List Char × List Json)
    (hq : c ≠ '"') (hb : c ≠ '\\') (hob : c ≠ '\x7b') (hcb : c ≠ '\x7d') :
    gscan pushAcc close [c] (⟨0, false, false, none, a⟩ : GSt (List Char × List Json))
      = ⟨0, false, false, none, (c :: a.1, a.2)⟩ := by
  rw [show gscan pushAcc close [c] (⟨0, false, false, none, a⟩ : GSt _)
      = gstep pushAcc close ⟨0, false, false, none, a⟩ c from rfl]
  simp [gstep, hq, hb, hob, hcb, gpush, pushAcc]

/-- Scanning a run of comma-terminated serialized clean slides with the Phase
2 close action: every slide closes in turn and accumulates through the
dedup test. -/
theorem gscan_slides_concat : ∀ (done : List Slide),
    done.all (fun sl => Slide.clean sl && !(sl.title == "")
      && !(sl.content == "")) = true →
    ∀ (a : List Char × List Json) (tail : List Char),
    gscan pushAcc close2
        ((done.map (fun sl => slideChars sl ++ [','])).flatten ++ tail)
        (⟨0, false, false, none, a⟩ : GSt (List Char × List Json))
      = gscan pushAcc close2 tail
          ⟨0, false, false, none,
            ((if done.isEmpty then a.1 else [',']), accSlides a.2 done)⟩ := by
  intro done
  induction done with
  | nil => intro _ a tail; simp [accSlides]
  | cons sl rest ih =>
    intro hcond a tail
    have hparts : (Slide.clean sl && !(sl.title == "") && !(sl.content == "")) = true
        ∧ rest.all (fun sl => Slide.clean sl && !(sl.title == "")
          && !(sl.content == "")) = true := by
      rw [List.all_cons, Bool.and_eq_true] at hcond
      exact hcond
    obtain ⟨hcl, hrest⟩ := hparts
    rw [Bool.and_eq_true, Bool.and_eq_true] at hcl
    obtain ⟨⟨hclean, hT⟩, hC⟩ := hcl
    rw [Bool.not_eq_true'] at hT hC
    obtain ⟨hct, hcc⟩ : sl.title.data.all cleanCharB = true
        ∧ sl.content.data.all cleanCharB = true := by
      unfold Slide.clean at hclean
      rw [Bool.and_eq_true] at hclean
      exact hclean
    rw [show ((sl :: rest).map (fun sl => slideChars sl ++ [','])).flatten ++ tail
        = slideChars sl ++ ([',']
          ++ ((rest.map (fun sl => slideChars sl ++ [','])).flatten ++ tail)) from by
      simp [List.append_assoc],
      gscan_append, gscan_slide2 sl hct hcc hT hC a, gscan_append,
      gscan_ready_neutral close2 ','
        ([], if a.2.any
            (fun s => jsStrictEq (s.getField "title") (some (Json.str sl.title)))
          then a.2 else a.2 ++ [slideToJson sl])
        (by decide) (by decide) (by decide) (by decide),
      ih hrest _ tail]
    simp [accSlides]

/-- Scanning the comma-separated serialized clean slides with the Phase 2
close action: same accumulation, the active region ends empty when at least
one slide closed. -/
theorem gscan_sepComma_close : ∀ (done : List Slide),
    done.all (fun sl => Slide.clean sl && !(sl.title == "")
      && !(sl.content == "")) = true →
    ∀ (a : List Char × List Json),
    gscan pushAcc close2 (sepComma (done.map slideChars))
        (⟨0, false, false, none, a⟩ : GSt (List Char × List Json))
      = ⟨0, false, false, none,
          ((if done.isEmpty then a.1 else []), accSlides a.2 done)⟩ := by
  intro done
  induction done with
  | nil => intro _ a; simp [sepComma, gscan, accSlides]
  | cons sl rest ih =>
    intro hcond a
    have hparts : (Slide.clean sl && !(sl.title == "") && !(sl.content == "")) = true
        ∧ rest.all (fun sl => Slide.clean sl && !(sl.title == "")
          && !(sl.content == "")) = true := by
      rw [List.all_cons, Bool.and_eq_true] at hcond
      exact hcond
    obtain ⟨hcl, hrest⟩ := hparts
    rw [Bool.and_eq_true, Bool.and_eq_true] at hcl
    obtain ⟨⟨hclean, hT⟩, hC⟩ := hcl
    rw [Bool.not_eq_true'] at hT hC
    obtain ⟨hct, hcc⟩ : sl.title.data.all cleanCharB = true
        ∧ sl.content.data.all cleanCharB = true := by
      unfold Slide.clean at hclean
      rw [Bool.and_eq_true] at hclean
      exact hclean
    cases rest with
    | nil =>
      rw [show sepComma ([sl].map slideChars) = slideChars sl from rfl,
        gscan_slide2 sl hct hcc hT hC a]
      simp [accSlides]
    | cons s2 rest2 =>
      rw [show sepComma ((sl :: s2 :: rest2).map slideChars)
          = slideChars sl ++ ([','] ++ sepComma ((s2 :: rest2).map slideChars)) from by
        simp [sepComma],
        gscan_append, gscan_slide2 sl hct hcc hT hC a, gscan_append,
        gscan_ready_neutral close2 ','
          ([], if a.2.any
              (fun s => jsStrictEq (s.getField "title") (some (Json.str sl.title)))
            then a.2 else a.2 ++ [slideToJson sl])
          (by decide) (by decide) (by decide) (by decide),
        ih hrest _]
      simp [accSlides]

/-- The accumulator after a pure push run: pending text extends, slides
unchanged. -/
theorem pushAcc_foldl : ∀ (cs : List Char) (a : List Char × List Json),
    List.foldl pushAcc a cs = (cs.reverse ++ a.1, a.2) := by
  intro cs
  induction cs with
  | nil => intro a; simp
  | cons c cs ih =>
    intro a
    rw [List.foldl_cons, ih (pushAcc a c)]
    simp [pushAcc]

/-- An opening brace at positive depth extends a recorded region one level
deeper. -/
theorem gpushed_step_lbrace (pushA : α → Char → α) (close : List Char → α → α)
    (xs : List Char) (st : GSt α) (hi : st.inStr = false) (hbs : st.afterBS = false)
    (hb : ¬ st.brace = 0) :
    gscan pushA close ['\x7b'] (gpushed pushA st xs)
      = gpushed pushA { st with brace := st.brace + 1 } (xs ++ ['\x7b']) := by
  rw [show gscan pushA close ['\x7b'] (gpushed pushA st xs)
      = gstep pushA close (gpushed pushA st xs) '\x7b' from rfl,
    gstep_lbrace_ne pushA close (gpushed pushA st xs)
      (by simp [gpushed, hi]) (by simp [gpushed, hbs]) (by simp [gpushed, hb])]
  simp [gpushed, gpush, Option.map_map, List.foldl_append]
  cases st.cur <;> simp

/-- An opening quote outside a string extends a recorded region and enters
the string. -/
theorem gpushed_step_quoteOpen (pushA : α → Char → α) (close : List Char → α → α)
    (xs : List Char) (st : GSt α) (hi : st.inStr = false) (hbs : st.afterBS = false) :
    gscan pushA close ['"'] (gpushed pushA st xs)
      = gpushed pushA { st with inStr := true } (xs ++ ['"']) := by
  rw [show gscan pushA close ['"'] (gpushed pushA st xs)
      = gstep pushA close (gpushed pushA st xs) '"' from rfl]
  simp [gstep, gpushed, gpush, hi, hbs, Option.map_map, List.foldl_append]
  cases st.cur <;> simp

/-- A serialized string body inside a string extends a recorded region. -/
theorem gpushed_step_escStr (pushA : α → Char → α) (close : List Char → α → α)
    (s xs : List Char) (st : GSt α) (hi : st.inStr = true) (hbs : st.afterBS = false) :
    gscan pushA close (escStr s) (gpushed pushA st xs)
      = gpushed pushA st (xs ++ escStr s) := by
  rw [gpushed_append]
  exact gscan_escStr pushA close s _ (by simp [gpushed, hi]) (by simp [gpushed, hbs])

/-- Scanning a run of comma-terminated serialized slides at positive depth
records it without firing the close. -/
theorem gscan_slidesCommaRegion (pushA : α → Char → α) (close : List Char → α → α) :
    ∀ (done : List Slide) (st : GSt α), st.inStr = false → st.afterBS = false →
    ¬ st.brace = 0 →
    gscan pushA close ((done.map (fun sl => slideChars sl ++ [','])).flatten) st
      = gpushed pushA st ((done.map (fun sl => slideChars sl ++ [','])).flatten) := by
  intro done
  induction done with
  | nil => intro st _ _ _; simp [gscan, gpushed_nil]
  | cons sl rest ih =>
    intro st hi hbs hb
    rw [show ((sl :: rest).map (fun sl => slideChars sl ++ [','])).flatten
        = slideChars sl ++ ([',']
          ++ ((rest.map (fun sl => slideChars sl ++ [','])).flatten)) from by
      simp [List.append_assoc],
      gscan_append, gscan_slideChars pushA close sl st hi hbs hb, gscan_append,
      gpushed_step_neutral pushA close ',' _ st hi hbs
        (by decide) (by decide) (by decide) (by decide),
      ih (gpushed pushA st (slideChars sl ++ [','])) hi hbs hb, ← gpushed_append]
    simp [List.append_assoc]

/-- The intermediate text after the quote-unescape pass: only newline escapes
remain. -/
def esc1 (cs : List Char) : List Char :=
  cs.flatMap (fun c => if c = '\n' then ['\\', 'n'] else [c])

/-- A strict-clean string contains no backslash. -/
theorem strict_not_bs (cs : List Char) (h : cs.all strictCharB = true) :
    '\\' ∉ cs := by
  intro hmem
  rw [List.all_eq_true] at h
  have := h '\\' hmem
  unfold strictCharB at this
  simp at this

/-- The quote-unescape pass on a serialized strict-clean body restores the
quotes and leaves the newline escapes. -/
theorem replF_pass1 : ∀ (cs : List Char), cs.all strictCharB = true →
    ∀ g, (escStr cs).length ≤ g →
    replAllF ['\\', '"'] ['"'] g (escStr cs) = esc1 cs := by
  intro cs
  induction cs with
  | nil => intro _ g _; cases g <;> rfl
  | cons c cs ih =>
    intro hall g hg
    have hparts : strictCharB c = true ∧ cs.all strictCharB = true := by
      rw [List.all_cons, Bool.and_eq_true] at hall
      exact hall
    obtain ⟨hstr, hrest⟩ := hparts
    have hbs : ¬ c = '\\' := by
      unfold strictCharB at hstr
      simp only [Bool.and_eq_true, decide_eq_true_eq] at hstr
      exact hstr.1.1.2
    have hcr : ¬ c = '\r' := by
      unfold strictCharB at hstr
      simp only [Bool.and_eq_true, decide_eq_true_eq] at hstr
      exact hstr.1.2
    have hct : ¬ c = '\t' := by
      unfold strictCharB at hstr
      simp only [Bool.and_eq_true, decide_eq_true_eq] at hstr
      exact hstr.2
    by_cases hq : c = '"'
    · subst hq
      have he : escStr ('"' :: cs) = '\\' :: '"' :: escStr cs := rfl
      rw [he] at hg
      simp only [List.length_cons] at hg
      cases g with
      | zero => omega
      | succ g =>
        rw [he,
          show replAllF ['\\', '"'] ['"'] (g + 1) ('\\' :: '"' :: escStr cs)
            = if isPref ['\\', '"'] ('\\' :: '"' :: escStr cs)
                && (['\\', '"'] : List Char) ≠ [] then
                ['"'] ++ replAllF ['\\', '"'] ['"'] g (('\\' :: '"' :: escStr cs).drop 2)
              else '\\' :: replAllF ['\\', '"'] ['"'] g ('"' :: escStr cs) from rfl,
          if_pos (by simp [isPref]),
          show ('\\' :: '"' :: escStr cs).drop 2 = escStr cs from rfl,
          ih hrest g (by omega)]
        rfl
    · by_cases hn : c = '\n'
      · subst hn
        have he : escStr ('\n' :: cs) = '\\' :: 'n' :: escStr cs := rfl
        rw [he] at hg
        simp only [List.length_cons] at hg
        match g, hg with
        | g + 2, _ =>
          rw [he,
            show replAllF ['\\', '"'] ['"'] (g + 2) ('\\' :: 'n' :: escStr cs)
              = if isPref ['\\', '"'] ('\\' :: 'n' :: escStr cs)
                  && (['\\', '"'] : List Char) ≠ [] then
                  ['"'] ++ replAllF ['\\', '"'] ['"'] (g + 1)
                    (('\\' :: 'n' :: escStr cs).drop 2)
                else '\\' :: replAllF ['\\', '"'] ['"'] (g + 1) ('n' :: escStr cs)
              from rfl,
            if_neg (by simp [isPref]),
            show replAllF ['\\', '"'] ['"'] (g + 1) ('n' :: escStr cs)
              = if isPref ['\\', '"'] ('n' :: escStr cs)
                  && (['\\', '"'] : List Char) ≠ [] then
                  ['"'] ++ replAllF ['\\', '"'] ['"'] g (('n' :: escStr cs).drop 2)
                else 'n' :: replAllF ['\\', '"'] ['"'] g (escStr cs) from rfl,
            if_neg (by simp [isPref]),
            ih hrest g (by omega)]
          rfl
      · have hesc : escChar c = [c] := by
          unfold escChar
          rw [if_neg hq, if_neg hbs, if_neg hn, if_neg hcr, if_neg hct]
        have he : escStr (c :: cs) = c :: escStr cs := by
          rw [show escStr (c :: cs) = escChar c ++ escStr cs from rfl, hesc]
          rfl
        rw [he] at hg
        simp only [List.length_cons] at hg
        cases g with
        | zero => omega
        | succ g =>
          rw [he,
            show replAllF ['\\', '"'] ['"'] (g + 1) (c :: escStr cs)
              = if isPref ['\\', '"'] (c :: escStr cs)
                  && (['\\', '"'] : List Char) ≠ [] then
                  ['"'] ++ replAllF ['\\', '"'] ['"'] g ((c :: escStr cs).drop 2)
                else c :: replAllF ['\\', '"'] ['"'] g (escStr cs) from rfl,
            if_neg (by
              have hbs2 : ¬ ('\\' = c) := fun h => hbs h.symm
              simp [isPref, hbs2]),
            ih hrest g (by omega)]
          rw [show esc1 (c :: cs) = (if c = '\n' then ['\\', 'n'] else [c]) ++ esc1 cs
              from rfl, if_neg hn]
          rfl

/-- The newline-unescape pass on the intermediate text restores the original
strict-clean body. -/
theorem replF_pass2 : ∀ (cs : List Char), cs.all strictCharB = true →
    ∀ g, (esc1 cs).length ≤ g →
    replAllF ['\\', 'n'] ['\n'] g (esc1 cs) = cs := by
  intro cs
  induction cs with
  | nil => intro _ g _; cases g <;> rfl
  | cons c cs ih =>
    intro hall g hg
    have hparts : strictCharB c = true ∧ cs.all strictCharB = true := by
      rw [List.all_cons, Bool.and_eq_true] at hall
      exact hall
    obtain ⟨hstr, hrest⟩ := hparts
    have hbs : ¬ c = '\\' := by
      unfold strictCharB at hstr
      simp only [Bool.and_eq_true, decide_eq_true_eq] at hstr
      exact hstr.1.1.2
    by_cases hn : c = '\n'
    · subst hn
      have he : esc1 ('\n' :: cs) = '\\' :: 'n' :: esc1 cs := rfl
      rw [he] at hg
      simp only [List.length_cons] at hg
      cases g with
      | zero => omega
      | succ g =>
        rw [he,
          show replAllF ['\\', 'n'] ['\n'] (g + 1) ('\\' :: 'n' :: esc1 cs)
            = if isPref ['\\', 'n'] ('\\' :: 'n' :: esc1 cs)
                && (['\\', 'n'] : List Char) ≠ [] then
                ['\n'] ++ replAllF ['\\', 'n'] ['\n'] g (('\\' :: 'n' :: esc1 cs).drop 2)
              else '\\' :: replAllF ['\\', 'n'] ['\n'] g ('n' :: esc1 cs) from rfl,
          if_pos (by simp [isPref]),
          show ('\\' :: 'n' :: esc1 cs).drop 2 = esc1 cs from rfl,
          ih hrest g (by omega)]
        rfl
    · have he : esc1 (c :: cs) = c :: esc1 cs := by
        rw [show esc1 (c :: cs) = (if c = '\n' then ['\\', 'n'] else [c]) ++ esc1 cs
            from rfl, if_neg hn]
        rfl
      rw [he] at hg
      simp only [List.length_cons] at hg
      cases g with
      | zero => omega
      | succ g =>
        rw [he,
          show replAllF ['\\', 'n'] ['\n'] (g + 1) (c :: esc1 cs)
            = if isPref ['\\', 'n'] (c :: esc1 cs)
                && (['\\', 'n'] : List Char) ≠ [] then
                ['\n'] ++ replAllF ['\\', 'n'] ['\n'] g ((c :: esc1 cs).drop 2)
              else c :: replAllF ['\\', 'n'] ['\n'] g (esc1 cs) from rfl,
          if_neg (by
            have hbs2 : ¬ ('\\' = c) := fun h => hbs h.symm
            simp [isPref, hbs2]),
          ih hrest g (by omega)]

/-- The Phase 3 partial-HTML unescape inverts the canonical serialization on
strict-clean bodies. -/
theorem unescapePartial_escStr (cs : List Char) (h : cs.all strictCharB = true) :
    unescapePartial (escStr cs) = cs := by
  unfold unescapePartial
  rw [show replAll ['\\', '"'] ['"'] (escStr cs) = esc1 cs
      from replF_pass1 cs h ((escStr cs).length + 1) (Nat.le_succ _),
    show replAll ['\\', 'n'] ['\n'] (esc1 cs) = cs
      from replF_pass2 cs h ((esc1 cs).length + 1) (Nat.le_succ _),
    replAll_not_mem '\\' ['\\'] ['\\'] cs (strict_not_bs cs h)]

/-- The content-field pattern needs a quote at its start. -/
theorem contentPatAt_ne_quote (c : Char) (l : List Char) (h : c ≠ '"') :
    contentPatAt (c :: l) = none := by
  rw [contentPatAt.eq_def]
  split
  next heq =>
    injection heq with h1 _
    exact absurd h1 h
  next => rfl

/-- The leftmost content-field search skips a non-quote head. -/
theorem findContentPat_cons_none (c : Char) (l : List Char) (h : c ≠ '"') :
    findContentPat (c :: l) = findContentPat l := by
  rw [show findContentPat (c :: l)
      = (match contentPatAt (c :: l) with
        | some rest => some rest
        | none => findContentPat l) from rfl,
    contentPatAt_ne_quote c l h]

/-- The slides-array header matches right after its opening brace. -/
theorem findSlidesArr_header (body : List Char) :
    findSlidesArr ("\x7b\"slides\":[".data ++ body) = some body := rfl

/-- The slides-array header, in literal-list form. -/
theorem findSlidesArr_header2 (body : List Char) :
    findSlidesArr (['\x7b', '"', 's', 'l', 'i', 'd', 'e', 's', '"', ':', '[']
      ++ body) = some body := rfl

/-- A truncated slide whose content string is open: the content pattern
matches at its key. -/
theorem findContentPat_partial1 (rest : List Char) :
    findContentPat ('"' :: 'c' :: 'o' :: 'n' :: 't' :: 'e' :: 'n' :: 't'
      :: '"' :: ':' :: '"' :: rest) = some rest := rfl

/-- A slide truncated before its content field opened: no content pattern. -/
theorem findContentPat_partial2 :
    findContentPat ('"' :: 't' :: 'i' :: 't' :: 'l' :: 'e' :: '"' :: ':' :: [])
      = none := rfl

/-- Strict cleanliness implies cleanliness. -/
theorem strict_all_clean (cs : List Char) (h : cs.all strictCharB = true) :
    cs.all cleanCharB = true := by
  rw [List.all_eq_true] at h ⊢
  intro c hc
  have := h c hc
  unfold strictCharB at this
  simp only [Bool.and_eq_true] at this
  exact this.1.1.1

/-- The canonical escape of a body with a non-whitespace last character also
ends in a non-whitespace character. -/
theorem escStr_last_not_ws : ∀ (cs : List Char),
    (∀ c, cs.getLast? = some c → jsWs c = false) →
    ∀ c, (escStr cs).getLast? = some c → jsWs c = false := by
  intro cs
  induction cs with
  | nil =>
    intro _ c h
    rw [show escStr [] = [] from rfl] at h
    exact absurd h (by simp)
  | cons a cs ih =>
    intro h c hc
    cases cs with
    | nil =>
      rw [show escStr [a] = escChar a from by simp [escStr]] at hc
      have ha : jsWs a = false := h a rfl
      unfold escChar at hc
      split_ifs at hc with h1 h2 h3 h4 h5
      · rw [show (['\\', '"'] : List Char).getLast? = some '"' from rfl] at hc
        injection hc with hc
        subst hc
        decide
      · rw [show (['\\', '\\'] : List Char).getLast? = some '\\' from rfl] at hc
        injection hc with hc
        subst hc
        decide
      · rw [show (['\\', 'n'] : List Char).getLast? = some 'n' from rfl] at hc
        injection hc with hc
        subst hc
        decide
      · rw [show (['\\', 'r'] : List Char).getLast? = some 'r' from rfl] at hc
        injection hc with hc
        subst hc
        decide
      · rw [show (['\\', 't'] : List Char).getLast? = some 't' from rfl] at hc
        injection hc with hc
        subst hc
        decide
      · rw [show ([a] : List Char).getLast? = some a from rfl] at hc
        injection hc with hc
        subst hc
        exact ha
    | cons b cs2 =>
      rw [show escStr (a :: b :: cs2) = escChar a ++ escStr (b :: cs2) from rfl,
        List.getLast?_append] at hc
      have hne : escStr (b :: cs2) ≠ [] := by
        have hlen := escStr_length_ge (b :: cs2)
        intro he
        rw [he] at hlen
        simp at hlen
      obtain ⟨d, hd⟩ : ∃ d, (escStr (b :: cs2)).getLast? = some d := by
        cases e : (escStr (b :: cs2)).getLast? with
        | none => exact absurd (List.getLast?_eq_none_iff.1 e) hne
        | some d => exact ⟨d, rfl⟩
      rw [hd] at hc
      rw [show (some d).or (escChar a).getLast? = some d from rfl] at hc
      injection hc with hc
      subst hc
      exact ih (fun c' hc' => h c' (by rw [List.getLast?_cons_cons]; exact hc')) d hd

/-- `accSlides` over pairwise-distinct fresh titles appends every slide. -/
theorem accSlides_distinct : ∀ (done : List Slide) (S : List Json),
    (∀ d ∈ done, S.any (fun s => jsStrictEq (s.getField "title")
      (some (Json.str d.title))) = false) →
    List.Pairwise (fun a b => (a.title == b.title) = false) done →
    accSlides S done = S ++ done.map slideToJson := by
  intro done
  induction done with
  | nil => intro S _ _; simp [accSlides]
  | cons sl rest ih =>
    intro S hS hp
    rw [List.pairwise_cons] at hp
    rw [show accSlides S (sl :: rest)
      = accSlides (if S.any (fun s => jsStrictEq (s.getField "title")
          (some (Json.str sl.title))) then S else S ++ [slideToJson sl]) rest from rfl,
      hS sl (by simp)]
    rw [if_neg (by simp)]
    rw [ih (S ++ [slideToJson sl]) ?fresh hp.2]
    · simp [List.append_assoc]
    case fresh =>
      intro d hd
      rw [List.any_append]
      rw [hS d (by simp [hd])]
      rw [show ([slideToJson sl].any (fun s => jsStrictEq (s.getField "title")
          (some (Json.str d.title))))
        = (sl.title == d.title) from by
          simp only [List.any_cons, List.any_nil, Bool.or_false]
          rfl]
      rw [hp.1 d hd]
      rfl

/-- Root-level opening brace from the ready state, as a recorded region. -/
theorem step_lbrace_root (close : List Char → (List Char × List Json)
      → (List Char × List Json)) (a : List Char × List Json) :
    gscan pushAcc close ['\x7b']
        (⟨0, false, false, none, a⟩ : GSt (List Char × List Json))
      = gpushed pushAcc ⟨1, false, false, some [], a⟩ ['\x7b'] := by
  rw [show gscan pushAcc close ['\x7b']
        (⟨0, false, false, none, a⟩ : GSt (List Char × List Json))
      = gstep pushAcc close ⟨0, false, false, none, a⟩ '\x7b' from rfl,
    gstep_lbrace0 pushAcc close _ rfl rfl rfl]
  simp [gpushed, gpush]

/-- Nested opening brace at a positive literal depth. -/
theorem step_lbrace_depth (close : List Char → (List Char × List Json)
      → (List Char × List Json)) (br : Int) (hbr : ¬ br = 0)
    (cur : Option (List Char)) (a : List Char × List Json) (xs : List Char) :
    gscan pushAcc close ['\x7b']
        (gpushed pushAcc (⟨br, false, false, cur, a⟩ : GSt (List Char × List Json)) xs)
      = gpushed pushAcc ⟨br + 1, false, false, cur, a⟩ (xs ++ ['\x7b']) := by
  rw [gpushed_step_lbrace pushAcc close xs ⟨br, false, false, cur, a⟩ rfl rfl hbr]

/-- Opening quote of a string value at a literal state. -/
theorem step_quoteOpen (close : List Char → (List Char × List Json)
      → (List Char × List Json)) (br : Int) (cur : Option (List Char))
    (a : List Char × List Json) (xs : List Char) :
    gscan pushAcc close ['"']
        (gpushed pushAcc (⟨br, false, false, cur, a⟩ : GSt (List Char × List Json)) xs)
      = gpushed pushAcc ⟨br, true, false, cur, a⟩ (xs ++ ['"']) := by
  rw [gpushed_step_quoteOpen pushAcc close xs ⟨br, false, false, cur, a⟩ rfl rfl]

/-- Phase 3 on the comma-or-nothing prefix and a content-open truncated
slide: the partial content is recovered and the renderability rules apply. -/
theorem phase3_partial1 (cpart : List Char) (hcp : cpart.all strictCharB = true)
    (pre : List Char) (hpre : pre = [] ∨ pre = [',']) :
    phase3 (pre ++ ('\x7b' :: ('"' :: 'c' :: 'o' :: 'n' :: 't' :: 'e' :: 'n' :: 't'
        :: '"' :: ':' :: '"' :: escStr cpart)))
      = if hasInfix ['>'] cpart then
          (if hasInfix ['<', '/', 'd', 'i', 'v', '>'] cpart then cpart
            else cpart ++ ['<', '/', 'd', 'i', 'v', '>'])
        else [] := by
  unfold phase3
  rcases hpre with h | h <;> subst h
  · rw [List.nil_append, findContentPat_cons_none '\x7b' _ (by decide),
      findContentPat_partial1]
    simp only [unescapePartial_escStr cpart hcp]
  · rw [List.singleton_append, findContentPat_cons_none ',' _ (by decide),
      findContentPat_cons_none '\x7b' _ (by decide),
      findContentPat_partial1]
    simp only [unescapePartial_escStr cpart hcp]

/-- Phase 3 on a slide truncated before its content opened: nothing. -/
theorem phase3_partial2 (pre : List Char) (hpre : pre = [] ∨ pre = [',']) :
    phase3 (pre ++ ('\x7b' :: ('"' :: 't' :: 'i' :: 't' :: 'l' :: 'e'
        :: '"' :: ':' :: []))) = [] := by
  unfold phase3
  rcases hpre with h | h <;> subst h
  · rw [List.nil_append, findContentPat_cons_none '\x7b' _ (by decide),
      findContentPat_partial2]
  · rw [List.singleton_append, findContentPat_cons_none ',' _ (by decide),
      findContentPat_cons_none '\x7b' _ (by decide),
      findContentPat_partial2]

/-- Pending and slides of a recorded region viewed as a Phase 1 state. -/
theorem toScan1_gpushed_pending (B : GSt (List Char × List Json)) (X : List Char) :
    (toScan1 (gpushed pushAcc B X)).pending = X.reverse ++ B.acc.1 := by
  simp [toScan1, gpushed, pushAcc_foldl]

theorem toScan1_gpushed_slides (B : GSt (List Char × List Json)) (X : List Char) :
    (toScan1 (gpushed pushAcc B X)).slides = B.acc.2 := by
  simp [toScan1, gpushed, pushAcc_foldl]

/-- Active region and slides of a recorded region viewed as a Phase 2 state. -/
theorem toScan2_gpushed_active (B : GSt (List Char × List Json)) (X : List Char) :
    (toScan2 (gpushed pushAcc B X)).active = X.reverse ++ B.acc.1 := by
  simp [toScan2, gpushed, pushAcc_foldl]

theorem toScan2_gpushed_slides (B : GSt (List Char × List Json)) (X : List Char) :
    (toScan2 (gpushed pushAcc B X)).slides = B.acc.2 := by
  simp [toScan2, gpushed, pushAcc_foldl]

/-- Phase 1 over a batch truncated inside an open content string: everything
is recorded, nothing closes. -/
theorem gscan1_full1 (close : List Char → (List Char × List Json)
      → (List Char × List Json)) (done : List Slide) (cpart : List Char)
    (a : List Char × List Json) :
    gscan pushAcc close ("\x7b\"slides\":[".data
        ++ ((done.map (fun sl => slideChars sl ++ [','])).flatten
          ++ ('\x7b' :: ('"' :: 'c' :: 'o' :: 'n' :: 't' :: 'e' :: 'n' :: 't'
            :: '"' :: ':' :: '"' :: escStr cpart))))
        (⟨0, false, false, none, a⟩ : GSt (List Char × List Json))
      = gpushed pushAcc ⟨1 + 1, true, false, some [], a⟩
          ("\x7b\"slides\":[".data
            ++ ((done.map (fun sl => slideChars sl ++ [','])).flatten
              ++ ('\x7b' :: ('"' :: 'c' :: 'o' :: 'n' :: 't' :: 'e' :: 'n' :: 't'
                :: '"' :: ':' :: '"' :: escStr cpart)))) := by
  rw [show "\x7b\"slides\":[".data
        ++ ((done.map (fun sl => slideChars sl ++ [','])).flatten
          ++ ('\x7b' :: ('"' :: 'c' :: 'o' :: 'n' :: 't' :: 'e' :: 'n' :: 't'
            :: '"' :: ':' :: '"' :: escStr cpart)))
      = ['\x7b'] ++ (quotedStr "slides".data ++ ([':'] ++ (['[']
        ++ ((done.map (fun sl => slideChars sl ++ [','])).flatten
          ++ (['\x7b'] ++ (quotedStr "content".data ++ ([':']
            ++ (['"'] ++ escStr cpart)))))))) from rfl]
  rw [gscan_append, step_lbrace_root close a, gscan_append,
    gpushed_step_quoted pushAcc close _ _ ⟨1, false, false, some [], a⟩ rfl rfl,
    gscan_append,
    gpushed_step_neutral pushAcc close ':' _ ⟨1, false, false, some [], a⟩ rfl rfl
      (by decide) (by decide) (by decide) (by decide), gscan_append,
    gpushed_step_neutral pushAcc close '[' _ ⟨1, false, false, some [], a⟩ rfl rfl
      (by decide) (by decide) (by decide) (by decide), gscan_append,
    gscan_slidesCommaRegion pushAcc close done
      (gpushed pushAcc ⟨1, false, false, some [], a⟩
        (((['\x7b'] ++ quotedStr "slides".data) ++ [':']) ++ ['[']))
      rfl rfl (by simp [gpushed]), ← gpushed_append, gscan_append,
    step_lbrace_depth close 1 (by decide) (some []) a _, gscan_append,
    gpushed_step_quoted pushAcc close _ _ ⟨1 + 1, false, false, some [], a⟩ rfl rfl,
    gscan_append,
    gpushed_step_neutral pushAcc close ':' _ ⟨1 + 1, false, false, some [], a⟩ rfl rfl
      (by decide) (by decide) (by decide) (by decide), gscan_append,
    step_quoteOpen close (1 + 1) (some []) a _,
    gpushed_step_escStr pushAcc close _ _ ⟨1 + 1, true, false, some [], a⟩ rfl rfl]
  congr 1 <;> simp [List.append_assoc]

/-- Phase 2 over a slide truncated inside its open content string. -/
theorem gscan2_partial1 (close : List Char → (List Char × List Json)
      → (List Char × List Json)) (cpart : List Char) (a : List Char × List Json) :
    gscan pushAcc close
        ('\x7b' :: ('"' :: 'c' :: 'o' :: 'n' :: 't' :: 'e' :: 'n' :: 't'
          :: '"' :: ':' :: '"' :: escStr cpart))
        (⟨0, false, false, none, a⟩ : GSt (List Char × List Json))
      = gpushed pushAcc ⟨1, true, false, some [], a⟩
          ('\x7b' :: ('"' :: 'c' :: 'o' :: 'n' :: 't' :: 'e' :: 'n' :: 't'
            :: '"' :: ':' :: '"' :: escStr cpart)) := by
  rw [show ('\x7b' :: ('"' :: 'c' :: 'o' :: 'n' :: 't' :: 'e' :: 'n' :: 't'
        :: '"' :: ':' :: '"' :: escStr cpart))
      = ['\x7b'] ++ (quotedStr "content".data ++ ([':'] ++ (['"'] ++ escStr cpart)))
      from rfl]
  rw [gscan_append, step_lbrace_root close a, gscan_append,
    gpushed_step_quoted pushAcc close _ _ ⟨1, false, false, some [], a⟩ rfl rfl,
    gscan_append,
    gpushed_step_neutral pushAcc close ':' _ ⟨1, false, false, some [], a⟩ rfl rfl
      (by decide) (by decide) (by decide) (by decide), gscan_append,
    step_quoteOpen close 1 (some []) a _,
    gpushed_step_escStr pushAcc close _ _ ⟨1, true, false, some [], a⟩ rfl rfl]
  congr 1 <;> simp [List.append_assoc]

/-- Phase 1 over a batch truncated before a slide content field opened. -/
theorem gscan1_full2 (close : List Char → (List Char × List Json)
      → (List Char × List Json)) (done : List Slide) (a : List Char × List Json) :
    gscan pushAcc close ("\x7b\"slides\":[".data
        ++ ((done.map (fun sl => slideChars sl ++ [','])).flatten
          ++ ('\x7b' :: ('"' :: 't' :: 'i' :: 't' :: 'l' :: 'e' :: '"' :: ':' :: []))))
        (⟨0, false, false, none, a⟩ : GSt (List Char × List Json))
      = gpushed pushAcc ⟨1 + 1, false, false, some [], a⟩
          ("\x7b\"slides\":[".data
            ++ ((done.map (fun sl => slideChars sl ++ [','])).flatten
              ++ ('\x7b' :: ('"' :: 't' :: 'i' :: 't' :: 'l' :: 'e'
                :: '"' :: ':' :: [])))) := by
  rw [show "\x7b\"slides\":[".data
        ++ ((done.map (fun sl => slideChars sl ++ [','])).flatten
          ++ ('\x7b' :: ('"' :: 't' :: 'i' :: 't' :: 'l' :: 'e' :: '"' :: ':' :: [])))
      = ['\x7b'] ++ (quotedStr "slides".data ++ ([':'] ++ (['[']
        ++ ((done.map (fun sl => slideChars sl ++ [','])).flatten
          ++ (['\x7b'] ++ (quotedStr "title".data ++ [':'])))))) from rfl]
  rw [gscan_append, step_lbrace_root close a, gscan_append,
    gpushed_step_quoted pushAcc close _ _ ⟨1, false, false, some [], a⟩ rfl rfl,
    gscan_append,
    gpushed_step_neutral pushAcc close ':' _ ⟨1, false, false, some [], a⟩ rfl rfl
      (by decide) (by decide) (by decide) (by decide), gscan_append,
    gpushed_step_neutral pushAcc close '[' _ ⟨1, false, false, some [], a⟩ rfl rfl
      (by decide) (by decide) (by decide) (by decide), gscan_append,
    gscan_slidesCommaRegion pushAcc close done
      (gpushed pushAcc ⟨1, false, false, some [], a⟩
        (((['\x7b'] ++ quotedStr "slides".data) ++ [':']) ++ ['[']))
      rfl rfl (by simp [gpushed]), ← gpushed_append, gscan_append,
    step_lbrace_depth close 1 (by decide) (some []) a _, gscan_append,
    gpushed_step_quoted pushAcc close _ _ ⟨1 + 1, false, false, some [], a⟩ rfl rfl,
    gpushed_step_neutral pushAcc close ':' _ ⟨1 + 1, false, false, some [], a⟩ rfl rfl
      (by decide) (by decide) (by decide) (by decide)]
  congr 1 <;> simp [List.append_assoc]

/-- Phase 2 over a slide truncated before its content field opened. -/
theorem gscan2_partial2 (close : List Char → (List Char × List Json)
      → (List Char × List Json)) (a : List Char × List Json) :
    gscan pushAcc close
        ('\x7b' :: ('"' :: 't' :: 'i' :: 't' :: 'l' :: 'e' :: '"' :: ':' :: []))
        (⟨0, false, false, none, a⟩ : GSt (List Char × List Json))
      = gpushed pushAcc ⟨1, false, false, some [], a⟩
          ('\x7b' :: ('"' :: 't' :: 'i' :: 't' :: 'l' :: 'e' :: '"' :: ':' :: [])) := by
  rw [show ('\x7b' :: ('"' :: 't' :: 'i' :: 't' :: 'l' :: 'e' :: '"' :: ':' :: []))
      = ['\x7b'] ++ (quotedStr "title".data ++ [':']) from rfl]
  rw [gscan_append, step_lbrace_root close a, gscan_append,
    gpushed_step_quoted pushAcc close _ _ ⟨1, false, false, some [], a⟩ rfl rfl,
    gpushed_step_neutral pushAcc close ':' _ ⟨1, false, false, some [], a⟩ rfl rfl
      (by decide) (by decide) (by decide) (by decide)]
  congr 1 <;> simp [List.append_assoc]

/-- `parseLiveStream` on a buffer truncated inside an open content string:
the closed slides are returned and the partial content drives the
in-progress HTML. -/
theorem parseLiveStreamL_truncated1 (done : List Slide)
    (hall : done.all (fun sl => Slide.clean sl && !(sl.title == "")
      && !(sl.content == "")) = true)
    (hnd : List.Pairwise (fun a b => (a.title == b.title) = false) done)
    (cpart : List Char) (hcp : cpart.all strictCharB = true)
    (hws : ∀ c, (escStr cpart).getLast? = some c → jsWs c = false) :
    parseLiveStreamL ("\x7b\"slides\":[".data
        ++ ((done.map (fun sl => slideChars sl ++ [','])).flatten
          ++ ('\x7b' :: ('"' :: 'c' :: 'o' :: 'n' :: 't' :: 'e' :: 'n' :: 't'
            :: '"' :: ':' :: '"' :: escStr cpart)))) false
      = { completeSlides := done.map slideToJson,
          inProgressHtml := String.mk (if hasInfix ['>'] cpart then
              (if hasInfix ['<', '/', 'd', 'i', 'v', '>'] cpart then cpart
                else cpart ++ ['<', '/', 'd', 'i', 'v', '>'])
            else []) } := by
  have hclean : done.all Slide.clean = true := by
    rw [List.all_eq_true] at hall ⊢
    intro sl hsl
    have := hall sl hsl
    rw [Bool.and_eq_true, Bool.and_eq_true] at this
    exact this.1.1
  have hcpc : cpart.all cleanCharB = true := strict_all_clean cpart hcp
  have htick : '\x60' ∉ ("\x7b\"slides\":[".data
      ++ ((done.map (fun sl => slideChars sl ++ [','])).flatten
        ++ ('\x7b' :: ('"' :: 'c' :: 'o' :: 'n' :: 't' :: 'e' :: 'n' :: 't'
          :: '"' :: ':' :: '"' :: escStr cpart)))) := by
    intro hmem
    rcases List.mem_append.1 hmem with h | h
    · exact absurd h (by decide)
    rcases List.mem_append.1 h with h | h
    · obtain ⟨l, hl, hcl⟩ := List.mem_flatten.1 h
      obtain ⟨sl, hsl, rfl⟩ := List.mem_map.1 hl
      rcases List.mem_append.1 hcl with h2 | h2
      · exact slideChars_no_tick sl
          (by rw [List.all_eq_true] at hclean; exact hclean sl hsl) h2
      · simp at h2
    · have h2 : '\x60' ∈ escStr cpart := by
        simp only [List.mem_cons] at h
        rcases h with h|h|h|h|h|h|h|h|h|h|h|h|h <;> first
          | exact absurd h (by decide)
          | exact h
      exact escStr_no_tick cpart hcpc h2
  have hsan : sanitize ("\x7b\"slides\":[".data
      ++ ((done.map (fun sl => slideChars sl ++ [','])).flatten
        ++ ('\x7b' :: ('"' :: 'c' :: 'o' :: 'n' :: 't' :: 'e' :: 'n' :: 't'
          :: '"' :: ':' :: '"' :: escStr cpart))))
      = "\x7b\"slides\":[".data
        ++ ((done.map (fun sl => slideChars sl ++ [','])).flatten
          ++ ('\x7b' :: ('"' :: 'c' :: 'o' :: 'n' :: 't' :: 'e' :: 'n' :: 't'
            :: '"' :: ':' :: '"' :: escStr cpart))) := by
    rw [sanitize_no_tick _ htick]
    apply listTrim_id
    · intro c h
      rw [show ("\x7b\"slides\":[".data
          ++ ((done.map (fun sl => slideChars sl ++ [','])).flatten
            ++ ('\x7b' :: ('"' :: 'c' :: 'o' :: 'n' :: 't' :: 'e' :: 'n' :: 't'
              :: '"' :: ':' :: '"' :: escStr cpart)))).head? = some '\x7b' from rfl] at h
      injection h with h
      subst h
      decide
    · intro c h
      rw [List.getLast?_append, List.getLast?_append,
        show ('\x7b' :: ('"' :: 'c' :: 'o' :: 'n' :: 't' :: 'e' :: 'n' :: 't'
            :: '"' :: ':' :: '"' :: escStr cpart))
          = ['\x7b', '"', 'c', 'o', 'n', 't', 'e', 'n', 't', '"', ':', '"']
            ++ escStr cpart from rfl,
        List.getLast?_append] at h
      cases e : (escStr cpart).getLast? with
      | none =>
        rw [e] at h
        have h2 := show some '"' = some c from h
        injection h2 with h2
        subst h2
        decide
      | some d =>
        rw [e] at h
        have h2 := show some d = some c from h
        injection h2 with h2
        subst h2
        exact hws d e
  have hscan1 : scan1 ("\x7b\"slides\":[".data
        ++ ((done.map (fun sl => slideChars sl ++ [','])).flatten
          ++ ('\x7b' :: ('"' :: 'c' :: 'o' :: 'n' :: 't' :: 'e' :: 'n' :: 't'
            :: '"' :: ':' :: '"' :: escStr cpart))))
        { brace := 0, inStr := false, cur := none, pending := [], slides := [] }
      = toScan1 (gpushed pushAcc ⟨1 + 1, true, false, some [], ([], [])⟩
          ("\x7b\"slides\":[".data
            ++ ((done.map (fun sl => slideChars sl ++ [','])).flatten
              ++ ('\x7b' :: ('"' :: 'c' :: 'o' :: 'n' :: 't' :: 'e' :: 'n' :: 't'
                :: '"' :: ':' :: '"' :: escStr cpart))))) := by
    rw [show ({ brace := 0, inStr := false, cur := none, pending := [], slides := [] } : Scan1)
        = toScan1 ⟨0, false, false, none, ([], [])⟩ from rfl,
      scan1_eq_gscan ("\x7b\"slides\":[".data
        ++ ((done.map (fun sl => slideChars sl ++ [','])).flatten
          ++ ('\x7b' :: ('"' :: 'c' :: 'o' :: 'n' :: 't' :: 'e' :: 'n' :: 't'
            :: '"' :: ':' :: '"' :: escStr cpart)))).length _ le_rfl _ rfl,
      gscan1_full1 close1 done cpart ([], [])]
  have hscan2 : scan2 ((done.map (fun sl => slideChars sl ++ [','])).flatten
        ++ ('\x7b' :: ('"' :: 'c' :: 'o' :: 'n' :: 't' :: 'e' :: 'n' :: 't'
          :: '"' :: ':' :: '"' :: escStr cpart)))
        { brace := 0, inStr := false, cur := none, active := [], slides := [] }
      = toScan2 (gpushed pushAcc ⟨1, true, false, some [],
          ((if done.isEmpty then ([] : List Char) else [',']), accSlides [] done)⟩
          ('\x7b' :: ('"' :: 'c' :: 'o' :: 'n' :: 't' :: 'e' :: 'n' :: 't'
            :: '"' :: ':' :: '"' :: escStr cpart))) := by
    rw [show ({ brace := 0, inStr := false, cur := none, active := [], slides := [] } : Scan2)
        = toScan2 ⟨0, false, false, none, ([], [])⟩ from rfl,
      scan2_eq_gscan ((done.map (fun sl => slideChars sl ++ [','])).flatten
        ++ ('\x7b' :: ('"' :: 'c' :: 'o' :: 'n' :: 't' :: 'e' :: 'n' :: 't'
          :: '"' :: ':' :: '"' :: escStr cpart))).length _ le_rfl _ rfl,
      gscan_slides_concat done hall ([], []) _,
      gscan2_partial1 close2 cpart _]
  have hacc : accSlides [] done = done.map slideToJson := by
    rw [accSlides_distinct done [] (by intro d _; rfl) hnd, List.nil_append]
  simp only [parseLiveStreamL, hsan, hscan1, toScan1_gpushed_pending,
    toScan1_gpushed_slides, List.append_nil, List.reverse_reverse,
    findSlidesArr_header, findSlidesArr_header2, hscan2, toScan2_gpushed_active,
    toScan2_gpushed_slides, hacc, List.reverse_append, Bool.false_eq_true, if_false]
  rw [phase3_partial1 cpart hcp
    ((if done.isEmpty then ([] : List Char) else [',']).reverse)
    (by cases done <;> simp)]

/-- `parseLiveStream` on a buffer truncated before the partial slide content
field opened: the closed slides are returned, the in-progress HTML is
empty. -/
theorem parseLiveStreamL_truncated2 (done : List Slide)
    (hall : done.all (fun sl => Slide.clean sl && !(sl.title == "")
      && !(sl.content == "")) = true)
    (hnd : List.Pairwise (fun a b => (a.title == b.title) = false) done) :
    parseLiveStreamL ("\x7b\"slides\":[".data
        ++ ((done.map (fun sl => slideChars sl ++ [','])).flatten
          ++ ('\x7b' :: ('"' :: 't' :: 'i' :: 't' :: 'l' :: 'e' :: '"' :: ':' :: []))))
        false
      = { completeSlides := done.map slideToJson, inProgressHtml := "" } := by
  have hclean : done.all Slide.clean = true := by
    rw [List.all_eq_true] at hall ⊢
    intro sl hsl
    have := hall sl hsl
    rw [Bool.and_eq_true, Bool.and_eq_true] at this
    exact this.1.1
  have htick : '\x60' ∉ ("\x7b\"slides\":[".data
      ++ ((done.map (fun sl => slideChars sl ++ [','])).flatten
        ++ ('\x7b' :: ('"' :: 't' :: 'i' :: 't' :: 'l' :: 'e' :: '"' :: ':' :: [])))) := by
    intro hmem
    rcases List.mem_append.1 hmem with h | h
    · exact absurd h (by decide)
    rcases List.mem_append.1 h with h | h
    · obtain ⟨l, hl, hcl⟩ := List.mem_flatten.1 h
      obtain ⟨sl, hsl, rfl⟩ := List.mem_map.1 hl
      rcases List.mem_append.1 hcl with h2 | h2
      · exact slideChars_no_tick sl
          (by rw [List.all_eq_true] at hclean; exact hclean sl hsl) h2
      · simp at h2
    · exact absurd h (by decide)
  have hsan : sanitize ("\x7b\"slides\":[".data
      ++ ((done.map (fun sl => slideChars sl ++ [','])).flatten
        ++ ('\x7b' :: ('"' :: 't' :: 'i' :: 't' :: 'l' :: 'e' :: '"' :: ':' :: []))))
      = "\x7b\"slides\":[".data
        ++ ((done.map (fun sl => slideChars sl ++ [','])).flatten
          ++ ('\x7b' :: ('"' :: 't' :: 'i' :: 't' :: 'l' :: 'e' :: '"' :: ':' :: []))) := by
    rw [sanitize_no_tick _ htick]
    apply listTrim_id
    · intro c h
      rw [show ("\x7b\"slides\":[".data
          ++ ((done.map (fun sl => slideChars sl ++ [','])).flatten
            ++ ('\x7b' :: ('"' :: 't' :: 'i' :: 't' :: 'l' :: 'e'
              :: '"' :: ':' :: [])))).head? = some '\x7b' from rfl] at h
      injection h with h
      subst h
      decide
    · intro c h
      rw [List.getLast?_append, List.getLast?_append,
        show (('\x7b' :: ('"' :: 't' :: 'i' :: 't' :: 'l' :: 'e'
            :: '"' :: ':' :: ([] : List Char)))).getLast? = some ':' from rfl] at h
      have h2 := show some ':' = some c from h
      injection h2 with h2
      subst h2
      decide
  have hscan1 : scan1 ("\x7b\"slides\":[".data
        ++ ((done.map (fun sl => slideChars sl ++ [','])).flatten
          ++ ('\x7b' :: ('"' :: 't' :: 'i' :: 't' :: 'l' :: 'e' :: '"' :: ':' :: []))))
        { brace := 0, inStr := false, cur := none, pending := [], slides := [] }
      = toScan1 (gpushed pushAcc ⟨1 + 1, false, false, some [], ([], [])⟩
          ("\x7b\"slides\":[".data
            ++ ((done.map (fun sl => slideChars sl ++ [','])).flatten
              ++ ('\x7b' :: ('"' :: 't' :: 'i' :: 't' :: 'l' :: 'e'
                :: '"' :: ':' :: []))))) := by
    rw [show ({ brace := 0, inStr := false, cur := none, pending := [], slides := [] } : Scan1)
        = toScan1 ⟨0, false, false, none, ([], [])⟩ from rfl,
      scan1_eq_gscan ("\x7b\"slides\":[".data
        ++ ((done.map (fun sl => slideChars sl ++ [','])).flatten
          ++ ('\x7b' :: ('"' :: 't' :: 'i' :: 't' :: 'l' :: 'e'
            :: '"' :: ':' :: [])))).length _ le_rfl _ rfl,
      gscan1_full2 close1 done ([], [])]
  have hscan2 : scan2 ((done.map (fun sl => slideChars sl ++ [','])).flatten
        ++ ('\x7b' :: ('"' :: 't' :: 'i' :: 't' :: 'l' :: 'e' :: '"' :: ':' :: [])))
        { brace := 0, inStr := false, cur := none, active := [], slides := [] }
      = toScan2 (gpushed pushAcc ⟨1, false, false, some [],
          ((if done.isEmpty then ([] : List Char) else [',']), accSlides [] done)⟩
          ('\x7b' :: ('"' :: 't' :: 'i' :: 't' :: 'l' :: 'e' :: '"' :: ':' :: []))) := by
    rw [show ({ brace := 0, inStr := false, cur := none, active := [], slides := [] } : Scan2)
        = toScan2 ⟨0, false, false, none, ([], [])⟩ from rfl,
      scan2_eq_gscan ((done.map (fun sl => slideChars sl ++ [','])).flatten
        ++ ('\x7b' :: ('"' :: 't' :: 'i' :: 't' :: 'l' :: 'e'
          :: '"' :: ':' :: []))).length _ le_rfl _ rfl,
      gscan_slides_concat done hall ([], []) _,
      gscan2_partial2 close2 _]
  have hacc : accSlides [] done = done.map slideToJson := by
    rw [accSlides_distinct done [] (by intro d _; rfl) hnd, List.nil_append]
  simp only [parseLiveStreamL, hsan, hscan1, toScan1_gpushed_pending,
    toScan1_gpushed_slides, List.append_nil, List.reverse_reverse,
    findSlidesArr_header, findSlidesArr_header2, hscan2, toScan2_gpushed_active,
    toScan2_gpushed_slides, hacc, List.reverse_append, Bool.false_eq_true, if_false]
  rw [phase3_partial2
    ((if done.isEmpty then ([] : List Char) else [',']).reverse)
    (by cases done <;> simp)]

/-- **C5, amended.**  For a canonical buffer truncated in the middle of a
slide object, `parseLiveStream(truncated, false)` returns all slides from
fully-closed objects (deduplicated by title; exactly those slides when titles
are distinct) and raises no error.  `inProgressHtml` is non-empty only when
the truncation falls inside the content field: then, when at least one `>`
has been seen, it equals the partial content seen so far, with a closing
`</div>` appended when the fragment does not already contain one, and it is
empty when no `>` has been seen.  A truncation before the content field opens
yields an empty `inProgressHtml`. -/
theorem c5_amended (done : List Slide)
    (hall : done.all (fun sl => Slide.clean sl && !(sl.title == "")
      && !(sl.content == "")) = true)
    (hnd : List.Pairwise (fun a b => (a.title == b.title) = false) done)
    (cpart : List Char) (hcp : cpart.all strictCharB = true)
    (hws : ∀ c, (escStr cpart).getLast? = some c → jsWs c = false) :
    (parseLiveStream (String.mk ("\x7b\"slides\":[".data
        ++ ((done.map (fun sl => slideChars sl ++ [','])).flatten
          ++ ('\x7b' :: ('"' :: 'c' :: 'o' :: 'n' :: 't' :: 'e' :: 'n' :: 't'
            :: '"' :: ':' :: '"' :: escStr cpart))))) false
      = { completeSlides := done.map slideToJson,
          inProgressHtml := String.mk (if hasInfix ['>'] cpart then
              (if hasInfix ['<', '/', 'd', 'i', 'v', '>'] cpart then cpart
                else cpart ++ ['<', '/', 'd', 'i', 'v', '>'])
            else []) })
    ∧ (parseLiveStream (String.mk ("\x7b\"slides\":[".data
        ++ ((done.map (fun sl => slideChars sl ++ [','])).flatten
          ++ ('\x7b' :: ('"' :: 't' :: 'i' :: 't' :: 'l' :: 'e' :: '"' :: ':' :: [])))))
        false
      = { completeSlides := done.map slideToJson, inProgressHtml := "" }) := by
  constructor
  · exact parseLiveStreamL_truncated1 done hall hnd cpart hcp hws
  · exact parseLiveStreamL_truncated2 done hall hnd

set_option maxRecDepth 400000 in
/-- **C5, amended, witness.**  One closed slide followed by a slide truncated
inside its content: the closed slide is returned and the partial content is
rendered with a synthesized closing tag; truncated before the content opens,
the in-progress HTML is empty. -/
theorem c5_amended_witness :
    (parseLiveStream (String.mk ("\x7b\"slides\":[".data
        ++ ((([⟨"A", "<div>x</div>"⟩] : List Slide).map
            (fun sl => slideChars sl ++ [','])).flatten
          ++ ('\x7b' :: ('"' :: 'c' :: 'o' :: 'n' :: 't' :: 'e' :: 'n' :: 't'
            :: '"' :: ':' :: '"' :: escStr "<div>part".data))))) false
      = { completeSlides := [slideToJson ⟨"A", "<div>x</div>"⟩],
          inProgressHtml := String.mk ("<div>part".data
            ++ ['<', '/', 'd', 'i', 'v', '>']) })
    ∧ (parseLiveStream (String.mk ("\x7b\"slides\":[".data
        ++ ((([⟨"A", "<div>x</div>"⟩] : List Slide).map
            (fun sl => slideChars sl ++ [','])).flatten
          ++ ('\x7b' :: ('"' :: 't' :: 'i' :: 't' :: 'l' :: 'e' :: '"' :: ':' :: [])))))
        false
      = { completeSlides := [slideToJson ⟨"A", "<div>x</div>"⟩],
          inProgressHtml := "" }) := by
  constructor
  · rw [(c5_amended [⟨"A", "<div>x</div>"⟩] (by decide) (by decide)
        "<div>part".data (by decide) (by
          intro c h
          rw [show (escStr "<div>part".data).getLast? = some 't' from rfl] at h
          injection h with h
          subst h
          decide)).1]
    rfl
  · rw [(c5_amended [⟨"A", "<div>x</div>"⟩] (by decide) (by decide)
        "<div>part".data (by decide) (by
          intro c h
          rw [show (escStr "<div>part".data).getLast? = some 't' from rfl] at h
          injection h with h
          subst h
          decide)).2]
    rfl

/-- Phase 1 over a batch cut at a slide boundary: header and closed slides
are recorded, nothing closes at the root. -/
theorem gscan1_cut (close : List Char → (List Char × List Json)
      → (List Char × List Json)) (sls : List Slide) (a : List Char × List Json) :
    gscan pushAcc close
        ("\x7b\"slides\":[".data ++ sepComma (sls.map slideChars))
        (⟨0, false, false, none, a⟩ : GSt (List Char × List Json))
      = gpushed pushAcc ⟨1, false, false, some [], a⟩
          ("\x7b\"slides\":[".data ++ sepComma (sls.map slideChars)) := by
  rw [show "\x7b\"slides\":[".data ++ sepComma (sls.map slideChars)
      = ['\x7b'] ++ (quotedStr "slides".data ++ ([':']
        ++ (['['] ++ sepComma (sls.map slideChars)))) from rfl]
  rw [gscan_append, step_lbrace_root close a, gscan_append,
    gpushed_step_quoted pushAcc close _ _ ⟨1, false, false, some [], a⟩ rfl rfl,
    gscan_append,
    gpushed_step_neutral pushAcc close ':' _ ⟨1, false, false, some [], a⟩ rfl rfl
      (by decide) (by decide) (by decide) (by decide), gscan_append,
    gpushed_step_neutral pushAcc close '[' _ ⟨1, false, false, some [], a⟩ rfl rfl
      (by decide) (by decide) (by decide) (by decide),
    gscan_sepComma_slides pushAcc close sls
      (gpushed pushAcc ⟨1, false, false, some [], a⟩
        (((['\x7b'] ++ quotedStr "slides".data) ++ [':']) ++ ['[']))
      rfl rfl (by simp [gpushed]), ← gpushed_append]
  congr 1 <;> simp [List.append_assoc]

/-- The comma-separated serialization of a nonempty slide list ends with a
closing brace. -/
theorem sepComma_slides_getLast : ∀ (s : Slide) (rest : List Slide),
    (sepComma ((s :: rest).map slideChars)).getLast? = some '\x7d' := by
  intro s rest
  induction rest generalizing s with
  | nil =>
    rw [show sepComma ([s].map slideChars) = slideChars s from rfl,
      show slideChars s
        = ('\x7b' :: ("\"title\":".data ++ quotedStr s.title.data
          ++ ",\"content\":".data ++ quotedStr s.content.data)) ++ ['\x7d']
        from by simp [slideChars, List.append_assoc],
      List.getLast?_append]
    rfl
  | cons s2 rest2 ih =>
    rw [show sepComma ((s :: s2 :: rest2).map slideChars)
        = slideChars s ++ (',' :: sepComma ((s2 :: rest2).map slideChars)) from rfl,
      List.getLast?_append,
      show (',' :: sepComma ((s2 :: rest2).map slideChars))
        = [','] ++ sepComma ((s2 :: rest2).map slideChars) from rfl,
      List.getLast?_append, ih s2]
    rfl

/-- A cut at a slide boundary inside the batch after the closed batches:
closed slides accumulate through the dedup test, nothing else. -/
theorem parseLiveStreamL_cut (done : List (List Slide))
    (hdone : batchesClean done = true) (b : List Slide) (m : Nat)
    (hb : (b.take m).all (fun sl => Slide.clean sl && !(sl.title == "")
      && !(sl.content == "")) = true) :
    parseLiveStreamL (streamChars done
        ++ ("\x7b\"slides\":[".data ++ sepComma ((b.take m).map slideChars))) false
      = { completeSlides := accSlides
            ((done.map (fun bb => bb.map slideToJson)).flatten) (b.take m),
          inProgressHtml := "" } := by
  have hcleanm : (b.take m).all Slide.clean = true := by
    rw [List.all_eq_true] at hb ⊢
    intro sl hsl
    have := hb sl hsl
    rw [Bool.and_eq_true, Bool.and_eq_true] at this
    exact this.1.1
  have htick : '\x60' ∉ (streamChars done
      ++ ("\x7b\"slides\":[".data ++ sepComma ((b.take m).map slideChars))) := by
    intro hmem
    rcases List.mem_append.1 hmem with h | h
    · exact streamChars_no_tick done hdone h
    rcases List.mem_append.1 h with h | h
    · exact absurd h (by decide)
    · rcases sepComma_mem _ _ h with hc | ⟨l, hl, hcl⟩
      · exact absurd hc (by decide)
      · obtain ⟨sl, hsl, rfl⟩ := List.mem_map.1 hl
        exact slideChars_no_tick sl
          (by rw [List.all_eq_true] at hcleanm; exact hcleanm sl hsl) hcl
  have hsan : sanitize (streamChars done
      ++ ("\x7b\"slides\":[".data ++ sepComma ((b.take m).map slideChars)))
      = streamChars done
        ++ ("\x7b\"slides\":[".data ++ sepComma ((b.take m).map slideChars)) := by
    rw [sanitize_no_tick _ htick]
    apply listTrim_id
    · intro c h
      cases hd : done with
      | nil =>
        rw [hd] at h
        rw [show ((streamChars [] ++ ("\x7b\"slides\":[".data
            ++ sepComma ((b.take m).map slideChars)))).head? = some '\x7b'
          from rfl] at h
        injection h with h
        subst h
        decide
      | cons d drest =>
        rw [hd] at h
        rw [show ((streamChars (d :: drest) ++ ("\x7b\"slides\":[".data
            ++ sepComma ((b.take m).map slideChars)))).head? = some '\x7b'
          from rfl] at h
        injection h with h
        subst h
        decide
    · intro c h
      rw [List.getLast?_append, List.getLast?_append] at h
      cases htm : b.take m with
      | nil =>
        rw [htm] at h
        have h2 := show some '[' = some c from h
        injection h2 with h2
        subst h2
        decide
      | cons s srest =>
        rw [htm, sepComma_slides_getLast s srest] at h
        have h2 := show some '\x7d' = some c from h
        injection h2 with h2
        subst h2
        decide
  have hscan1 : scan1 (streamChars done
        ++ ("\x7b\"slides\":[".data ++ sepComma ((b.take m).map slideChars)))
        { brace := 0, inStr := false, cur := none, pending := [], slides := [] }
      = toScan1 (gpushed pushAcc ⟨1, false, false, some [],
          ([], (done.map (fun bb => bb.map slideToJson)).flatten)⟩
          ("\x7b\"slides\":[".data ++ sepComma ((b.take m).map slideChars))) := by
    rw [show ({ brace := 0, inStr := false, cur := none, pending := [], slides := [] } : Scan1)
        = toScan1 ⟨0, false, false, none, ([], [])⟩ from rfl,
      scan1_eq_gscan (streamChars done
        ++ ("\x7b\"slides\":[".data
          ++ sepComma ((b.take m).map slideChars))).length _ le_rfl _ rfl,
      gscan_append, gscan_stream done hdone [],
      show ((⟨0, false, false, none,
          ([], [] ++ (done.map (fun bb => bb.map slideToJson)).flatten)⟩ :
            GSt (List Char × List Json)))
        = ⟨0, false, false, none,
            ([], (done.map (fun bb => bb.map slideToJson)).flatten)⟩ from by
        rw [List.nil_append],
      gscan1_cut close1 (b.take m) _]
  have hscan2 : scan2 (sepComma ((b.take m).map slideChars))
        { brace := 0, inStr := false, cur := none, active := [],
          slides := (done.map (fun bb => bb.map slideToJson)).flatten }
      = toScan2 ⟨0, false, false, none,
          ((if (b.take m).isEmpty then ([] : List Char) else []),
            accSlides ((done.map (fun bb => bb.map slideToJson)).flatten)
              (b.take m))⟩ := by
    rw [show (⟨0, false, none, [],
            (done.map (fun bb => bb.map slideToJson)).flatten⟩ : Scan2)
        = toScan2 ⟨0, false, false, none,
            ([], (done.map (fun bb => bb.map slideToJson)).flatten)⟩ from rfl,
      scan2_eq_gscan (sepComma ((b.take m).map slideChars)).length _ le_rfl _ rfl,
      gscan_sepComma_close (b.take m) hb _]
  simp only [parseLiveStreamL, hsan, hscan1, toScan1_gpushed_pending,
    toScan1_gpushed_slides, List.append_nil, List.reverse_reverse,
    findSlidesArr_header, findSlidesArr_header2, hscan2, toScan2, ite_self,
    List.reverse_nil, Bool.false_eq_true, if_false]
  rfl

/-- `accSlides` composes over concatenation. -/
theorem accSlides_append : ∀ (l1 l2 : List Slide) (S : List Json),
    accSlides S (l1 ++ l2) = accSlides (accSlides S l1) l2 := by
  intro l1
  induction l1 with
  | nil => intro l2 S; rfl
  | cons sl rest ih => intro l2 S; exact ih l2 _

/-- `accSlides` never drops accumulated slides. -/
theorem accSlides_len_ge : ∀ (l : List Slide) (S : List Json),
    S.length ≤ (accSlides S l).length := by
  intro l
  induction l with
  | nil => intro S; exact le_rfl
  | cons sl rest ih =>
    intro S
    refine le_trans ?_ (ih _)
    split
    · exact le_rfl
    · simp

/-- `accSlides` adds at most one slide per closing object. -/
theorem accSlides_len_le : ∀ (l : List Slide) (S : List Json),
    (accSlides S l).length ≤ S.length + l.length := by
  intro l
  induction l with
  | nil => intro S; simp [accSlides]
  | cons sl rest ih =>
    intro S
    refine le_trans (ih _) ?_
    have : (if S.any (fun s => jsStrictEq (s.getField "title")
          (some (Json.str sl.title))) then S
        else S ++ [slideToJson sl]).length ≤ S.length + 1 := by
      split
      · omega
      · simp
    simp only [List.length_cons]
    omega

/-- Left-append preserves the prefix relation. -/
theorem isPre_append_left (w x y : List Char) (h : x <+: y) : w ++ x <+: w ++ y := by
  obtain ⟨t, rfl⟩ := h
  exact ⟨t, by simp [List.append_assoc]⟩

/-- A comma-separated join extends to a prefix of the longer join. -/
theorem sepComma_take_prefix : ∀ (xs zs : List (List Char)),
    sepComma xs <+: sepComma (xs ++ zs) := by
  intro xs
  induction xs with
  | nil => intro zs; exact List.nil_prefix
  | cons x rest ih =>
    intro zs
    cases rest with
    | nil =>
      cases zs with
      | nil => exact List.prefix_rfl
      | cons z zrest =>
        exact ⟨',' :: sepComma (z :: zrest), rfl⟩
    | cons y rest2 =>
      obtain ⟨t, ht⟩ := ih zs
      refine ⟨t, ?_⟩
      rw [show sepComma ((x :: y :: rest2) ++ zs)
          = x ++ (',' :: sepComma ((y :: rest2) ++ zs)) from rfl, ← ht]
      simp [sepComma, List.append_assoc]

/-- Serialization distributes over stream concatenation. -/
theorem streamChars_append (l1 l2 : List (List Slide)) :
    streamChars (l1 ++ l2) = streamChars l1 ++ streamChars l2 := by
  simp [streamChars]

/-- Schema-valid canonical stream: every batch is clean with truthy fields. -/
def streamOk (bs : List (List Slide)) : Bool :=
  bs.all (fun b => b.all (fun sl => Slide.clean sl && !(sl.title == "")
    && !(sl.content == "")))

theorem streamOk_clean (bs : List (List Slide)) (h : streamOk bs = true) :
    batchesClean bs = true := by
  unfold streamOk at h
  unfold batchesClean
  rw [List.all_eq_true] at h ⊢
  intro b hb
  have := h b hb
  rw [List.all_eq_true] at this ⊢
  intro sl hsl
  have := this sl hsl
  rw [Bool.and_eq_true, Bool.and_eq_true] at this
  exact this.1.1

theorem streamOk_append (l1 l2 : List (List Slide))
    (h : streamOk (l1 ++ l2) = true) : streamOk l1 = true ∧ streamOk l2 = true := by
  unfold streamOk at h ⊢
  rw [List.all_append, Bool.and_eq_true] at h
  exact h

/-- The strong slide condition restricts to any taken prefix. -/
theorem all_take_of_all (b : List Slide) (m : Nat)
    (h : b.all (fun sl => Slide.clean sl && !(sl.title == "")
      && !(sl.content == "")) = true) :
    (b.take m).all (fun sl => Slide.clean sl && !(sl.title == "")
      && !(sl.content == "")) = true := by
  rw [List.all_eq_true] at h ⊢
  intro sl hsl
  exact h sl (List.mem_of_mem_take hsl)

/-! ## C9: prefix-splitting utilities -/

/-- A prefix of a concatenation is a strictly shorter prefix of the first part
or extends the first part into the second. -/
theorem prefSplit (r X Y : List Char) (h : r <+: X ++ Y) :
    (r <+: X ∧ r.length < X.length) ∨ ∃ s, r = X ++ s ∧ s <+: Y := by
  by_cases hlt : r.length < X.length
  · left
    exact ⟨List.prefix_of_prefix_length_le h (List.prefix_append X Y) (le_of_lt hlt), hlt⟩
  · right
    have hX : X <+: r :=
      List.prefix_of_prefix_length_le (List.prefix_append X Y) h (le_of_not_lt hlt)
    obtain ⟨s, rfl⟩ := hX
    exact ⟨s, rfl, (List.prefix_append_right_inj X).1 h⟩

/-- A prefix of a cons is empty or a cons of a prefix. -/
theorem prefConsCases (c : Char) (l r : List Char) (h : r <+: c :: l) :
    r = [] ∨ ∃ r2, r = c :: r2 ∧ r2 <+: l := by
  cases r with
  | nil => exact Or.inl rfl
  | cons d r2 =>
    obtain ⟨t, ht⟩ := h
    injection ht with h1 h2
    subst h1
    exact Or.inr ⟨r2, rfl, ⟨t, h2⟩⟩

/-- A prefix of a singleton is empty or the singleton. -/
theorem prefSingletonCases (c : Char) (r : List Char) (h : r <+: [c]) :
    r = [] ∨ r = [c] := by
  rcases prefConsCases c [] r h with h0 | ⟨r2, rfl, hr2⟩
  · exact Or.inl h0
  · rw [ List.prefix_nil] at hr2
    subst hr2
    exact Or.inr rfl

/-- A proper prefix is strictly shorter. -/
theorem pre_length_lt (q X : List Char) (hq : q <+: X) (hne : q ≠ X) :
    q.length < X.length := by
  rcases Nat.lt_or_ge q.length X.length with h | h
  · exact h
  · exact absurd (hq.eq_of_length (le_antisymm hq.length_le h)) hne

/-! ## C9: the scan over arbitrary prefixes of serialized regions.
The lemmas below show that scanning any proper prefix of a serialized
region only records characters into the accumulator: no close action
fires, so the pending text extends by exactly the scanned prefix and the
slides component is untouched. -/

/-- An opening brace from any literal state records the character and keeps
the string and escape flags clear. -/
theorem gstep_lbrace_acc (close : List Char → (List Char × List Json)
      → (List Char × List Json)) (st : GSt (List Char × List Json))
    (hi : st.inStr = false) (hbs : st.afterBS = false) :
    (gstep pushAcc close st '\x7b').inStr = false
    ∧ (gstep pushAcc close st '\x7b').afterBS = false
    ∧ (gstep pushAcc close st '\x7b').acc = ('\x7b' :: st.acc.1, st.acc.2) := by
  by_cases hb : st.brace = 0 <;>
    simp [gstep, hi, hbs, hb, gpush, pushAcc]

/-- An opening quote from any literal state records the character, enters the
string and keeps the escape flag clear. -/
theorem gstep_quoteOpen_acc (close : List Char → (List Char × List Json)
      → (List Char × List Json)) (st : GSt (List Char × List Json))
    (hi : st.inStr = false) (hbs : st.afterBS = false) :
    (gstep pushAcc close st '"').inStr = true
    ∧ (gstep pushAcc close st '"').afterBS = false
    ∧ (gstep pushAcc close st '"').acc = ('"' :: st.acc.1, st.acc.2) := by
  simp [gstep, hi, hbs, gpush, pushAcc]

/-- Scanning any prefix of a serialized string body inside a string only
records characters. -/
theorem gscan_acc_escStr_pre (close : List Char → (List Char × List Json)
      → (List Char × List Json)) :
    ∀ (s r : List Char), r <+: escStr s →
    ∀ st : GSt (List Char × List Json), st.inStr = true → st.afterBS = false →
    (gscan pushAcc close r st).acc = (r.reverse ++ st.acc.1, st.acc.2) := by
  intro s
  induction s with
  | nil =>
    intro r hr st _ _
    rw [show escStr [] = [] from rfl, List.prefix_nil] at hr
    subst hr
    simp [gscan]
  | cons c s2 ih =>
    intro r hr st hi hbs
    rw [show escStr (c :: s2) = escChar c ++ escStr s2 from rfl] at hr
    rcases prefSplit r (escChar c) (escStr s2) hr with ⟨hpre, hlen⟩ | ⟨r2, rfl, hr2⟩
    · have hshape : escChar c = [c] ∨ ∃ e, escChar c = ['\\', e] := by
        unfold escChar
        split_ifs <;> first
          | exact Or.inl rfl
          | exact Or.inr ⟨_, rfl⟩
      rcases hshape with hsh | ⟨e, hsh⟩
      · rw [hsh] at hlen
        have hr0 : r = [] := List.eq_nil_of_length_eq_zero (by
          simp only [List.length_cons, List.length_nil] at hlen
          omega)
        subst hr0
        simp [gscan]
      · rw [hsh] at hpre hlen
        rcases prefConsCases '\\' [e] r hpre with hr0 | ⟨r3, rfl, hr3⟩
        · subst hr0
          simp [gscan]
        · rcases prefSingletonCases e r3 hr3 with hr0 | hr0
          · subst hr0
            show (gstep pushAcc close st '\\').acc = _
            simp [gstep, hbs, gpush, pushAcc]
          · subst hr0
            simp only [List.length_cons, List.length_nil] at hlen
            omega
    · rw [gscan_append, gscan_escChar pushAcc close st c hi hbs,
        ih r2 hr2 (gpushed pushAcc st (escChar c)) (by simp [gpushed, hi])
          (by simp [gpushed, hbs])]
      simp [gpushed, pushAcc_foldl, List.reverse_append, List.append_assoc]

/-- Scanning any prefix of a canonical quoted string literal from outside a
string only records characters. -/
theorem gscan_acc_quoted_pre (close : List Char → (List Char × List Json)
      → (List Char × List Json)) (s r : List Char) (hr : r <+: quotedStr s)
    (st : GSt (List Char × List Json)) (hi : st.inStr = false)
    (hbs : st.afterBS = false) :
    (gscan pushAcc close r st).acc = (r.reverse ++ st.acc.1, st.acc.2) := by
  rw [show quotedStr s = '"' :: (escStr s ++ ['"']) from rfl] at hr
  rcases prefConsCases '"' (escStr s ++ ['"']) r hr with hr0 | ⟨r2, rfl, hr2⟩
  · subst hr0
    simp [gscan]
  · obtain ⟨hq1, hq2, hq3⟩ := gstep_quoteOpen_acc close st hi hbs
    have hstep : gscan pushAcc close ('"' :: r2) st
        = gscan pushAcc close r2 (gstep pushAcc close st '"') := rfl
    rcases prefSplit r2 (escStr s) ['"'] hr2 with ⟨hpre, _⟩ | ⟨r3, hre, hr3⟩
    · rw [hstep, gscan_acc_escStr_pre close s r2 hpre _ hq1 hq2, hq3]
      simp
    · rcases prefSingletonCases '"' r3 hr3 with hr0 | hr0
      · subst hr0
        rw [List.append_nil] at hre
        subst hre
        rw [hstep, gscan_acc_escStr_pre close s (escStr s) List.prefix_rfl _ hq1 hq2, hq3]
        simp
      · subst hr0
        subst hre
        rw [show ('"' :: (escStr s ++ ['"'])) = quotedStr s from rfl,
          gscan_quoted pushAcc close s st hi hbs]
        simp [gpushed, pushAcc_foldl, quotedStr, pushAcc, List.reverse_append,
          List.append_assoc]

/-- A scan unit inside an object body: a canonical quoted string literal or a
single structural character. -/
def unitOk (u : List Char) : Prop :=
  (∃ s, u = quotedStr s)
    ∨ (∃ c, u = [c] ∧ c ≠ '"' ∧ c ≠ '\\' ∧ c ≠ '\x7b' ∧ c ≠ '\x7d')

/-- A full run of units is recorded verbatim. -/
theorem gscan_units_full (close : List Char → (List Char × List Json)
      → (List Char × List Json)) :
    ∀ (us : List (List Char)), (∀ u ∈ us, unitOk u) →
    ∀ st : GSt (List Char × List Json), st.inStr = false → st.afterBS = false →
    gscan pushAcc close us.flatten st = gpushed pushAcc st us.flatten := by
  intro us
  induction us with
  | nil => intro _ st _ _; simp [gscan, gpushed_nil]
  | cons u us2 ih =>
    intro hus st hi hbs
    have hu := hus u (List.mem_cons_self u us2)
    have hrest : ∀ v ∈ us2, unitOk v := fun v hv => hus v (List.mem_cons_of_mem u hv)
    rw [show (u :: us2).flatten = u ++ us2.flatten from rfl, gscan_append]
    have hfull : gscan pushAcc close u st = gpushed pushAcc st u := by
      rcases hu with ⟨s, rfl⟩ | ⟨c, rfl, hcq, hcb, hob, hcb2⟩
      · exact gscan_quoted pushAcc close s st hi hbs
      · exact gscan_neutral pushAcc close st c hi hbs hcq hcb hob hcb2
    rw [hfull, ih hrest (gpushed pushAcc st u) (by simp [gpushed, hi])
      (by simp [gpushed, hbs]), ← gpushed_append]

/-- Scanning any prefix of a run of units only records characters. -/
theorem gscan_acc_units_pre (close : List Char → (List Char × List Json)
      → (List Char × List Json)) :
    ∀ (us : List (List Char)), (∀ u ∈ us, unitOk u) →
    ∀ r, r <+: us.flatten →
    ∀ st : GSt (List Char × List Json), st.inStr = false → st.afterBS = false →
    (gscan pushAcc close r st).acc = (r.reverse ++ st.acc.1, st.acc.2) := by
  intro us
  induction us with
  | nil =>
    intro _ r hr st _ _
    rw [show ([] : List (List Char)).flatten = [] from rfl, List.prefix_nil] at hr
    subst hr
    simp [gscan]
  | cons u us2 ih =>
    intro hus r hr st hi hbs
    have hu := hus u (List.mem_cons_self u us2)
    have hrest : ∀ v ∈ us2, unitOk v := fun v hv => hus v (List.mem_cons_of_mem u hv)
    rw [show (u :: us2).flatten = u ++ us2.flatten from rfl] at hr
    rcases prefSplit r u us2.flatten hr with ⟨hpre, hlen⟩ | ⟨r2, rfl, hr2⟩
    · rcases hu with ⟨s, rfl⟩ | ⟨c, rfl, _, _, _, _⟩
      · exact gscan_acc_quoted_pre close s r hpre st hi hbs
      · have hr0 : r = [] := by
          rcases prefSingletonCases c r hpre with hr0 | hr0
          · exact hr0
          · subst hr0
            simp only [List.length_cons, List.length_nil] at hlen
            omega
        subst hr0
        simp [gscan]
    · have hfull : gscan pushAcc close u st = gpushed pushAcc st u := by
        rcases hu with ⟨s, rfl⟩ | ⟨c, rfl, hcq, hcb, hob, hcb2⟩
        · exact gscan_quoted pushAcc close s st hi hbs
        · exact gscan_neutral pushAcc close st c hi hbs hcq hcb hob hcb2
      rw [gscan_append, hfull, ih hrest r2 hr2 (gpushed pushAcc st u)
        (by simp [gpushed, hi]) (by simp [gpushed, hbs])]
      simp [gpushed, pushAcc_foldl, pushAcc, List.reverse_append, List.append_assoc]

/-- Decomposition of a serialized slide into its scan units. -/
theorem slideChars_decomp (sl : Slide) :
    slideChars sl = '\x7b' ::
      ([quotedStr "title".data, [':'], quotedStr sl.title.data, [','],
        quotedStr "content".data, [':'], quotedStr sl.content.data].flatten
        ++ ['\x7d']) := by
  simp [slideChars, quotedStr, List.append_assoc]
  rfl

/-- The units of a serialized slide body are scan units. -/
theorem slideUnits_ok (sl : Slide) :
    ∀ u ∈ [quotedStr "title".data, [':'], quotedStr sl.title.data, [','],
      quotedStr "content".data, [':'], quotedStr sl.content.data], unitOk u := by
  intro u hu
  simp only [List.mem_cons, List.not_mem_nil, or_false] at hu
  rcases hu with rfl | rfl | rfl | rfl | rfl | rfl | rfl <;>
    first
      | exact Or.inl ⟨_, rfl⟩
      | exact Or.inr ⟨_, rfl, by decide, by decide, by decide, by decide⟩

/-- Scanning a proper prefix of a serialized slide object only records
characters: the closing brace is never reached, so no close fires. -/
theorem gscan_acc_slide_pre (close : List Char → (List Char × List Json)
      → (List Char × List Json)) (sl : Slide) (r : List Char)
    (hr : r <+: slideChars sl) (hlt : r.length < (slideChars sl).length)
    (st : GSt (List Char × List Json)) (hi : st.inStr = false)
    (hbs : st.afterBS = false) :
    (gscan pushAcc close r st).acc = (r.reverse ++ st.acc.1, st.acc.2) := by
  rw [slideChars_decomp sl] at hr hlt
  rcases prefConsCases '\x7b' _ r hr with hr0 | ⟨r2, rfl, hr2⟩
  · subst hr0
    simp [gscan]
  · obtain ⟨hp1, hp2, hp3⟩ := gstep_lbrace_acc close st hi hbs
    have hstep : gscan pushAcc close ('\x7b' :: r2) st
        = gscan pushAcc close r2 (gstep pushAcc close st '\x7b') := rfl
    rcases prefSplit r2
        ([quotedStr "title".data, [':'], quotedStr sl.title.data, [','],
          quotedStr "content".data, [':'], quotedStr sl.content.data].flatten)
        ['\x7d'] hr2 with ⟨hpre, _⟩ | ⟨r3, hre, hr3⟩
    · rw [hstep, gscan_acc_units_pre close _ (slideUnits_ok sl) r2 hpre _ hp1 hp2, hp3]
      simp
    · rcases prefSingletonCases '\x7d' r3 hr3 with hr0 | hr0
      · subst hr0
        rw [List.append_nil] at hre
        subst hre
        rw [hstep, gscan_acc_units_pre close _ (slideUnits_ok sl) _ List.prefix_rfl
          _ hp1 hp2, hp3]
        simp
      · subst hr0
        subst hre
        simp only [List.length_cons, List.length_append] at hlt
        omega

/-- Scanning any prefix of the serialized slides of an open batch (with the
closing bracket) at positive depth only records characters. -/
theorem gscan_acc_sep_pre (close : List Char → (List Char × List Json)
      → (List Char × List Json)) :
    ∀ (b : List Slide) (r : List Char),
    r <+: sepComma (b.map slideChars) ++ [']'] →
    ∀ st : GSt (List Char × List Json), st.inStr = false → st.afterBS = false →
    ¬ st.brace = 0 →
    (gscan pushAcc close r st).acc = (r.reverse ++ st.acc.1, st.acc.2) := by
  intro b
  induction b with
  | nil =>
    intro r hr st hi hbs _
    rw [show sepComma (([] : List Slide).map slideChars) ++ [']'] = [']'] from rfl] at hr
    rcases prefSingletonCases ']' r hr with hr0 | hr0
    · subst hr0
      simp [gscan]
    · subst hr0
      rw [gscan_neutral pushAcc close st ']' hi hbs (by decide) (by decide)
        (by decide) (by decide)]
      simp [gpushed, pushAcc_foldl, pushAcc]
  | cons s rest ih =>
    intro r hr st hi hbs hbr
    cases rest with
    | nil =>
      rw [show sepComma (([s] : List Slide).map slideChars) ++ [']']
          = slideChars s ++ [']'] from rfl] at hr
      rcases prefSplit r (slideChars s) [']'] hr with ⟨hpre, hlen⟩ | ⟨r2, rfl, hr2⟩
      · exact gscan_acc_slide_pre close s r hpre hlen st hi hbs
      · rw [gscan_append, gscan_slideChars pushAcc close s st hi hbs hbr]
        rcases prefSingletonCases ']' r2 hr2 with hr0 | hr0
        · subst hr0
          simp [gscan, gpushed, pushAcc_foldl, pushAcc]
        · subst hr0
          rw [gpushed_step_neutral pushAcc close ']' _ st hi hbs
            (by decide) (by decide) (by decide) (by decide)]
          simp [gpushed, pushAcc_foldl, pushAcc, List.reverse_append, List.append_assoc]
    | cons s2 rest2 =>
      rw [show sepComma (((s :: s2 :: rest2) : List Slide).map slideChars) ++ [']']
          = slideChars s ++ (',' :: (sepComma ((s2 :: rest2).map slideChars) ++ [']']))
          from by
        rw [show sepComma ((s :: s2 :: rest2).map slideChars)
            = slideChars s ++ (',' :: sepComma ((s2 :: rest2).map slideChars)) from rfl]
        simp [List.append_assoc]] at hr
      rcases prefSplit r (slideChars s)
          (',' :: (sepComma ((s2 :: rest2).map slideChars) ++ [']'])) hr with
        ⟨hpre, hlen⟩ | ⟨r2, rfl, hr2⟩
      · exact gscan_acc_slide_pre close s r hpre hlen st hi hbs
      · rw [gscan_append, gscan_slideChars pushAcc close s st hi hbs hbr]
        rcases prefConsCases ',' (sepComma ((s2 :: rest2).map slideChars) ++ [']'])
            r2 hr2 with hr0 | ⟨r3, rfl, hr3⟩
        · subst hr0
          simp [gscan, gpushed, pushAcc_foldl, pushAcc]
        · rw [show (',' :: r3) = [','] ++ r3 from rfl, gscan_append,
            gpushed_step_neutral pushAcc close ',' _ st hi hbs
              (by decide) (by decide) (by decide) (by decide),
            ih r3 hr3 (gpushed pushAcc st (slideChars s ++ [',']))
              (by simp [gpushed, hi]) (by simp [gpushed, hbs])
              (by simp [gpushed]; exact hbr)]
          simp [gpushed, pushAcc_foldl, pushAcc, List.reverse_append, List.append_assoc]

/-- The units of the batch header after its opening brace are scan units. -/
theorem headerUnits_ok : ∀ u ∈ [quotedStr "slides".data, [':'], ['[']], unitOk u := by
  intro u hu
  simp only [List.mem_cons, List.not_mem_nil, or_false] at hu
  rcases hu with rfl | rfl | rfl
  · exact Or.inl ⟨_, rfl⟩
  · exact Or.inr ⟨_, rfl, by decide, by decide, by decide, by decide⟩
  · exact Or.inr ⟨_, rfl, by decide, by decide, by decide, by decide⟩

/-- The batch header after its opening brace, as unit runs. -/
theorem headerUnits_flatten :
    [quotedStr "slides".data, [':'], ['[']].flatten = "\"slides\":[".data := rfl

/-- Decomposition of a serialized batch at its opening brace. -/
theorem batchChars_decomp (b : List Slide) :
    batchChars b = '\x7b' :: ("\"slides\":[".data
      ++ ((sepComma (b.map slideChars) ++ [']']) ++ ['\x7d'])) := by
  simp [batchChars, List.append_assoc]

/-- Decomposition of a serialized batch at its full header. -/
theorem batchChars_eq (b : List Slide) :
    batchChars b = "\x7b\"slides\":[".data
      ++ ((sepComma (b.map slideChars) ++ [']']) ++ ['\x7d']) := by
  simp [batchChars, List.append_assoc]

/-- The Phase 1 scan over a proper prefix of a serialized batch from the
ready state: every character is recorded as pending, no batch closes. -/
theorem gscan_acc_batch_pre (close : List Char → (List Char × List Json)
      → (List Char × List Json)) (b : List Slide) (q : List Char)
    (hq : q <+: batchChars b) (hne : q ≠ batchChars b) (a : List Char × List Json) :
    (gscan pushAcc close q
        (⟨0, false, false, none, a⟩ : GSt (List Char × List Json))).acc
      = (q.reverse ++ a.1, a.2) := by
  rw [batchChars_decomp b] at hq hne
  rcases prefConsCases '\x7b' _ q hq with hq0 | ⟨q2, rfl, hq2⟩
  · subst hq0
    simp [gscan]
  · rw [show gscan pushAcc close ('\x7b' :: q2) ⟨0, false, false, none, a⟩
        = gscan pushAcc close q2
            (gscan pushAcc close ['\x7b'] ⟨0, false, false, none, a⟩) from rfl,
      step_lbrace_root close a]
    rcases prefSplit q2 ("\"slides\":[".data)
        ((sepComma (b.map slideChars) ++ [']']) ++ ['\x7d']) hq2 with
      ⟨hpre, _⟩ | ⟨r, hre, hrr⟩
    · rw [← headerUnits_flatten] at hpre
      rw [gscan_acc_units_pre close _ headerUnits_ok q2 hpre _
        (by simp [gpushed]) (by simp [gpushed])]
      simp [gpushed, pushAcc_foldl, pushAcc, List.reverse_append, List.append_assoc]
    · subst hre
      rw [gscan_append, ← headerUnits_flatten,
        gscan_units_full close _ headerUnits_ok _ (by simp [gpushed]) (by simp [gpushed]),
        ← gpushed_append, headerUnits_flatten]
      rcases prefSplit r (sepComma (b.map slideChars) ++ [']']) ['\x7d'] hrr with
        ⟨hpre, _⟩ | ⟨r3, hre3, hr3⟩
      · rw [gscan_acc_sep_pre close b r hpre _ (by simp [gpushed]) (by simp [gpushed])
          (by simp [gpushed])]
        simp [gpushed, pushAcc_foldl, pushAcc, List.reverse_append, List.append_assoc]
      · rcases prefSingletonCases '\x7d' r3 hr3 with hr0 | hr0
        · subst hr0
          rw [List.append_nil] at hre3
          subst hre3
          rw [gscan_acc_sep_pre close b _ List.prefix_rfl _ (by simp [gpushed])
            (by simp [gpushed]) (by simp [gpushed])]
          simp [gpushed, pushAcc_foldl, pushAcc, List.reverse_append, List.append_assoc]
        · subst hr0
          subst hre3
          exact absurd rfl hne

/-- Every serialized slide is nonempty. -/
theorem slideChars_length_pos (sl : Slide) : 1 ≤ (slideChars sl).length := by
  rw [slideChars_decomp sl]
  simp

/-- The comma-separated join of a nonempty tail. -/
theorem sepComma_cons_ne (x : List Char) (l : List (List Char)) (hl : l ≠ []) :
    sepComma (x :: l) = x ++ (',' :: sepComma l) := by
  cases l with
  | nil => exact absurd rfl hl
  | cons y r => rfl

/-- The serialized length of a taken prefix of slides is monotone in the
number of slides taken. -/
theorem sepComma_take_len_mono (b : List Slide) (k j : Nat) (h : k ≤ j) :
    (sepComma ((b.take k).map slideChars)).length
      ≤ (sepComma ((b.take j).map slideChars)).length := by
  have hsplit : b.take j = b.take k ++ (b.drop k).take (j - k) := by
    rw [← List.take_add]
    congr 1
    omega
  rw [hsplit, List.map_append]
  exact ( sepComma_take_prefix _ _).length_le

/-- The Phase 2 scan over any prefix of the open batch's slides region: the
closed slides accumulate through the dedup test, and the number of closed
slides is pinned by the length of the consumed prefix. -/
theorem gscan2_acc_pre :
    ∀ (b : List Slide), b.all (fun sl => Slide.clean sl && !(sl.title == "")
      && !(sl.content == "")) = true →
    ∀ (r : List Char), r <+: sepComma (b.map slideChars) ++ [']'] →
    ∀ (a : List Char × List Json),
    ∃ m, m ≤ b.length
      ∧ (gscan pushAcc close2 r
            (⟨0, false, false, none, a⟩ : GSt (List Char × List Json))).acc.2
          = accSlides a.2 (b.take m)
      ∧ (sepComma ((b.take m).map slideChars)).length ≤ r.length
      ∧ (m < b.length → r.length < (sepComma ((b.take (m + 1)).map slideChars)).length) := by
  intro b
  induction b with
  | nil =>
    intro _ r hr a
    refine ⟨0, le_rfl, ?_, by simp [sepComma], fun h => absurd h (by simp)⟩
    rw [show sepComma (([] : List Slide).map slideChars) ++ [']'] = [']'] from rfl] at hr
    rcases prefSingletonCases ']' r hr with hr0 | hr0
    · subst hr0
      rfl
    · subst hr0
      rw [gscan_ready_neutral close2 ']' a (by decide) (by decide) (by decide) (by decide)]
      rfl
  | cons s rest ih =>
    intro hcond r hr a
    have hparts : (Slide.clean s && !(s.title == "") && !(s.content == "")) = true
        ∧ rest.all (fun sl => Slide.clean sl && !(sl.title == "")
          && !(sl.content == "")) = true := by
      rw [List.all_cons, Bool.and_eq_true] at hcond
      exact hcond
    obtain ⟨hcl, hrest⟩ := hparts
    rw [Bool.and_eq_true, Bool.and_eq_true] at hcl
    obtain ⟨⟨hclean, hT⟩, hC⟩ := hcl
    rw [Bool.not_eq_true'] at hT hC
    obtain ⟨hct, hcc⟩ : s.title.data.all cleanCharB = true
        ∧ s.content.data.all cleanCharB = true := by
      unfold Slide.clean at hclean
      rw [Bool.and_eq_true] at hclean
      exact hclean
    cases rest with
    | nil =>
      rw [show sepComma (([s] : List Slide).map slideChars) ++ [']']
          = slideChars s ++ [']'] from rfl] at hr
      rcases prefSplit r (slideChars s) [']'] hr with ⟨hpre, hlen⟩ | ⟨r2, rfl, hr2⟩
      · refine ⟨0, Nat.zero_le _, ?_, by simp [sepComma], fun _ => by simpa using hlen⟩
        rw [gscan_acc_slide_pre close2 s r hpre hlen _ rfl rfl]
        rfl
      · refine ⟨1, le_rfl, ?_, by simp [sepComma], fun h => absurd h (by simp)⟩
        rw [gscan_append, gscan_slide2 s hct hcc hT hC a]
        rcases prefSingletonCases ']' r2 hr2 with hr0 | hr0
        · subst hr0
          simp [gscan, accSlides]
        · subst hr0
          rw [gscan_ready_neutral close2 ']' _ (by decide) (by decide) (by decide)
            (by decide)]
          simp [accSlides]
    | cons s2 rest2 =>
      rw [show sepComma (((s :: s2 :: rest2) : List Slide).map slideChars) ++ [']']
          = slideChars s ++ (',' :: (sepComma ((s2 :: rest2).map slideChars) ++ [']']))
          from by
        rw [show sepComma ((s :: s2 :: rest2).map slideChars)
            = slideChars s ++ (',' :: sepComma ((s2 :: rest2).map slideChars)) from rfl]
        simp [List.append_assoc]] at hr
      rcases prefSplit r (slideChars s)
          (',' :: (sepComma ((s2 :: rest2).map slideChars) ++ [']'])) hr with
        ⟨hpre, hlen⟩ | ⟨r2, rfl, hr2⟩
      · refine ⟨0, Nat.zero_le _, ?_, by simp [sepComma], fun _ => by simpa using hlen⟩
        rw [gscan_acc_slide_pre close2 s r hpre hlen _ rfl rfl]
        rfl
      · rcases prefConsCases ',' (sepComma ((s2 :: rest2).map slideChars) ++ [']'])
            r2 hr2 with hr0 | ⟨r3, rfl, hr3⟩
        · subst hr0
          refine ⟨1, by simp, ?_, by simp [sepComma], fun _ => ?_⟩
          · rw [List.append_nil, gscan_slide2 s hct hcc hT hC a]
            simp [accSlides]
          · rw [show (s :: s2 :: rest2).take 2 = [s, s2] from rfl,
              show sepComma (([s, s2] : List Slide).map slideChars)
                = slideChars s ++ (',' :: slideChars s2) from rfl]
            simp
        · obtain ⟨m3, hm3le, hacc3, hlow3, hhigh3⟩ := ih hrest r3 hr3
            (([','], if a.2.any (fun x => jsStrictEq (x.getField "title")
                (some (Json.str s.title))) then a.2 else a.2 ++ [slideToJson s]))
          refine ⟨m3 + 1, by simpa using hm3le, ?_, ?_, ?_⟩
          · rw [gscan_append, gscan_slide2 s hct hcc hT hC a,
              show (',' :: r3) = [','] ++ r3 from rfl, gscan_append,
              gscan_ready_neutral close2 ','
                ([], if a.2.any (fun x => jsStrictEq (x.getField "title")
                    (some (Json.str s.title))) then a.2 else a.2 ++ [slideToJson s])
                (by decide) (by decide) (by decide) (by decide)]
            rw [show (s :: s2 :: rest2).take (m3 + 1) = s :: (s2 :: rest2).take m3
              from List.take_succ_cons]
            rw [show accSlides a.2 (s :: (s2 :: rest2).take m3)
                = accSlides (if a.2.any (fun x => jsStrictEq (x.getField "title")
                    (some (Json.str s.title))) then a.2 else a.2 ++ [slideToJson s])
                  ((s2 :: rest2).take m3) from rfl]
            exact hacc3
          · rw [show (s :: s2 :: rest2).take (m3 + 1) = s :: (s2 :: rest2).take m3
              from List.take_succ_cons]
            rcases Nat.eq_zero_or_pos m3 with hm0 | hm1
            · subst hm0
              simp [sepComma]
            · rw [show ((s :: (s2 :: rest2).take m3).map slideChars)
                  = slideChars s :: ((s2 :: rest2).take m3).map slideChars from rfl,
                sepComma_cons_ne _ _ (by
                  simp only [ne_eq, List.map_eq_nil_iff, List.take_eq_nil_iff]
                  push_neg
                  exact ⟨by omega, by simp⟩)]
              simp only [List.length_append, List.length_cons]
              have := hlow3
              omega
          · intro hmlt
            have hm3lt : m3 < (s2 :: rest2).length := by
              simp only [List.length_cons] at hmlt ⊢
              omega
            have hB := hhigh3 hm3lt
            rw [show (s :: s2 :: rest2).take (m3 + 1 + 1)
                = s :: (s2 :: rest2).take (m3 + 1) from List.take_succ_cons,
              show ((s :: (s2 :: rest2).take (m3 + 1)).map slideChars)
                = slideChars s :: ((s2 :: rest2).take (m3 + 1)).map slideChars from rfl,
              sepComma_cons_ne _ _ (by
                simp only [ne_eq, List.map_eq_nil_iff, List.take_eq_nil_iff]
                push_neg
                exact ⟨by omega, by simp⟩)]
            simp only [List.length_append, List.length_cons]
            omega

/-- Projection of the Phase 1 state view: pending text. -/
theorem toScan1_pending (st : GSt (List Char × List Json)) :
    (toScan1 st).pending = st.acc.1 := rfl

/-- Projection of the Phase 1 state view: slides. -/
theorem toScan1_slides (st : GSt (List Char × List Json)) :
    (toScan1 st).slides = st.acc.2 := rfl

/-- Projection of the Phase 2 state view: slides. -/
theorem toScan2_slides (st : GSt (List Char × List Json)) :
    (toScan2 st).slides = st.acc.2 := rfl

/-- Serialization of a cons stream. -/
theorem streamChars_cons (b : List Slide) (rest : List (List Slide)) :
    streamChars (b :: rest) = batchChars b ++ streamChars rest := by
  simp [streamChars]

/-- The slides-array header has eleven characters. -/
theorem header_length : ("\x7b\"slides\":[".data).length = 11 := rfl

/-- No strict prefix of the slides-array header matches the pattern. -/
theorem findSlidesArr_header_take : ∀ i < 11,
    findSlidesArr (("\x7b\"slides\":[".data).take i) = none := by decide

/-- Every nonempty prefix of a canonical stream starts with the opening
brace, which is not whitespace. -/
theorem streamPre_head (bs : List (List Slide)) (p : List Char)
    (hp : p <+: streamChars bs) : ∀ c, p.head? = some c → jsWs c = false := by
  intro c hc
  cases p with
  | nil => simp at hc
  | cons c0 p0 =>
    rw [show (c0 :: p0).head? = some c0 from rfl] at hc
    injection hc with hc0
    subst hc0
    obtain ⟨t, ht⟩ := hp
    cases bs with
    | nil => simp [streamChars] at ht
    | cons b rest =>
      rw [streamChars_cons b rest, batchChars_decomp b,
        show ((c0 :: p0) ++ t) = c0 :: (p0 ++ t) from rfl,
        show ('\x7b' :: ("\"slides\":[".data
            ++ ((sepComma (b.map slideChars) ++ [']']) ++ ['\x7d']))) ++ streamChars rest
          = '\x7b' :: (("\"slides\":[".data
            ++ ((sepComma (b.map slideChars) ++ [']']) ++ ['\x7d'])) ++ streamChars rest)
          from rfl] at ht
      injection ht with h1 _
      subst h1
      decide

set_option maxHeartbeats 1000000 in
/-- Characterization of the parse of a canonical stream cut anywhere inside a
batch: the completed batches contribute all their slides, the closed slides
of the open batch accumulate through the dedup test, and the number of
closed slides is pinned by the length of the cut. -/
theorem parseLiveStreamL_pre_batch (done : List (List Slide)) (b : List Slide)
    (hdone : batchesClean done = true)
    (hb : b.all (fun sl => Slide.clean sl && !(sl.title == "")
      && !(sl.content == "")) = true)
    (q : List Char) (hq : q <+: batchChars b) (hne : q ≠ batchChars b)
    (hlast : ∀ c, (streamChars done ++ q).getLast? = some c → jsWs c = false) :
    ∃ m, m ≤ b.length
      ∧ (parseLiveStreamL (streamChars done ++ q) false).completeSlides
          = accSlides ((done.map (fun bb => bb.map slideToJson)).flatten) (b.take m)
      ∧ (1 ≤ m → 11 + (sepComma ((b.take m).map slideChars)).length ≤ q.length)
      ∧ (m < b.length →
          q.length < 11 + (sepComma ((b.take (m + 1)).map slideChars)).length) := by
  have hcleanb : b.all Slide.clean = true := by
    rw [List.all_eq_true] at hb ⊢
    intro sl hsl
    have h3 := hb sl hsl
    rw [Bool.and_eq_true, Bool.and_eq_true] at h3
    exact h3.1.1
  have htick : '\x60' ∉ streamChars done ++ q := by
    intro hmem
    rcases List.mem_append.1 hmem with h | h
    · exact streamChars_no_tick done hdone h
    · exact batchChars_no_tick b hcleanb (hq.subset h)
  have hhead : ∀ c, (streamChars done ++ q).head? = some c → jsWs c = false := by
    apply streamPre_head (done ++ [b])
    rw [streamChars_append done [b], streamChars_cons b [],
      show streamChars [] = [] from rfl, List.append_nil]
    exact (List.prefix_append_right_inj (streamChars done)).2 hq
  have hsan : sanitize (streamChars done ++ q) = streamChars done ++ q := by
    rw [sanitize_no_tick _ htick]
    exact listTrim_id _ hhead hlast
  have hscan1 : scan1 (streamChars done ++ q)
        { brace := 0, inStr := false, cur := none, pending := [], slides := [] }
      = toScan1 (gscan pushAcc close1 q
          ⟨0, false, false, none,
            ([], (done.map (fun bb => bb.map slideToJson)).flatten)⟩) := by
    rw [show ({ brace := 0, inStr := false, cur := none, pending := [], slides := [] } : Scan1)
        = toScan1 ⟨0, false, false, none, ([], [])⟩ from rfl,
      scan1_eq_gscan (streamChars done ++ q).length _ le_rfl _ rfl,
      gscan_append, gscan_stream done hdone [],
      show ((⟨0, false, false, none,
          ([], [] ++ (done.map (fun bb => bb.map slideToJson)).flatten)⟩ :
            GSt (List Char × List Json)))
        = ⟨0, false, false, none,
            ([], (done.map (fun bb => bb.map slideToJson)).flatten)⟩ from by
        rw [List.nil_append]]
  have hacc := gscan_acc_batch_pre close1 b q hq hne
    ([], (done.map (fun bb => bb.map slideToJson)).flatten)
  have hpend : (gscan pushAcc close1 q
      ⟨0, false, false, none,
        ([], (done.map (fun bb => bb.map slideToJson)).flatten)⟩).acc.1 = q.reverse := by
    rw [hacc, List.append_nil]
  have hsl : (gscan pushAcc close1 q
      ⟨0, false, false, none,
        ([], (done.map (fun bb => bb.map slideToJson)).flatten)⟩).acc.2
      = (done.map (fun bb => bb.map slideToJson)).flatten := by
    rw [hacc]
  rcases prefSplit q ("\x7b\"slides\":[".data)
      ((sepComma (b.map slideChars) ++ [']']) ++ ['\x7d'])
      (by rw [← batchChars_eq b]; exact hq) with ⟨hpre, hlen⟩ | ⟨r, hre, hrr⟩
  · rw [header_length] at hlen
    have hfind : findSlidesArr q = none := by
      rw [List.prefix_iff_eq_take.1 hpre]
      exact findSlidesArr_header_take q.length hlen
    refine ⟨0, Nat.zero_le _, ?_, fun h => absurd h (by omega), fun _ => by omega⟩
    simp only [parseLiveStreamL, hsan, hscan1, toScan1_pending, toScan1_slides,
      hpend, hsl, List.reverse_reverse, hfind]
    rfl
  · subst hre
    have hr1 : r <+: sepComma (b.map slideChars) ++ [']'] := by
      rcases prefSplit r (sepComma (b.map slideChars) ++ [']']) ['\x7d'] hrr with
        ⟨hp, _⟩ | ⟨r3, hre3, hr3⟩
      · exact hp
      · rcases prefSingletonCases '\x7d' r3 hr3 with hr0 | hr0
        · subst hr0
          rw [List.append_nil] at hre3
          subst hre3
          exact List.prefix_rfl
        · subst hr0
          subst hre3
          exact absurd (batchChars_eq b).symm hne
    obtain ⟨m, hmle, hacc2, hlow, hhigh⟩ := gscan2_acc_pre b hb r hr1
      ([], (done.map (fun bb => bb.map slideToJson)).flatten)
    have hqlen : ("\x7b\"slides\":[".data ++ r).length = 11 + r.length := by
      rw [List.length_append, header_length]
    refine ⟨m, hmle, ?_, ?_, ?_⟩
    · simp only [parseLiveStreamL, hsan, hscan1, toScan1_pending, toScan1_slides,
        hpend, hsl, List.reverse_reverse, findSlidesArr_header, findSlidesArr_header2]
      have hinit : ({ brace := 0, inStr := false, cur := none, active := [],
                      slides := (done.map (fun bb => bb.map slideToJson)).flatten } : Scan2)
          = toScan2 ⟨0, false, false, none,
              ([], (done.map (fun bb => bb.map slideToJson)).flatten)⟩ := rfl
      rw [hinit, scan2_eq_gscan r.length r le_rfl _ rfl, toScan2_slides, hacc2]
    · intro h1
      omega
    · intro hml
      have h5 := hhigh hml
      omega

/-- Right trim: drop trailing JS whitespace. -/
def trimRight (l : List Char) : List Char :=
  (l.reverse.dropWhile (jsWs ·)).reverse

/-- The right trim of a buffer is one of its prefixes. -/
theorem trimRight_pre (l : List Char) : trimRight l <+: l := by
  rw [show trimRight l = (l.reverse.dropWhile (jsWs ·)).reverse from rfl,
    ← List.reverse_suffix, List.reverse_reverse]
  exact List.dropWhile_suffix _

/-- Right trimming preserves the prefix relation. -/
theorem trimRight_mono (p q : List Char) (h : p <+: q) :
    trimRight p <+: trimRight q := by
  obtain ⟨t, rfl⟩ := h
  by_cases ht : (t.reverse.dropWhile (jsWs ·)).isEmpty
  · have heq : trimRight (p ++ t) = trimRight p := by
      rw [show trimRight (p ++ t) = ((p ++ t).reverse.dropWhile (jsWs ·)).reverse
          from rfl,
        List.reverse_append, List.dropWhile_append, if_pos ht]
      rfl
    rw [heq]
  · have heq : trimRight (p ++ t) = p ++ (t.reverse.dropWhile (jsWs ·)).reverse := by
      rw [show trimRight (p ++ t) = ((p ++ t).reverse.dropWhile (jsWs ·)).reverse
          from rfl,
        List.reverse_append, List.dropWhile_append, if_neg ht, List.reverse_append,
        List.reverse_reverse]
    rw [heq]
    exact (trimRight_pre p).trans (List.prefix_append p _)

/-- The head of a dropWhile result fails the predicate. -/
theorem dropWhile_head_not (f : Char → Bool) :
    ∀ (l : List Char) (c : Char), (l.dropWhile f).head? = some c → f c = false := by
  intro l
  induction l with
  | nil => intro c hc; simp at hc
  | cons d l2 ih =>
    intro c hc
    rw [List.dropWhile_cons] at hc
    by_cases hd : f d = true
    · rw [if_pos hd] at hc
      exact ih c hc
    · rw [if_neg hd] at hc
      rw [show (d :: l2).head? = some d from rfl] at hc
      injection hc with hc
      subst hc
      rw [Bool.not_eq_true] at hd
      exact hd

/-- A right-trimmed buffer does not end in JS whitespace. -/
theorem trimRight_last (l : List Char) :
    ∀ c, (trimRight l).getLast? = some c → jsWs c = false := by
  intro c hc
  rw [show trimRight l = (l.reverse.dropWhile (jsWs ·)).reverse from rfl,
    List.getLast?_reverse] at hc
  exact dropWhile_head_not _ l.reverse c hc

/-- Nonempty prefixes share their head. -/
theorem head_of_pre (p l : List Char) (h : p <+: l) (hne : p ≠ []) :
    p.head? = l.head? := by
  obtain ⟨t, rfl⟩ := h
  cases p with
  | nil => exact absurd rfl hne
  | cons c p2 => rfl

/-- On a tick-free prefix of a canonical stream the sanitizer right-trims,
and the right-trimmed buffer is a sanitizer fixed point. -/
theorem sanitize_trimRight (bs : List (List Slide)) (hcl : batchesClean bs = true)
    (p : List Char) (hp : p <+: streamChars bs) :
    sanitize p = trimRight p ∧ sanitize (trimRight p) = trimRight p := by
  have htick : '\x60' ∉ p := fun hm => streamChars_no_tick bs hcl (hp.subset hm)
  have htick2 : '\x60' ∉ trimRight p := fun hm => htick ((trimRight_pre p).subset hm)
  have hhead : ∀ c, p.head? = some c → jsWs c = false := streamPre_head bs p hp
  have hhead2 : ∀ c, (trimRight p).head? = some c → jsWs c = false := by
    intro c hc
    by_cases hnil : trimRight p = []
    · rw [hnil] at hc
      simp at hc
    · exact hhead c (by rw [← head_of_pre _ _ (trimRight_pre p) hnil]; exact hc)
  have hdp : p.dropWhile (jsWs ·) = p := by
    cases p with
    | nil => rfl
    | cons c cs => rw [List.dropWhile_cons, if_neg (by simp [hhead c rfl])]
  constructor
  · rw [sanitize_no_tick _ htick]
    unfold listTrim trimRight
    rw [hdp]
  · rw [sanitize_no_tick _ htick2]
    exact listTrim_id _ hhead2 (trimRight_last p)

/-- The completed-slides output does not depend on the completion flag. -/
theorem completeSlides_flag (p : List Char) (c : Bool) :
    (parseLiveStreamL p c).completeSlides = (parseLiveStreamL p false).completeSlides := by
  cases hf : findSlidesArr ((scan1 (sanitize p)
      { brace := 0, inStr := false, cur := none, pending := [],
        slides := [] }).pending.reverse) with
  | none => simp [parseLiveStreamL, hf]
  | some r => simp [parseLiveStreamL, hf]

/-- Any prefix of a canonical stream is the whole stream or splits as the
completed batches followed by a proper prefix of the next batch. -/
theorem streamDecomp : ∀ (bs : List (List Slide)) (p : List Char),
    p <+: streamChars bs →
    p = streamChars bs
    ∨ ∃ done b mid q, bs = done ++ b :: mid ∧ p = streamChars done ++ q
        ∧ q <+: batchChars b ∧ q ≠ batchChars b := by
  intro bs
  induction bs with
  | nil =>
    intro p hp
    rw [show streamChars [] = [] from rfl, List.prefix_nil] at hp
    exact Or.inl (by rw [hp]; rfl)
  | cons b rest ih =>
    intro p hp
    rw [streamChars_cons b rest] at hp
    rcases prefSplit p (batchChars b) (streamChars rest) hp with
      ⟨hpre, hlen⟩ | ⟨p2, rfl, hp2⟩
    · refine Or.inr ⟨[], b, rest, p, rfl, by simp [streamChars], hpre, ?_⟩
      intro h
      rw [h] at hlen
      exact lt_irrefl _ hlen
    · rcases ih p2 hp2 with heq | ⟨done2, b2, mid2, q2, hbs2, hp2e, hq2, hq2ne⟩
      · exact Or.inl (by rw [heq, streamChars_cons])
      · exact Or.inr ⟨b :: done2, b2, mid2, q2, by rw [hbs2]; simp, by
          rw [hp2e, streamChars_cons, List.append_assoc], hq2, hq2ne⟩

set_option maxHeartbeats 1000000 in
/-- Core monotonicity on right-trimmed buffers: between any two nested
prefixes of a well-formed canonical stream, the completed-slides count is
non-decreasing. -/
theorem c9_core (bs : List (List Slide)) (hok : streamOk bs = true)
    (t1 t2 : List Char) (h12 : t1 <+: t2) (h2 : t2 <+: streamChars bs)
    (hl1 : ∀ c, t1.getLast? = some c → jsWs c = false)
    (hl2 : ∀ c, t2.getLast? = some c → jsWs c = false) :
    (parseLiveStreamL t1 false).completeSlides.length
      ≤ (parseLiveStreamL t2 false).completeSlides.length := by
  have hcl : batchesClean bs = true := streamOk_clean bs hok
  have h1 : t1 <+: streamChars bs := h12.trans h2
  rcases streamDecomp bs t2 h2 with heq2 | ⟨done2, b2, mid2, q2, hbs2, hp2e, hq2, hq2ne⟩
  · subst heq2
    have hcount2 : (parseLiveStreamL (streamChars bs) false).completeSlides
        = (bs.map (fun bb => bb.map slideToJson)).flatten := by
      rw [← completeSlides_flag (streamChars bs) true, parseLiveStreamL_canonical bs hcl]
    rcases streamDecomp bs t1 h1 with heq1 | ⟨done1, b1, mid1, q1, hbs1, hp1e, hq1, hq1ne⟩
    · subst heq1
      exact le_rfl
    · obtain ⟨hok1, hokr1⟩ := streamOk_append done1 (b1 :: mid1)
        (by rw [← hbs1]; exact hok)
      have hb1ok : b1.all (fun sl => Slide.clean sl && !(sl.title == "")
          && !(sl.content == "")) = true := by
        unfold streamOk at hokr1
        rw [List.all_cons, Bool.and_eq_true] at hokr1
        exact hokr1.1
      obtain ⟨m1, hm1le, hcnt1, hlow1, hhigh1⟩ := parseLiveStreamL_pre_batch done1 b1
        (streamOk_clean done1 hok1) hb1ok q1 hq1 hq1ne
        (by rw [← hp1e]; exact hl1)
      rw [hp1e, hcnt1, hcount2]
      have hL1 := accSlides_len_le (b1.take m1)
        ((done1.map (fun bb => bb.map slideToJson)).flatten)
      have hT : (b1.take m1).length ≤ b1.length := by
        rw [List.length_take]
        omega
      have hflat : ((bs.map (fun bb => bb.map slideToJson)).flatten).length
          = ((done1.map (fun bb => bb.map slideToJson)).flatten).length + b1.length
            + ((mid1.map (fun bb => bb.map slideToJson)).flatten).length := by
        rw [hbs1]
        simp only [List.map_append, List.flatten_append, List.length_append,
          List.map_cons, List.flatten_cons, List.length_map]
        omega
      omega
  · obtain ⟨hok2, hokr2⟩ := streamOk_append done2 (b2 :: mid2)
      (by rw [← hbs2]; exact hok)
    have hb2ok : b2.all (fun sl => Slide.clean sl && !(sl.title == "")
        && !(sl.content == "")) = true := by
      unfold streamOk at hokr2
      rw [List.all_cons, Bool.and_eq_true] at hokr2
      exact hokr2.1
    obtain ⟨m2, hm2le, hcnt2, hlow2, hhigh2⟩ := parseLiveStreamL_pre_batch done2 b2
      (streamOk_clean done2 hok2) hb2ok q2 hq2 hq2ne
      (by rw [← hp2e]; exact hl2)
    rcases streamDecomp bs t1 h1 with heq1 | ⟨done1, b1, mid1, q1, hbs1, hp1e, hq1, hq1ne⟩
    · exfalso
      have hlen2 : q2.length < (batchChars b2).length := pre_length_lt q2 _ hq2 hq2ne
      have h12len := h12.length_le
      rw [heq1, hp2e, hbs2, streamChars_append, streamChars_cons] at h12len
      simp only [List.length_append] at h12len
      omega
    · obtain ⟨hok1, hokr1⟩ := streamOk_append done1 (b1 :: mid1)
        (by rw [← hbs1]; exact hok)
      have hb1ok : b1.all (fun sl => Slide.clean sl && !(sl.title == "")
          && !(sl.content == "")) = true := by
        unfold streamOk at hokr1
        rw [List.all_cons, Bool.and_eq_true] at hokr1
        exact hokr1.1
      obtain ⟨m1, hm1le, hcnt1, hlow1, hhigh1⟩ := parseLiveStreamL_pre_batch done1 b1
        (streamOk_clean done1 hok1) hb1ok q1 hq1 hq1ne
        (by rw [← hp1e]; exact hl1)
      rw [hp1e, hp2e, hcnt1, hcnt2]
      have hpre1 : done1 <+: bs := ⟨b1 :: mid1, hbs1.symm⟩
      have hpre2 : done2 <+: bs := ⟨b2 :: mid2, hbs2.symm⟩
      have hlen12 : done1.length ≤ done2.length := by
        by_contra hlt
        push_neg at hlt
        have hp21 : done2 <+: done1 :=
          List.prefix_of_prefix_length_le hpre2 hpre1 (le_of_lt hlt)
        obtain ⟨t, ht⟩ := hp21
        cases t with
        | nil =>
          rw [List.append_nil] at ht
          rw [ht] at hlt
          omega
        | cons d ds =>
          have hd : d = b2 := by
            have he : done2 ++ b2 :: mid2 = done2 ++ d :: (ds ++ b1 :: mid1) := by
              rw [← hbs2, hbs1, ← ht]
              simp [List.append_assoc]
            have he2 := List.append_cancel_left he
            injection he2 with hA _
            exact hA.symm
          have hlen2b : q2.length < (batchChars b2).length := pre_length_lt q2 _ hq2 hq2ne
          have h12len := h12.length_le
          rw [hp1e, hp2e, ← ht, hd, streamChars_append, streamChars_cons] at h12len
          simp only [List.length_append] at h12len
          omega
      have hd12 : done1 <+: done2 := List.prefix_of_prefix_length_le hpre1 hpre2 hlen12
      obtain ⟨t, ht⟩ := hd12
      cases t with
      | nil =>
        rw [List.append_nil] at ht
        subst ht
        have hbm : b1 = b2 ∧ mid1 = mid2 := by
          have he := hbs1.symm.trans hbs2
          have he2 := List.append_cancel_left he
          injection he2 with hA hB
          exact ⟨hA, hB⟩
        obtain ⟨hA, _⟩ := hbm
        rw [← hA] at hq2 hq2ne hcnt2 hlow2 hhigh2 hm2le ⊢
        have hq12 : q1 <+: q2 := by
          have hx : streamChars done1 ++ q1 <+: streamChars done1 ++ q2 := by
            rw [← hp1e, ← hp2e]
            exact h12
          exact (List.prefix_append_right_inj _).1 hx
        have hm12 : m1 ≤ m2 := by
          by_contra hmlt
          push_neg at hmlt
          have h1le : 1 ≤ m1 := by omega
          have hA2 := hlow1 h1le
          have hB2 := hhigh2 (by omega)
          have hC2 := sepComma_take_len_mono b1 (m2 + 1) m1 (by omega)
          have hD2 := hq12.length_le
          omega
        have hsplit : b1.take m2 = b1.take m1 ++ (b1.drop m1).take (m2 - m1) := by
          rw [← List.take_add]
          congr 1
          omega
        rw [hsplit, accSlides_append]
        exact accSlides_len_ge _ _
      | cons d ds =>
        have hd : d = b1 := by
          have he : done1 ++ b1 :: mid1 = done1 ++ d :: (ds ++ b2 :: mid2) := by
            rw [← hbs1, hbs2, ← ht]
            simp [List.append_assoc]
          have he2 := List.append_cancel_left he
          injection he2 with hA _
          exact hA.symm
        rw [hd] at ht
        have hL1 := accSlides_len_le (b1.take m1)
          ((done1.map (fun bb => bb.map slideToJson)).flatten)
        have hL2 := accSlides_len_ge (b2.take m2)
          ((done2.map (fun bb => bb.map slideToJson)).flatten)
        have hT : (b1.take m1).length ≤ b1.length := by
          rw [List.length_take]
          omega
        have hD2len : ((done2.map (fun bb => bb.map slideToJson)).flatten).length
            = ((done1.map (fun bb => bb.map slideToJson)).flatten).length + b1.length
              + ((ds.map (fun bb => bb.map slideToJson)).flatten).length := by
          rw [← ht]
          simp only [List.map_append, List.flatten_append, List.length_append,
            List.map_cons, List.flatten_cons, List.length_map]
          omega
        omega

/-- **C9.**  For every well-formed canonical stream and every pair of buffers
of the monotonically growing buffer of the orchestrator loop, cut anywhere
(the second extending the first by appending text, both prefixes of the
serialized stream), the length of `completeSlides` returned by
`parseLiveStream` is non-decreasing, whatever the completion flags. -/
theorem c9_append_monotone (bs : List (List Slide)) (hok : streamOk bs = true)
    (p1 p2 : List Char) (h12 : p1 <+: p2) (h2 : p2 <+: streamChars bs)
    (c1 c2 : Bool) :
    (parseLiveStream (String.mk p1) c1).completeSlides.length
      ≤ (parseLiveStream (String.mk p2) c2).completeSlides.length := by
  have hcl : batchesClean bs = true := streamOk_clean bs hok
  have h1 : p1 <+: streamChars bs := h12.trans h2
  obtain ⟨hs11, hs12⟩ := sanitize_trimRight bs hcl p1 h1
  obtain ⟨hs21, hs22⟩ := sanitize_trimRight bs hcl p2 h2
  rw [show parseLiveStream (String.mk p1) c1 = parseLiveStreamL p1 c1 from rfl,
    show parseLiveStream (String.mk p2) c2 = parseLiveStreamL p2 c2 from rfl,
    completeSlides_flag p1 c1, completeSlides_flag p2 c2,
    parseLiveStreamL_congr p1 (trimRight p1) false (by rw [hs11, hs12]),
    parseLiveStreamL_congr p2 (trimRight p2) false (by rw [hs21, hs22])]
  exact c9_core bs hok (trimRight p1) (trimRight p2) (trimRight_mono p1 p2 h12)
    ((trimRight_pre p2).trans h2) (trimRight_last p1) (trimRight_last p2)

set_option maxRecDepth 1000000 in
/-- **C9, witness.**  A two-batch stream cut mid-slide (twenty characters,
inside the first slide's serialization) against a longer cut inside the
second batch's header (sixty characters): zero then one complete slide. -/
theorem c9_append_monotone_witness :
    streamOk [[⟨"A", "<div>a</div>"⟩], [⟨"B", "<div>b</div>"⟩]] = true
    ∧ (parseLiveStream (String.mk ((streamChars
          [[⟨"A", "<div>a</div>"⟩], [⟨"B", "<div>b</div>"⟩]]).take 20))
        false).completeSlides.length
      ≤ (parseLiveStream (String.mk ((streamChars
          [[⟨"A", "<div>a</div>"⟩], [⟨"B", "<div>b</div>"⟩]]).take 60))
        true).completeSlides.length
    ∧ (parseLiveStream (String.mk ((streamChars
          [[⟨"A", "<div>a</div>"⟩], [⟨"B", "<div>b</div>"⟩]]).take 20))
        false).completeSlides.length = 0
    ∧ (parseLiveStream (String.mk ((streamChars
          [[⟨"A", "<div>a</div>"⟩], [⟨"B", "<div>b</div>"⟩]]).take 60))
        true).completeSlides.length = 1 :=
  ⟨by decide,
    c9_append_monotone [[⟨"A", "<div>a</div>"⟩], [⟨"B", "<div>b</div>"⟩]] (by decide)
      ((streamChars [[⟨"A", "<div>a</div>"⟩], [⟨"B", "<div>b</div>"⟩]]).take 20)
      ((streamChars [[⟨"A", "<div>a</div>"⟩], [⟨"B", "<div>b</div>"⟩]]).take 60)
      (by decide) (by decide) false true,
    by decide, by decide⟩

end Preso
